import Mathlib

/-! # ARM32 operand model of the Subzero code generator

A shallow embedding of parts of `IceInstARM32.cpp`: the operand helpers
(flexible immediates, modified floating-point immediates, memory-offset
legality), the branch rewrites of `InstARM32Br`, the register lists of push
and pop, the constructors of memory operands and of the instructions with side
effects, and the textual and binary emission of branches, labels, moves, loads,
stores and pops with the text fixup in between, together with theorems about
them.

Conventions of the embedding:

* `uint32_t` and `uint64_t` values are natural numbers; every operation that
  can leave the word is followed by an explicit `% 2 ^ 32`.
* `int32_t` values are integers.
* A C++ function returning `bool` and writing its results through pointer
  arguments becomes a function into `Option`: `none` is `false`, and
  `some outs` is `true` with the written outputs.
* `float` and `double` constants are handled through their bit patterns, as
  the source itself does with `reinterpret_cast`.
* A method that updates the instruction returns the instruction after the
  call next to its result. A failed `assert` and a call of
  `llvm::report_fatal_error` are an `error` of `Except`.
* Pointers are compared for identity only; a null pointer is `none`.
* Emission is a function on the emission state: the text written to the emit
  stream and the state of the assembler. The build-time switch
  `BuildDefs::dump()` is a flag of the embedding.
-/

namespace Ice

/-! ## Helpers of `Utils` -/

namespace Utils

/-- Modelled from the spec: `Utils::rotateLeft32` lives in `IceUtils.h`, which
is not among the sources; the spec names it rotate-left on 32-bit words. A
shift of zero returns the value itself, otherwise the two shifted halves are
or-ed together, the left shift being truncated to the word. -/
def rotateLeft32 (value shift : Nat) : Nat :=
  if shift = 0 then value
  else ((value <<< shift) % 2 ^ 32) ||| (value >>> (32 - shift))

/-- Modelled from the spec: `Utils::rotateRight32` lives in `IceUtils.h`, which
is not among the sources; the spec names it rotate-right on 32-bit words. -/
def rotateRight32 (value shift : Nat) : Nat :=
  if shift = 0 then value
  else (value >>> shift) ||| ((value <<< (32 - shift)) % 2 ^ 32)

/-- Modelled from the spec: `Utils::IsAligned` lives in `IceUtils.h`, which is
not among the sources; the spec words the check as the offset being a multiple
of the alignment. -/
def IsAligned (Value Alignment : Int) : Bool :=
  decide (Value % Alignment = 0)

/-- Modelled from the spec: `Utils::IsAbsoluteUint` lives in `IceUtils.h`, which
is not among the sources. Offsets are encoded as sign and magnitude, and the
check is that the magnitude of `Value` fits in `N` bits. -/
def IsAbsoluteUint (N : Int) (Value : Int) : Bool :=
  decide (Value.natAbs < 2 ^ N.toNat)

end Utils

namespace ARM32

/-! ## `OperandARM32FlexImm` -/

/-- The data members of `OperandARM32FlexImm`: an 8-bit magnitude and a rotation
count. The value type `Ty` is carried through unchanged and plays no part in
the properties below, so it is left out. -/
structure OperandARM32FlexImm where
  Imm : Nat
  RotateAmt : Nat
deriving DecidableEq, Repr

namespace OperandARM32FlexImm

/-- The `for (int Rot = ...; Rot < 16; Rot++)` loop of `canHoldImm`, entered at
`Rot` with `n` iterations left (`n = 16 - Rot`). The result is the pair
`(RotateAmt, Immed_8)` written through the two output pointers. -/
def canHoldImmLoop (Immediate : Nat) : Nat → Nat → Option (Nat × Nat)
  | 0, _ => none
  | n + 1, Rot =>
    let Imm8 := Utils.rotateLeft32 Immediate (2 * Rot)
    if Imm8 ≤ 0xFF then some (Rot, Imm8)
    else canHoldImmLoop Immediate n (Rot + 1)

/-- The function `OperandARM32FlexImm::canHoldImm(Immediate, &RotateAmt, &Immed_8)`. The
result `some (RotateAmt, Immed_8)` stands for `true` with the two outputs. -/
def canHoldImm (Immediate : Nat) : Option (Nat × Nat) :=
  if Immediate ≤ 0xFF then some (0, Immediate)
  else canHoldImmLoop Immediate 15 1

/-- The `while ((Imm & 0x03) == 0 && RotateAmt > 0)` loop of `create`, by
recursion on `RotateAmt`; returns the final `(Imm, RotateAmt)`. -/
def createLoop (Imm : Nat) : Nat → Nat × Nat
  | 0 => (Imm, 0)
  | r + 1 => if Imm &&& 0x03 = 0 then createLoop (Imm >>> 2) r else (Imm, r + 1)

/-- The function `OperandARM32FlexImm::create(Func, Ty, Imm, RotateAmt)`. The source asserts
`Utils::IsUint(8, Imm)`; that precondition is a hypothesis of the theorems. -/
def create (Imm RotateAmt : Nat) : OperandARM32FlexImm :=
  let p := createLoop Imm RotateAmt
  { Imm := p.1, RotateAmt := p.2 }

/-- The number printed by `OperandARM32FlexImm::emit`:
`Utils::rotateRight32(Imm, 2 * RotateAmt)`. -/
def emitValue (Op : OperandARM32FlexImm) : Nat :=
  Utils.rotateRight32 Op.Imm (2 * Op.RotateAmt)

end OperandARM32FlexImm

/-! ## `OperandARM32Mem` -/

/-- One row of the table `TypeARM32Attributes`, restricted to the two fields
that `canHoldOffset` reads (both are `int8_t` in the source). -/
structure TypeARM32Attributes_ where
  SExtAddrOffsetBits : Int
  ZExtAddrOffsetBits : Int
deriving DecidableEq, Repr

/-- What `canHoldOffset` consults about the value types. The table is filled
from the macro `ICETYPEARM32_TABLE` and the two predicates come from
`IceTypes`; neither is among the sources, so they are parameters. -/
structure TypeTable (Ty : Type) where
  TypeARM32Attributes : Ty → TypeARM32Attributes_
  isScalarFloatingType : Ty → Bool
  isVectorType : Ty → Bool

namespace OperandARM32Mem

/-- The local `Bits` of `canHoldOffset`: the table entry selected by
`SignExt`. -/
def offsetBits {Ty : Type} (T : TypeTable Ty) (ty : Ty) (SignExt : Bool) : Int :=
  if SignExt then (T.TypeARM32Attributes ty).SExtAddrOffsetBits
  else (T.TypeARM32Attributes ty).ZExtAddrOffsetBits

/-- The function `OperandARM32Mem::canHoldOffset(Ty, SignExt, Offset)`. -/
def canHoldOffset {Ty : Type} (T : TypeTable Ty) (ty : Ty) (SignExt : Bool)
    (Offset : Int) : Bool :=
  let Bits := offsetBits T ty SignExt
  if Bits = 0 then decide (Offset = 0)
  else if T.isScalarFloatingType ty || T.isVectorType ty then
    Utils.IsAligned Offset 4 && Utils.IsAbsoluteUint Bits Offset
  else Utils.IsAbsoluteUint Bits Offset

end OperandARM32Mem

/-- A small table used to run `canHoldOffset` on concrete inputs: a type without
offset bits, an integer type with 12 bits and a scalar floating-point type with
8 bits. -/
inductive SampleType where
  | noOffset
  | word
  | float
deriving DecidableEq, Repr

def sampleTable : TypeTable SampleType where
  TypeARM32Attributes
    | .noOffset => { SExtAddrOffsetBits := 0, ZExtAddrOffsetBits := 0 }
    | .word => { SExtAddrOffsetBits := 12, ZExtAddrOffsetBits := 12 }
    | .float => { SExtAddrOffsetBits := 8, ZExtAddrOffsetBits := 8 }
  isScalarFloatingType
    | .float => true
    | _ => false
  isVectorType := fun _ => false

/-! ## `OperandARM32FlexFpImm` -/

/-- The constants `OperandARM32FlexFpImm::canHoldImm` can be handed, as far as
the function looks at them: a `ConstantFloat` or a `ConstantDouble`, each given
by the bit pattern that the source reads through `reinterpret_cast`, or an
operand of any other type. -/
inductive FpConstant where
  | ConstantFloat (I32 : Nat)
  | ConstantDouble (I64 : Nat)
  | Other
deriving DecidableEq, Repr

namespace OperandARM32FlexFpImm

namespace F32

def a : Nat := 0x80000000
def B : Nat := 0x40000000
def bbbbb : Nat := 0x3E000000
def cdefgh : Nat := 0x01F80000
def AllowedBits : Nat := a ||| B ||| bbbbb ||| cdefgh

end F32

namespace F64

def a : Nat := 0x80000000
def B : Nat := 0x40000000
def bbbbbbbb : Nat := 0x3FC00000
def cdefgh : Nat := 0x003F0000
def AllowedBits : Nat := a ||| B ||| bbbbbbbb ||| cdefgh

end F64

/-- The `case IceType_f32` branch of `canHoldImm`, on the bit pattern `I32` of
the constant. `~AllowedBits` is the 32-bit complement. -/
def canHoldImmF32 (I32 : Nat) : Option Nat :=
  if I32 &&& (0xFFFFFFFF ^^^ F32.AllowedBits) ≠ 0 then none
  else if (I32 &&& F32.bbbbb) ≠ F32.bbbbb ∧ (I32 &&& F32.bbbbb) ≠ 0 then none
  else if decide ((I32 &&& F32.B) ≠ 0) = decide ((I32 &&& F32.bbbbb) ≠ 0) then none
  else some ((if I32 &&& F32.a ≠ 0 then 0x80 else 0x00) |||
             (if I32 &&& F32.bbbbb ≠ 0 then 0x40 else 0x00) |||
             ((I32 &&& F32.cdefgh) >>> 19))

/-- The `case IceType_f64` branch of `canHoldImm`, on the bit pattern `I64` of
the constant. -/
def canHoldImmF64 (I64 : Nat) : Option Nat :=
  if I64 &&& 0xFFFFFFFF ≠ 0 then none
  else
    let I32 := (I64 >>> 32) % 2 ^ 32
    if I32 &&& (0xFFFFFFFF ^^^ F64.AllowedBits) ≠ 0 then none
    else if (I32 &&& F64.bbbbbbbb) ≠ F64.bbbbbbbb ∧ (I32 &&& F64.bbbbbbbb) ≠ 0 then none
    else if decide ((I32 &&& F64.B) ≠ 0) = decide ((I32 &&& F64.bbbbbbbb) ≠ 0) then none
    else some ((if I32 &&& F64.a ≠ 0 then 0x80 else 0x00) |||
               (if I32 &&& F64.bbbbbbbb ≠ 0 then 0x40 else 0x00) |||
               ((I32 &&& F64.cdefgh) >>> 16))

/-- The function `OperandARM32FlexFpImm::canHoldImm(C, &ModifiedImm)`: the switch on the type
of the constant. An operand of another type is a fatal error; `ok none` is the
result `false` and `ok (some m)` the result `true` with `*ModifiedImm = m`. -/
def canHoldImm : FpConstant → Except String (Option Nat)
  | .ConstantFloat I32 => .ok (canHoldImmF32 I32)
  | .ConstantDouble I64 => .ok (canHoldImmF64 I64)
  | .Other => .error "Unhandled fp constant type."

end OperandARM32FlexFpImm

namespace Materialize

def a : Nat := 0x80
def b : Nat := 0x40
def cdefgh : Nat := 0x3F
def AllowedBits : Nat := a ||| b ||| cdefgh

end Materialize

/-- The function `materializeFloatImmediate(ModifiedImm)`: the 32-bit pattern `Ret` that the
source reinterprets as a `float`. -/
def materializeFloatImmediate (ModifiedImm : Nat) : Nat :=
  (if ModifiedImm &&& Materialize.a ≠ 0 then 0x80000000 else 0) |||
  (if ModifiedImm &&& Materialize.b ≠ 0 then 0x3E000000 else 0x40000000) |||
  (((ModifiedImm &&& Materialize.cdefgh) <<< 19) % 2 ^ 32)

/-! ## Reading bit patterns as IEEE-754 numbers

The claims about the double-precision branch compare a `double` pattern with
the `float` pattern that `materializeFloatImmediate` returns. The fields below
are the standard binary32 and binary64 layouts; they are what gives the bit
patterns their numerical meaning. -/

namespace IEEE

def f32Sign (w : Nat) : Nat := w / 2 ^ 31 % 2
def f32Exponent (w : Nat) : Nat := w / 2 ^ 23 % 2 ^ 8
def f32Fraction (w : Nat) : Nat := w % 2 ^ 23

def f64Sign (w : Nat) : Nat := w / 2 ^ 63 % 2
def f64Exponent (w : Nat) : Nat := w / 2 ^ 52 % 2 ^ 11
def f64Fraction (w : Nat) : Nat := w % 2 ^ 52

/-- The value of a normal number with the given sign, unbiased exponent and
fraction of the significand. -/
def normalValue (sign : Nat) (e : Int) (frac : ℚ) : ℚ :=
  (-1) ^ sign * (2 : ℚ) ^ e * (1 + frac)

/-- The number denoted by a binary32 pattern with a normal exponent. -/
def f32Value (w : Nat) : ℚ :=
  normalValue (f32Sign w) ((f32Exponent w : Int) - 127) ((f32Fraction w : ℚ) / 2 ^ 23)

/-- The number denoted by a binary64 pattern with a normal exponent. -/
def f64Value (w : Nat) : ℚ :=
  normalValue (f64Sign w) ((f64Exponent w : Int) - 1023) ((f64Fraction w : ℚ) / 2 ^ 52)

end IEEE

/-! ## `InstARM32Br` -/

/-- Modelled from the spec: the condition codes `CondARM32::Cond` and the table
`InstARM32CondAttributes` are filled from `ICEINSTARM32COND_TABLE`, which is not
among the sources. The spec describes an enumeration of predicates with an
"always" predicate and an opposite-predicate mapping; both are parameters. -/
structure CondTable (Cond : Type) where
  AL : Cond
  Opposite : Cond → Cond

/-- A `CfgNode` is used only through pointers that are compared for identity;
a node is identified by its index, and a null pointer is `none`. -/
abbrev CfgNode := Nat

/-- The data member of `InstARM32Label`. -/
structure InstARM32Label where
  Number : Nat
deriving DecidableEq, Repr

/-- The state of an `InstARM32Br` that `optimizeBranch` and `repointEdges` read
or write: the two targets and the label (null pointers are `none`), the
predicate of `InstARM32Pred`, and the deleted flag of `Inst`. -/
structure InstARM32Br (Cond : Type) where
  TargetTrue : Option CfgNode
  TargetFalse : Option CfgNode
  Label : Option InstARM32Label
  Predicate : Cond
  Deleted : Bool
deriving DecidableEq, Repr

/-- The function `InstARM32::getOppositeCondition(Cond)`. -/
def getOppositeCondition {Cond : Type} (C : CondTable Cond) (c : Cond) : Cond :=
  C.Opposite c

namespace InstARM32Br

variable {Cond : Type} [DecidableEq Cond]

/-- The constructor `InstARM32Br::InstARM32Br(Func, TargetTrue, TargetFalse,
Label, Pred)`; a new instruction is not deleted. -/
def construct (TargetTrue TargetFalse : Option CfgNode) (Label : Option InstARM32Label)
    (Pred : Cond) : InstARM32Br Cond :=
  { TargetTrue := TargetTrue, TargetFalse := TargetFalse, Label := Label,
    Predicate := Pred, Deleted := false }

/-- Modelled from the spec: `isUnconditionalBranch` is defined in
`IceInstARM32.h`, which is not among the sources; a branch is unconditional
when its predicate is "always". -/
def isUnconditionalBranch (C : CondTable Cond) (I : InstARM32Br Cond) : Bool :=
  decide (I.Predicate = C.AL)

/-- The message of the failed `assert(getTargetTrue() == nullptr)`. -/
def assertTargetTrueNull : String := "assert(getTargetTrue() == nullptr)"

/-- The message of the failed `assert(Predicate != CondARM32::AL)`. -/
def assertPredicateNotAL : String := "assert(Predicate != CondARM32::AL)"

/-- The function `InstARM32Br::optimizeBranch(NextNode)`. The result `ok (r, I')`
is the returned boolean together with the instruction after the call; a
failed assertion is an `error`. -/
def optimizeBranch (C : CondTable Cond) (I : InstARM32Br Cond) (NextNode : Option CfgNode) :
    Except String (Bool × InstARM32Br Cond) :=
  if NextNode = none then .ok (false, I)
  else if I.Label ≠ none then .ok (false, I)
  else if I.TargetFalse = none then .ok (false, I)
  else if isUnconditionalBranch C I = true ∧ I.TargetFalse = NextNode then
    if I.TargetTrue = none then .ok (true, { I with Deleted := true })
    else .error assertTargetTrueNull
  else if I.TargetFalse = NextNode then .ok (true, { I with TargetFalse := none })
  else if I.TargetTrue = NextNode then
    if I.Predicate ≠ C.AL then
      .ok (true, { I with Predicate := getOppositeCondition C I.Predicate,
                          TargetTrue := I.TargetFalse,
                          TargetFalse := none })
    else .error assertPredicateNotAL
  else .ok (false, I)

/-- The guards of `optimizeBranch` under which control arrives at the
predicate-inversion step, that is at `assert(Predicate != CondARM32::AL)`. -/
def reachesInversion (C : CondTable Cond) (I : InstARM32Br Cond) (NextNode : Option CfgNode) :
    Prop :=
  NextNode ≠ none ∧ I.Label = none ∧ I.TargetFalse ≠ none ∧
    ¬ (isUnconditionalBranch C I = true ∧ I.TargetFalse = NextNode) ∧
    I.TargetFalse ≠ NextNode ∧ I.TargetTrue = NextNode

/-- The function `InstARM32Br::repointEdges(OldNode, NewNode)`: the returned
`Found` and the instruction after the call. -/
def repointEdges (I : InstARM32Br Cond) (OldNode NewNode : Option CfgNode) :
    Bool × InstARM32Br Cond :=
  let Found := false
  let (I1, Found) :=
    if I.TargetFalse = OldNode then ({ I with TargetFalse := NewNode }, true) else (I, Found)
  let (I2, Found) :=
    if I1.TargetTrue = OldNode then ({ I1 with TargetTrue := NewNode }, true) else (I1, Found)
  (Found, I2)

end InstARM32Br

/-- A small set of condition codes used to run the branch code on concrete
inputs. -/
inductive SampleCond where
  | EQ
  | NE
  | AL
deriving DecidableEq, Repr

def sampleCondTable : CondTable SampleCond where
  AL := .AL
  Opposite
    | .EQ => .NE
    | .NE => .EQ
    | .AL => .AL

/-! ## Push and pop -/

/-- Modelled from the spec: what the push and pop code consults from `IceTypes`,
which is not among the sources: the type `IceType_void` and the predicate
`isScalarIntegerType`. -/
structure IceTypes (IceType : Type) where
  IceType_void : IceType
  isScalarIntegerType : IceType → Bool

/-- Modelled from the spec: a `Variable` of `IceOperand.h`, which is not among
the sources, as far as push and pop look at it: its type and its register
number, which is `NoRegister` while no register is assigned. -/
structure Variable (IceType : Type) where
  Ty : IceType
  RegNum : Int
deriving DecidableEq, Repr

namespace Variable

def NoRegister : Int := -1

def getType {IceType : Type} (v : Variable IceType) : IceType := v.Ty

def getRegNum {IceType : Type} (v : Variable IceType) : Int := v.RegNum

def hasReg {IceType : Type} (v : Variable IceType) : Bool := decide (v.RegNum ≠ NoRegister)

end Variable

/-- The loop of `validatePushOrPopRegisterListOrDie`, entered with the current
`PreviousTy`. A call of `llvm::report_fatal_error` is an `error`. -/
def validateLoop {IceType : Type} [DecidableEq IceType] (T : IceTypes IceType)
    (PreviousTy : IceType) : List (Variable IceType) → Except String Unit
  | [] => .ok ()
  | Reg :: rest =>
    if PreviousTy ≠ T.IceType_void ∧ Reg.getType ≠ PreviousTy then
      .error "Type mismatch when popping/pushing registers."
    else if Reg.hasReg = false then
      .error "Push/pop operand does not have a register assigned to it."
    else validateLoop T Reg.getType rest

/-- The function `validatePushOrPopRegisterListOrDie(RegList)`. -/
def validatePushOrPopRegisterListOrDie {IceType : Type} [DecidableEq IceType]
    (T : IceTypes IceType) (RegList : List (Variable IceType)) : Except String Unit :=
  validateLoop T T.IceType_void RegList

/-- The fields of `RegARM32::Table` and the enumerators that push and pop
consult; the table is filled from `REGARM32_TABLE`, which is not among the
sources, so it is a parameter. -/
structure RegTable where
  Reg_NUM : Int
  IsGPR : Int → Bool
  Encoding : Int → Int
  Encoded_Reg_sp : Int
  Encoded_Not_GPR : Int

namespace RegARM32

/-- The function `RegARM32::getEncodedGPReg(RegNum)`, with the assertions of
`assertRegisterDefined` and of `isGPRegister`. -/
def getEncodedGPReg (R : RegTable) (RegNum : Int) : Except String Int :=
  if ¬ (0 ≤ RegNum) then .error "assert(RegNum >= 0)"
  else if ¬ (RegNum < R.Reg_NUM) then .error "assert(RegNum < Reg_NUM)"
  else if R.IsGPR RegNum = false then .error "assert(isGPRegister(RegNum))"
  else .ok (R.Encoding RegNum)

end RegARM32

/-- The calls that the binary path of push and pop makes on the assembler; the
predicate argument is always `CondARM32::AL` and is left out. -/
inductive AsmCall (IceType : Type) where
  | push (Var : Variable IceType)
  | pushList (GPRegisters : Nat)
  | vpush (BaseReg : Variable IceType) (RegCount : Nat)
  | pop (Var : Variable IceType)
  | popList (GPRegisters : Nat)
  | vpop (BaseReg : Variable IceType) (RegCount : Nat)
deriving DecidableEq, Repr

def VpushVpopMaxConsecRegs : Nat := 16

/-- The function `isAssignedConsecutiveRegisters(Before, After)` with its two
assertions. -/
def isAssignedConsecutiveRegisters {IceType : Type} (Before After : Variable IceType) :
    Except String Bool :=
  if Before.hasReg = false then .error "assert(Before->hasReg())"
  else if After.hasReg = false then .error "assert(After->hasReg())"
  else .ok (decide (Before.getRegNum + 1 = After.getRegNum))

/-- The state of the loops over a general-purpose register list: the count, the
register mask and the last variable seen. -/
structure GPRState (IceType : Type) where
  IntegerCount : Nat
  GPRegisters : Nat
  Last : Option (Variable IceType)

/-- The instruction `InstARM32Push`: its sources. -/
structure InstARM32Push (IceType : Type) where
  Srcs : List (Variable IceType)

/-- The instruction `InstARM32Pop`: its destinations. -/
structure InstARM32Pop (IceType : Type) where
  Dests : List (Variable IceType)

namespace InstARM32Push

variable {IceType : Type} [DecidableEq IceType]

/-- The constructor `InstARM32Push::InstARM32Push(Func, Srcs)`. -/
def construct (T : IceTypes IceType) (Srcs : List (Variable IceType)) :
    Except String (InstARM32Push IceType) :=
  match validatePushOrPopRegisterListOrDie T Srcs with
  | .error e => .error e
  | .ok () => .ok { Srcs := Srcs }

/-- The loop of `emitIAS` over a general-purpose register list. -/
def gprLoop (R : RegTable) (st : GPRState IceType) :
    List (Variable IceType) → Except String (GPRState IceType)
  | [] => .ok st
  | Var :: rest =>
    match RegARM32.getEncodedGPReg R Var.getRegNum with
    | .error e => .error e
    | .ok Reg =>
      if Reg = R.Encoded_Not_GPR then .error "assert(Reg != RegARM32::Encoded_Not_GPR)"
      else gprLoop R { IntegerCount := st.IntegerCount + 1,
                       GPRegisters := st.GPRegisters ||| ((1 <<< Reg.toNat) % 2 ^ 32),
                       Last := some Var } rest

/-- The loop of `emitIAS` over a float or vector register list, entered with
the previous register `Reg`, the base `BaseReg` of the current run and its
length `RegCount`; the last element is the `vpush` after the loop. -/
def vfpLoop (Reg BaseReg : Variable IceType) (RegCount : Nat) :
    List (Variable IceType) → Except String (List (AsmCall IceType))
  | [] => .ok [.vpush BaseReg RegCount]
  | NextReg :: rest =>
    if RegCount < VpushVpopMaxConsecRegs then
      match isAssignedConsecutiveRegisters Reg NextReg with
      | .error e => .error e
      | .ok true => vfpLoop NextReg BaseReg (RegCount + 1) rest
      | .ok false =>
        match vfpLoop NextReg NextReg 1 rest with
        | .error e => .error e
        | .ok calls => .ok (.vpush BaseReg RegCount :: calls)
    else
      match vfpLoop NextReg NextReg 1 rest with
      | .error e => .error e
      | .ok calls => .ok (.vpush BaseReg RegCount :: calls)

/-- The function `InstARM32Push::emitIAS(Func)`: the assembler calls it makes.
The closing test of `needsTextFixup` concerns the assembler and is left out. -/
def emitIAS (T : IceTypes IceType) (R : RegTable) (I : InstARM32Push IceType) :
    Except String (List (AsmCall IceType)) :=
  match I.Srcs with
  | [] => .error "assert(false): Empty push list"
  | Reg :: rest =>
    if T.isScalarIntegerType Reg.getType = true then
      match gprLoop R { IntegerCount := 0, GPRegisters := 0, Last := none } I.Srcs with
      | .error e => .error e
      | .ok st =>
        match st.IntegerCount, st.Last with
        | 0, _ => .ok []
        | 1, some LastSrc =>
          if R.Encoded_Reg_sp = LastSrc.getRegNum then
            .error "assert(RegARM32::Encoded_Reg_sp != LastSrc->getRegNum())"
          else .ok [.push LastSrc]
        | _, _ => .ok [.pushList st.GPRegisters]
    else vfpLoop Reg Reg 1 rest

end InstARM32Push

namespace InstARM32Pop

variable {IceType : Type} [DecidableEq IceType]

/-- The constructor `InstARM32Pop::InstARM32Pop(Func, Dests)`. -/
def construct (T : IceTypes IceType) (Dests : List (Variable IceType)) :
    Except String (InstARM32Pop IceType) :=
  match validatePushOrPopRegisterListOrDie T Dests with
  | .error e => .error e
  | .ok () => .ok { Dests := Dests }

/-- The loop of `emitIAS` over a general-purpose register list. -/
def gprLoop (R : RegTable) (st : GPRState IceType) :
    List (Variable IceType) → Except String (GPRState IceType)
  | [] => .ok st
  | Var :: rest =>
    if Var.hasReg = false then .error "assert(Var->hasReg())"
    else
      match RegARM32.getEncodedGPReg R Var.getRegNum with
      | .error e => .error e
      | .ok Reg =>
        gprLoop R { IntegerCount := st.IntegerCount + 1,
                    GPRegisters := st.GPRegisters ||| ((1 <<< Reg.toNat) % 2 ^ 32),
                    Last := some Var } rest

/-- The loop of `emitIAS` over a float or vector register list, entered with
the previous register `Reg`, the base `BaseReg` of the current run (a null
pointer before the first element) and its length `RegCount`; the end of the
list is the `if (RegCount) vpop` after the loop, where a call with a null
`BaseReg` is an `error`. -/
def vfpLoop (Reg : Variable IceType) (BaseReg : Option (Variable IceType)) (RegCount : Nat) :
    List (Variable IceType) → Except String (List (AsmCall IceType))
  | [] =>
    match BaseReg with
    | some Base => if RegCount ≠ 0 then .ok [.vpop Base RegCount] else .ok []
    | none => if RegCount ≠ 0 then .error "vpop of a null BaseReg" else .ok []
  | NextReg :: rest =>
    match BaseReg with
    | none => vfpLoop NextReg (some NextReg) 1 rest
    | some Base =>
      if RegCount < VpushVpopMaxConsecRegs then
        match isAssignedConsecutiveRegisters Reg NextReg with
        | .error e => .error e
        | .ok true => vfpLoop NextReg (some Base) (RegCount + 1) rest
        | .ok false =>
          match vfpLoop NextReg (some NextReg) 1 rest with
          | .error e => .error e
          | .ok calls => .ok (.vpop Base RegCount :: calls)
      else
        match vfpLoop NextReg (some NextReg) 1 rest with
        | .error e => .error e
        | .ok calls => .ok (.vpop Base RegCount :: calls)

/-- The function `InstARM32Pop::emitIAS(Func)`: the assembler calls it makes.
The closing test of `needsTextFixup` concerns the assembler and is left out. -/
def emitIAS (T : IceTypes IceType) (R : RegTable) (I : InstARM32Pop IceType) :
    Except String (List (AsmCall IceType)) :=
  match I.Dests with
  | [] => .error "assert(false): Empty pop list"
  | Reg :: _ =>
    if T.isScalarIntegerType Reg.getType = true then
      match gprLoop R { IntegerCount := 0, GPRegisters := 0, Last := none } I.Dests with
      | .error e => .error e
      | .ok st =>
        match st.IntegerCount, st.Last with
        | 0, _ => .ok []
        | 1, some LastDest =>
          if R.Encoded_Reg_sp = LastDest.getRegNum then
            .error "assert(RegARM32::Encoded_Reg_sp != LastDest->getRegNum())"
          else .ok [.pop LastDest]
        | _, _ => .ok [.popList st.GPRegisters]
    else vfpLoop Reg none 0 I.Dests

end InstARM32Pop

/-! ### Runs of a float or vector register list -/

/-- The runs `(BaseReg, RegCount)` that the float and vector loops of push and
pop emit when no assertion fails, from the same loop state. It is the common
shape of the two loops and serves to state what they emit. -/
def vfpRuns {IceType : Type} (Reg BaseReg : Variable IceType) (RegCount : Nat) :
    List (Variable IceType) → List (Variable IceType × Nat)
  | [] => [(BaseReg, RegCount)]
  | NextReg :: rest =>
    if RegCount < VpushVpopMaxConsecRegs ∧ Reg.getRegNum + 1 = NextReg.getRegNum then
      vfpRuns NextReg BaseReg (RegCount + 1) rest
    else (BaseReg, RegCount) :: vfpRuns NextReg NextReg 1 rest

/-- The register numbers that a run covers: `RegCount` consecutive numbers from
the number of `BaseReg`. -/
def runRegisters {IceType : Type} (run : Variable IceType × Nat) : List Int :=
  (List.range run.2).map (fun (j : Nat) => run.1.getRegNum + (j : Int))

/-- The list positions at which the runs start when laid end to end, the first
run starting at `pos`. -/
def runStarts {IceType : Type} (pos : Nat) : List (Variable IceType × Nat) → List Nat
  | [] => []
  | run :: rest => pos :: runStarts (pos + run.2) rest

/-- The number of registers that the run in progress holds when position `k` is
reached, that is the distance from the start of the run containing position
`k - 1`; zero when there is no such run. -/
def heldBefore {IceType : Type} (k : Nat) : List (Variable IceType × Nat) → Nat
  | [] => 0
  | run :: rest => if k ≤ run.2 then k else heldBefore (k - run.2) rest

/-- Sample types and registers for running push and pop on concrete inputs. -/
inductive SampleIceType where
  | void
  | i32
  | f32
deriving DecidableEq, Repr

def sampleIceTypes : IceTypes SampleIceType where
  IceType_void := .void
  isScalarIntegerType
    | .i32 => true
    | _ => false

/-- A sample register table with 16 general-purpose registers numbered 0 to 15
(13 is the stack pointer) followed by 32 further registers. -/
def sampleRegTable : RegTable where
  Reg_NUM := 48
  IsGPR := fun r => decide (r < 16)
  Encoding := fun r => if r < 16 then r else r - 16
  Encoded_Reg_sp := 13
  Encoded_Not_GPR := -1

/-- A sample float register list: `n` variables of type `f32` in consecutive
registers from number `first`. -/
def sampleFloatRegs (first : Int) (n : Nat) : List (Variable SampleIceType) :=
  (List.range n).map (fun (j : Nat) => { Ty := SampleIceType.f32, RegNum := first + (j : Int) })

/-! ## Construction of memory operands and of instructions -/

/-- Modelled from the spec: the addressing modes of `OperandARM32Mem` are
declared in `IceInstARM32.h`, which is not among the sources: offset,
pre-index and post-index, and their negated forms. -/
inductive AddrMode where
  | Offset
  | PreIndex
  | PostIndex
  | NegOffset
  | NegPreIndex
  | NegPostIndex
deriving DecidableEq, Repr

/-- Modelled from the spec: the shift kinds are filled from
`ICEINSTARM32SHIFT_TABLE`, which is not among the sources; `kNoShift` is the
absence of a shift. -/
inductive ShiftKind where
  | kNoShift
  | LSL
  | LSR
  | ASR
  | ROR
  | RRX
deriving DecidableEq, Repr

/-- The data members of `OperandARM32Mem` together with the variable array
`Vars` of `Operand` (`NumVars` is its length). A null `ImmOffset` or `Index`
is `none`. -/
structure OperandARM32Mem (IceType : Type) where
  Ty : IceType
  Base : Variable IceType
  ImmOffset : Option Int
  Index : Option (Variable IceType)
  ShiftOp : ShiftKind
  ShiftAmt : Nat
  Mode : AddrMode
  Vars : List (Variable IceType)
deriving DecidableEq, Repr

namespace OperandARM32Mem

/-- Modelled from the spec: `isNegAddrMode` is defined in `IceInstARM32.h`, which
is not among the sources; it holds for the negated addressing modes. -/
def isNegAddrMode (Mode : AddrMode) : Bool :=
  match Mode with
  | .NegOffset => true
  | .NegPreIndex => true
  | .NegPostIndex => true
  | _ => false

/-- The constructor `OperandARM32Mem(Func, Ty, Base, ImmOffset, Mode)`. -/
def constructImm {IceType : Type} (Ty : IceType) (Base : Variable IceType)
    (ImmOffset : Option Int) (Mode : AddrMode) :
    Except String (OperandARM32Mem IceType) :=
  if isNegAddrMode Mode = true then .error "assert(!isNegAddrMode())"
  else .ok { Ty := Ty, Base := Base, ImmOffset := ImmOffset, Index := none,
             ShiftOp := .kNoShift, ShiftAmt := 0, Mode := Mode, Vars := [Base] }

/-- The constructor `OperandARM32Mem(Func, Ty, Base, Index, ShiftOp, ShiftAmt,
Mode)`. Whether a variable is rematerializable is an attribute kept by
`Variable` in `IceOperand.h`, which is not among the sources; it is read
through the parameter `isRematerializable`. -/
def constructIndex {IceType : Type} (isRematerializable : Variable IceType → Bool)
    (Ty : IceType) (Base Index : Variable IceType) (ShiftOp : ShiftKind) (ShiftAmt : Nat)
    (Mode : AddrMode) : Except String (OperandARM32Mem IceType) :=
  if isRematerializable Index = true then
    .error "Rematerializable Index Register is not allowed."
  else .ok { Ty := Ty, Base := Base, ImmOffset := none, Index := some Index,
             ShiftOp := ShiftOp, ShiftAmt := ShiftAmt, Mode := Mode, Vars := [Base, Index] }

end OperandARM32Mem

/-- The operands as far as the instructions below tell them apart: a
`Variable`, an `OperandARM32Mem`, or another operand (a constant or a flexible
operand) of which only the type is consulted. -/
inductive Operand (IceType : Type) where
  | Var (v : Variable IceType)
  | Mem (m : OperandARM32Mem IceType)
  | Other (Ty : IceType)
deriving DecidableEq, Repr

namespace Operand

def getType {IceType : Type} : Operand IceType → IceType
  | .Var v => v.getType
  | .Mem m => m.Ty
  | .Other Ty => Ty

end Operand

/-- The instruction kinds of `InstARM32::InstKindARM32` that are used below. -/
inductive InstKindARM32 where
  | Call
  | Vcmp
  | Vmrs
  | Dmb
deriving DecidableEq, Repr

/-- The part of an instruction that its constructor fills: the kind, the
destination, the sources, the predicate of `InstARM32Pred` (absent for a plain
`InstARM32`) and the flag `HasSideEffects` of `Inst`. -/
structure InstARM32 (IceType Cond : Type) where
  Kind : InstKindARM32
  MaxSrcs : Nat
  Dest : Option (Variable IceType)
  Srcs : List (Operand IceType)
  Predicate : Option Cond
  HasSideEffects : Bool
deriving DecidableEq, Repr

namespace InstARM32

variable {IceType Cond : Type}

/-- Modelled from the spec: the constructors of `Inst`, `InstARM32` and
`InstARM32Pred` are in headers that are not among the sources. They record
kind, destination and predicate and start with no sources; the value that
`Inst` gives the flag `HasSideEffects` is the parameter `HasSideEffectsInit`. -/
def base (HasSideEffectsInit : Bool) (Kind : InstKindARM32) (MaxSrcs : Nat)
    (Dest : Option (Variable IceType)) (Predicate : Option Cond) : InstARM32 IceType Cond :=
  { Kind := Kind, MaxSrcs := MaxSrcs, Dest := Dest, Srcs := [], Predicate := Predicate,
    HasSideEffects := HasSideEffectsInit }

/-- Modelled from the spec: `Inst::addSource` appends a source operand. -/
def addSource (I : InstARM32 IceType Cond) (Src : Operand IceType) : InstARM32 IceType Cond :=
  { I with Srcs := I.Srcs ++ [Src] }

end InstARM32

namespace InstARM32Call

/-- The constructor `InstARM32Call::InstARM32Call(Func, Dest, CallTarget)`. -/
def construct {IceType Cond : Type} (HasSideEffectsInit : Bool)
    (Dest : Option (Variable IceType)) (CallTarget : Operand IceType) :
    InstARM32 IceType Cond :=
  let I := InstARM32.base HasSideEffectsInit .Call 1 Dest none
  let I := { I with HasSideEffects := true }
  I.addSource CallTarget

end InstARM32Call

namespace InstARM32Vcmp

/-- The constructor `InstARM32Vcmp::InstARM32Vcmp(Func, Src0, Src1,
Predicate)`. -/
def construct {IceType Cond : Type} (HasSideEffectsInit : Bool) (Src0 : Variable IceType)
    (Src1 : Operand IceType) (Predicate : Cond) : InstARM32 IceType Cond :=
  let I := InstARM32.base HasSideEffectsInit .Vcmp 2 none (some Predicate)
  let I := { I with HasSideEffects := true }
  let I := I.addSource (.Var Src0)
  I.addSource Src1

end InstARM32Vcmp

namespace InstARM32Vmrs

/-- The constructor `InstARM32Vmrs::InstARM32Vmrs(Func, Predicate)`. -/
def construct {IceType Cond : Type} (HasSideEffectsInit : Bool) (Predicate : Cond) :
    InstARM32 IceType Cond :=
  let I := InstARM32.base HasSideEffectsInit .Vmrs 0 none (some Predicate)
  { I with HasSideEffects := true }

end InstARM32Vmrs

namespace InstARM32Dmb

/-- The constructor `InstARM32Dmb::InstARM32Dmb(Func)`, whose body is empty. -/
def construct {IceType Cond : Type} (C : CondTable Cond) (HasSideEffectsInit : Bool) :
    InstARM32 IceType Cond :=
  InstARM32.base HasSideEffectsInit .Dmb 0 none (some C.AL)

end InstARM32Dmb

/-! ## The binary path of a branch and where control goes -/

/-- The label handed to `Asm->b`: a local label obtained from
`getOrCreateLocalLabel(Number)` or the label of a node obtained from
`getOrCreateCfgNodeLabel(Index)`. -/
inductive BranchTarget where
  | localLabel (Number : Nat)
  | cfgNodeLabel (Index : CfgNode)
deriving DecidableEq, Repr

namespace InstARM32Br

variable {Cond : Type} [DecidableEq Cond]

/-- The function `InstARM32Br::emitIAS(Func)`: the calls `Asm->b(target,
predicate)` it makes, in order. Dereferencing a null target is an `error`; the
closing test of `needsTextFixup` concerns the assembler and is left out. -/
def emitIAS (C : CondTable Cond) (I : InstARM32Br Cond) :
    Except String (List (BranchTarget × Cond)) :=
  match I.Label with
  | some L => .ok [(.localLabel L.Number, I.Predicate)]
  | none =>
    if isUnconditionalBranch C I = true then
      match I.TargetFalse with
      | none => .error "getTargetFalse() is null"
      | some F => .ok [(.cfgNodeLabel F, I.Predicate)]
    else
      match I.TargetTrue with
      | none => .error "getTargetTrue() is null"
      | some T =>
        match I.TargetFalse with
        | some F => .ok [(.cfgNodeLabel T, I.Predicate), (.cfgNodeLabel F, C.AL)]
        | none => .ok [(.cfgNodeLabel T, I.Predicate)]

/-- Where control goes after a sequence of emitted branches when `holds` tells
which predicates are true: to the target of the first branch whose predicate
holds, and to the next block `Next` when none is taken. -/
def landing (holds : Cond → Bool) (Next : Option CfgNode) :
    List (BranchTarget × Cond) → Option BranchTarget
  | [] => Next.map BranchTarget.cfgNodeLabel
  | (target, pred) :: rest => if holds pred = true then some target else landing holds Next rest

/-- Where control goes after the branch instruction `I` laid out before the
block `Next`: a deleted instruction emits nothing and falls through, any other
emits the branches of `emitIAS`. -/
def controlReaches (C : CondTable Cond) (holds : Cond → Bool) (Next : Option CfgNode)
    (I : InstARM32Br Cond) : Except String (Option BranchTarget) :=
  if I.Deleted = true then .ok (Next.map BranchTarget.cfgNodeLabel)
  else
    match emitIAS C I with
    | .error e => .error e
    | .ok branches => .ok (landing holds Next branches)

end InstARM32Br

/-- The truth of the sample condition codes when the condition `EQ` comes out
as `taken`. -/
def sampleHolds (taken : Bool) : SampleCond → Bool
  | .EQ => taken
  | .NE => !taken
  | .AL => true

/-! ## Text emission and the fallback of the binary path -/

/-- The direct encodings that the instructions below request from the
assembler: `Asm->mov`, `Asm->ldr` and `Asm->str` with their operands and
predicate. -/
inductive EncodeCall (IceType Cond : Type) where
  | mov (Dest : Variable IceType) (Src : Operand IceType) (Pred : Cond)
  | ldr (Dest : Variable IceType) (Src : Operand IceType) (Pred : Cond)
  | str (Value : Operand IceType) (Mem : Operand IceType) (Pred : Cond)
deriving DecidableEq, Repr

/-- Modelled from the spec: `AssemblerARM32` is declared in
`IceAssemblerARM32.h`, which is not among the sources. Its state here is the
list of direct encodings requested, the request for a text fixup, the counter
of emitted text size, and the text blobs handed to `emitTextInst` with the size
reported for each. -/
structure AssemblerARM32 (IceType Cond : Type) where
  Encoded : List (EncodeCall IceType Cond)
  NeedsTextFixup : Bool
  EmitTextSize : Nat
  TextInsts : List (String × Nat)

namespace AssemblerARM32

variable {IceType Cond : Type}

/-- Modelled from the spec: `resetEmitTextSize` clears the counter. -/
def resetEmitTextSize (A : AssemblerARM32 IceType Cond) : AssemblerARM32 IceType Cond :=
  { A with EmitTextSize := 0 }

/-- Modelled from the spec: `incEmitTextSize(Amount)` adds to the counter. -/
def incEmitTextSize (A : AssemblerARM32 IceType Cond) (Amount : Nat) :
    AssemblerARM32 IceType Cond :=
  { A with EmitTextSize := A.EmitTextSize + Amount }

/-- Modelled from the spec: `decEmitTextSize(Amount)` takes from the counter;
the code calls it only after the same amount was added. -/
def decEmitTextSize (A : AssemblerARM32 IceType Cond) (Amount : Nat) :
    AssemblerARM32 IceType Cond :=
  { A with EmitTextSize := A.EmitTextSize - Amount }

/-- Modelled from the spec: `getEmitTextSize` reads the counter. -/
def getEmitTextSize (A : AssemblerARM32 IceType Cond) : Nat := A.EmitTextSize

/-- Modelled from the spec: `emitTextInst(Text, Size)` tells the binary stream
that the blob `Text` occupies `Size` bytes. -/
def emitTextInst (A : AssemblerARM32 IceType Cond) (Text : String) (Size : Nat) :
    AssemblerARM32 IceType Cond :=
  { A with TextInsts := A.TextInsts ++ [(Text, Size)] }

/-- Modelled from the spec: `setNeedsTextFixup` requests the fallback. -/
def setNeedsTextFixup (A : AssemblerARM32 IceType Cond) : AssemblerARM32 IceType Cond :=
  { A with NeedsTextFixup := true }

/-- Modelled from the spec: `needsTextFixup` reads the request. -/
def needsTextFixup (A : AssemblerARM32 IceType Cond) : Bool := A.NeedsTextFixup

/-- Modelled from the spec: a direct encoding such as `Asm->mov`. The encoder
records the request and, for the operand combinations it does not handle
(`handles` is false), asks for the fallback itself. -/
def encode (handles : EncodeCall IceType Cond → Bool) (A : AssemblerARM32 IceType Cond)
    (call : EncodeCall IceType Cond) : AssemblerARM32 IceType Cond :=
  { A with Encoded := A.Encoded ++ [call],
           NeedsTextFixup := A.NeedsTextFixup || !handles call }

end AssemblerARM32

/-- The build-time switch `BuildDefs::dump()` and the flag
`getDisableHybridAssembly()` of the global context. -/
structure EmitFlags where
  dump : Bool
  DisableHybridAssembly : Bool
deriving DecidableEq, Repr

/-- The state that emission works on: the text written so far to the stream
that `Ctx->getStrEmit()` denotes, and the assembler. -/
structure EmitContext (IceType Cond : Type) where
  StrEmit : String
  Asm : AssemblerARM32 IceType Cond

namespace EmitContext

variable {IceType Cond : Type}

/-- Writing to the emit stream, `Str << text`. -/
def write (ctx : EmitContext IceType Cond) (text : String) : EmitContext IceType Cond :=
  { ctx with StrEmit := ctx.StrEmit ++ text }

end EmitContext

/-- Modelled from the spec: how names are rendered in the text. The tables and
the `emit` methods of operands and nodes are not among the sources, so the
strings they produce are parameters. -/
structure TextNames (IceType Cond : Type) where
  predString : Cond → String
  getAsmName : CfgNode → String
  FunctionName : String
  emitVariable : Variable IceType → String
  emitOperand : Operand IceType → String
  getWidthString : IceType → String
  getVecWidthString : IceType → String

namespace InstARM32

variable {IceType Cond : Type}

/-- The function `InstARM32::startNextInst(Func)`. -/
def startNextInst (InstSize : Nat) (ctx : EmitContext IceType Cond) : EmitContext IceType Cond :=
  { ctx with Asm := ctx.Asm.incEmitTextSize InstSize }

/-- The function `InstARM32::emitUsingTextFixup(Func)` of an instruction with the
estimated size `InstSize` whose virtual `emit(Func)` is `emit`. With the
fallback disabled, reaching it is the fatal `UnimplementedError`. -/
def emitUsingTextFixup (flags : EmitFlags) (InstSize : Nat)
    (emit : EmitContext IceType Cond → Except String (EmitContext IceType Cond))
    (ctx : EmitContext IceType Cond) : Except String (EmitContext IceType Cond) :=
  if flags.dump = false then .ok ctx
  else if flags.DisableHybridAssembly = true then .error "UnimplementedError"
  else
    let OldStr := ctx.StrEmit
    let Asm := (ctx.Asm.resetEmitTextSize).incEmitTextSize InstSize
    match emit { StrEmit := "", Asm := Asm } with
    | .error e => .error e
    | .ok ctx2 =>
      .ok { StrEmit := OldStr,
            Asm := ctx2.Asm.emitTextInst ctx2.StrEmit ctx2.Asm.getEmitTextSize }

/-- The size argument of the last call of `emitTextInst`, when emission ended
normally and made one. -/
def reportedSize (result : Except String (EmitContext IceType Cond)) : Option Nat :=
  match result with
  | .error _ => none
  | .ok ctx => ctx.Asm.TextInsts.getLast?.map (fun blob => blob.2)

end InstARM32

namespace InstARM32Label

/-- The function `InstARM32Label::getName(Func)`. -/
def getName {IceType Cond : Type} (names : TextNames IceType Cond) (L : InstARM32Label) :
    String :=
  ".L" ++ names.FunctionName ++ "$local$__" ++ toString L.Number

/-- The function `InstARM32Label::emit(Func)`. -/
def emit {IceType Cond : Type} (flags : EmitFlags) (names : TextNames IceType Cond)
    (InstSize : Nat) (L : InstARM32Label) (ctx : EmitContext IceType Cond) :
    Except String (EmitContext IceType Cond) :=
  if flags.dump = false then .ok ctx
  else
    let ctx := { ctx with Asm := ctx.Asm.decEmitTextSize InstSize }
    .ok (ctx.write (getName names L ++ ":"))

end InstARM32Label

namespace InstARM32Br

variable {IceType Cond : Type} [DecidableEq Cond]

/-- The function `InstARM32Br::emit(Func)`. Dereferencing a null target is an
`error`. -/
def emit (flags : EmitFlags) (names : TextNames IceType Cond) (C : CondTable Cond)
    (InstSize : Nat) (I : InstARM32Br Cond) (ctx : EmitContext IceType Cond) :
    Except String (EmitContext IceType Cond) :=
  if flags.dump = false then .ok ctx
  else
    let ctx := ctx.write ("\tb" ++ names.predString I.Predicate ++ "\t")
    match I.Label with
    | some L => .ok (ctx.write (InstARM32Label.getName names L))
    | none =>
      if isUnconditionalBranch C I = true then
        match I.TargetFalse with
        | none => .error "getTargetFalse() is null"
        | some F => .ok (ctx.write (names.getAsmName F))
      else
        match I.TargetTrue with
        | none => .error "getTargetTrue() is null"
        | some T =>
          let ctx := ctx.write (names.getAsmName T)
          match I.TargetFalse with
          | some F =>
            let ctx := InstARM32.startNextInst InstSize ctx
            .ok (ctx.write ("\n\tb\t" ++ names.getAsmName F))
          | none => .ok ctx

end InstARM32Br

/-- The sample rendering of a variable: its register number after `s` for a
float register and after `r` otherwise. -/
def sampleEmitVariable (v : Variable SampleIceType) : String :=
  (match v.Ty with
   | .f32 => "s"
   | _ => "r") ++ toString v.RegNum

/-- Sample names for rendering text on concrete inputs. A variable is rendered
in the same way as a destination and as a source. -/
def sampleNames : TextNames SampleIceType SampleCond where
  predString
    | .EQ => "eq"
    | .NE => "ne"
    | .AL => ""
  getAsmName := fun n => ".Lnode" ++ toString n
  FunctionName := "f"
  emitVariable := sampleEmitVariable
  emitOperand
    | .Var v => sampleEmitVariable v
    | .Mem _ => "[mem]"
    | .Other _ => "#imm"
  getWidthString := fun _ => ""
  getVecWidthString
    | .f32 => ".f32"
    | _ => ""

/-- An assembler that has emitted nothing, inside an empty emit stream. -/
def sampleContext : EmitContext SampleIceType SampleCond where
  StrEmit := ""
  Asm := { Encoded := [], NeedsTextFixup := false, EmitTextSize := 0, TextInsts := [] }

/-! ## Moves, loads and stores -/

/-- Modelled from the spec: a `Variable64On32` of `IceOperand.h`, a double-width
variable that is split across the two single-width variables `getLo()` and
`getHi()`. -/
structure Variable64On32 (IceType : Type) where
  LoVar : Variable IceType
  HiVar : Variable IceType
deriving DecidableEq, Repr

/-- The function `isVariableWithoutRegister(Op)`. -/
def isVariableWithoutRegister {IceType : Type} : Operand IceType → Bool
  | .Var OpV => !OpV.hasReg
  | _ => false

/-- The function `isMemoryAccess(Op)`. -/
def isMemoryAccess {IceType : Type} (Op : Operand IceType) : Bool :=
  isVariableWithoutRegister Op ||
    (match Op with
     | .Mem _ => true
     | _ => false)

/-- The function `isMoveBetweenCoreAndVFPRegisters(Dest, Src)`. -/
def isMoveBetweenCoreAndVFPRegisters {IceType : Type} (T : TypeTable IceType)
    (Ty : IceTypes IceType) (Dest : Variable IceType) (Src : Operand IceType) : Bool :=
  let DestTy := Dest.getType
  let SrcTy := Src.getType
  !T.isVectorType DestTy && !T.isVectorType SrcTy &&
    (Ty.isScalarIntegerType DestTy == T.isScalarFloatingType SrcTy)

/-- The fields of an `InstARM32Mov`: the destination, the second destination
`DestHi` (a null pointer for a single destination), the sources and the
predicate. -/
structure InstARM32Mov (IceType Cond : Type) where
  Dest : Variable IceType
  DestHi : Option (Variable IceType)
  Srcs : List (Operand IceType)
  Predicate : Cond
deriving DecidableEq, Repr

namespace InstARM32Mov

variable {IceType Cond : Type}

/-- The constructor `InstARM32Mov::InstARM32Mov(Func, Dest, Src, Predicate)`. The
destination is a plain variable or a `Variable64On32`, and so is the source,
which may also be any other operand. -/
def construct (Dest : Variable IceType ⊕ Variable64On32 IceType)
    (Src : Operand IceType ⊕ Variable64On32 IceType) (Predicate : Cond) :
    Except String (InstARM32Mov IceType Cond) :=
  match Dest, Src with
  | .inr _, .inr _ => .error "assert(Dest64 == nullptr || Src64 == nullptr)"
  | .inr Dest64, .inl Src =>
    .ok { Dest := Dest64.LoVar, DestHi := some Dest64.HiVar, Srcs := [Src],
          Predicate := Predicate }
  | .inl Dest, .inl Src =>
    .ok { Dest := Dest, DestHi := none, Srcs := [Src], Predicate := Predicate }
  | .inl Dest, .inr Src64 =>
    .ok { Dest := Dest, DestHi := none, Srcs := [.Var Src64.LoVar, .Var Src64.HiVar],
          Predicate := Predicate }

/-- Modelled from the spec: `isMultiDest()` of the header, a move with a second
destination. -/
def isMultiDest (I : InstARM32Mov IceType Cond) : Bool := I.DestHi.isSome

/-- Modelled from the spec: `isMultiSource()` of the header, a move with two
sources. -/
def isMultiSource (I : InstARM32Mov IceType Cond) : Bool := I.Srcs.length == 2

/-- The function `InstARM32Mov::emitMultiDestSingleSource(Func)`. -/
def emitMultiDestSingleSource (flags : EmitFlags) (names : TextNames IceType Cond)
    (I : InstARM32Mov IceType Cond) (ctx : EmitContext IceType Cond) :
    Except String (EmitContext IceType Cond) :=
  if flags.dump = false then .ok ctx
  else
    match I.DestHi, I.Srcs[0]? with
    | none, _ => .error "assert(DestHi->hasReg()) on a null DestHi"
    | some _, none => .error "getSrc(0) out of range"
    | some DestHi, some (Operand.Var Src) =>
      let DestLo := I.Dest
      if DestHi.hasReg = false then .error "assert(DestHi->hasReg())"
      else if DestLo.hasReg = false then .error "assert(DestLo->hasReg())"
      else if Src.hasReg = false then .error "assert(llvm::isa<Variable>(Src) && Src->hasReg())"
      else
        let ctx := ctx.write ("\tvmov" ++ names.predString I.Predicate ++ "\t")
        let ctx := ctx.write (names.emitVariable DestLo)
        let ctx := ctx.write ", "
        let ctx := ctx.write (names.emitVariable DestHi)
        let ctx := ctx.write ", "
        .ok (ctx.write (names.emitVariable Src))
    | some _, some _ => .error "llvm::cast<Variable>(getSrc(0))"

/-- The function `InstARM32Mov::emitSingleDestMultiSource(Func)`. -/
def emitSingleDestMultiSource (flags : EmitFlags) (names : TextNames IceType Cond)
    (I : InstARM32Mov IceType Cond) (ctx : EmitContext IceType Cond) :
    Except String (EmitContext IceType Cond) :=
  if flags.dump = false then .ok ctx
  else
    match I.Srcs[0]?, I.Srcs[1]? with
    | some (Operand.Var SrcLo), some (Operand.Var SrcHi) =>
      let Dest := I.Dest
      if SrcHi.hasReg = false then .error "assert(SrcHi->hasReg())"
      else if SrcLo.hasReg = false then .error "assert(SrcLo->hasReg())"
      else if Dest.hasReg = false then .error "assert(Dest->hasReg())"
      else if I.Srcs.length ≠ 2 then .error "assert(getSrcSize() == 2)"
      else
        let ctx := ctx.write ("\tvmov" ++ names.predString I.Predicate ++ "\t")
        let ctx := ctx.write (names.emitVariable Dest)
        let ctx := ctx.write ", "
        let ctx := ctx.write (names.emitVariable SrcLo)
        let ctx := ctx.write ", "
        .ok (ctx.write (names.emitVariable SrcHi))
    | none, _ => .error "getSrc(0) out of range"
    | _, none => .error "getSrc(1) out of range"
    | _, _ => .error "llvm::cast<Variable>(getSrc(i))"

/-- The function `InstARM32Mov::emitSingleDestSingleSource(Func)`, the textual
path of a plain move. A call of `llvm::report_fatal_error` is an `error`. -/
def emitSingleDestSingleSource (flags : EmitFlags) (names : TextNames IceType Cond)
    (T : TypeTable IceType) (Ty : IceTypes IceType)
    (I : InstARM32Mov IceType Cond) (ctx : EmitContext IceType Cond) :
    Except String (EmitContext IceType Cond) :=
  if flags.dump = false then .ok ctx
  else
    let Dest := I.Dest
    if Dest.hasReg = false then .error "mov can't store."
    else
      match I.Srcs[0]? with
      | none => .error "getSrc(0) out of range"
      | some Src0 =>
        if isMemoryAccess Src0 = true then .error "mov can't load."
        else
          let DestTy := Dest.getType
          let IsVector := T.isVectorType DestTy
          let IsScalarFP := T.isScalarFloatingType DestTy
          let CoreVFPMove := isMoveBetweenCoreAndVFPRegisters T Ty Dest Src0
          let IsVMove := IsVector || IsScalarFP || CoreVFPMove
          let Opcode := if IsVMove then "vmov" else "mov"
          let WidthString := if !CoreVFPMove then names.getVecWidthString DestTy else ""
          let ctx := ctx.write ("\t" ++ Opcode)
          let ctx :=
            if IsVMove then ctx.write (names.predString I.Predicate ++ WidthString)
            else ctx.write (WidthString ++ names.predString I.Predicate)
          let ctx := ctx.write "\t"
          let ctx := ctx.write (names.emitVariable Dest)
          let ctx := ctx.write ", "
          .ok (ctx.write (names.emitOperand Src0))

/-- The function `InstARM32Mov::emitIASSingleDestSingleSource(Func)`, the binary
path of a plain move: what it does to the assembler. -/
def emitIASSingleDestSingleSource (handles : EncodeCall IceType Cond → Bool)
    (T : TypeTable IceType) (Ty : IceTypes IceType)
    (I : InstARM32Mov IceType Cond) (Asm : AssemblerARM32 IceType Cond) :
    Except String (AssemblerARM32 IceType Cond) :=
  let Dest := I.Dest
  match I.Srcs[0]? with
  | none => .error "getSrc(0) out of range"
  | some Src0 =>
    if Dest.hasReg = false then .error "mov can't store."
    else if isMemoryAccess Src0 = true then .error "mov can't load."
    else
      let DestTy := Dest.getType
      let DestIsVector := T.isVectorType DestTy
      let DestIsScalarFP := T.isScalarFloatingType DestTy
      let CoreVFPMove := isMoveBetweenCoreAndVFPRegisters T Ty Dest Src0
      if (DestIsVector || DestIsScalarFP || CoreVFPMove) = true then .ok Asm.setNeedsTextFixup
      else .ok (Asm.encode handles (.mov Dest Src0 I.Predicate))

/-- The function `InstARM32Mov::emit(Func)`. -/
def emit (flags : EmitFlags) (names : TextNames IceType Cond)
    (T : TypeTable IceType) (Ty : IceTypes IceType)
    (I : InstARM32Mov IceType Cond) (ctx : EmitContext IceType Cond) :
    Except String (EmitContext IceType Cond) :=
  if flags.dump = false then .ok ctx
  else if (I.isMultiDest && I.isMultiSource) = true then .error "Invalid vmov type."
  else if I.isMultiDest = true then emitMultiDestSingleSource flags names I ctx
  else if I.isMultiSource = true then emitSingleDestMultiSource flags names I ctx
  else emitSingleDestSingleSource flags names T Ty I ctx

/-- The function `InstARM32Mov::emitIAS(Func)` of a move with the estimated size
`InstSize`. -/
def emitIAS (flags : EmitFlags) (names : TextNames IceType Cond)
    (handles : EncodeCall IceType Cond → Bool)
    (T : TypeTable IceType) (Ty : IceTypes IceType) (InstSize : Nat)
    (I : InstARM32Mov IceType Cond) (ctx : EmitContext IceType Cond) :
    Except String (EmitContext IceType Cond) :=
  if (I.isMultiDest && I.isMultiSource) = true then .error "Invalid vmov type."
  else
    let step : Except String (AssemblerARM32 IceType Cond) :=
      if (!(I.isMultiDest || I.isMultiSource)) = true then
        emitIASSingleDestSingleSource handles T Ty I ctx.Asm
      else .ok ctx.Asm.setNeedsTextFixup
    match step with
    | .error e => .error e
    | .ok Asm =>
      let ctx := { ctx with Asm := Asm }
      if Asm.needsTextFixup = true then
        InstARM32.emitUsingTextFixup flags InstSize (emit flags names T Ty I) ctx
      else .ok ctx

end InstARM32Mov

/-- The fields of an `InstARM32Ldr`: the destination, the sources and the
predicate. -/
structure InstARM32Ldr (IceType Cond : Type) where
  Dest : Variable IceType
  Srcs : List (Operand IceType)
  Predicate : Cond
deriving DecidableEq, Repr

namespace InstARM32Ldr

variable {IceType Cond : Type}

/-- Modelled from the spec: the constructor of a load is in the header; it takes
the destination, one source and the predicate. -/
def construct (Dest : Variable IceType) (Source : Operand IceType) (Predicate : Cond) :
    InstARM32Ldr IceType Cond :=
  { Dest := Dest, Srcs := [Source], Predicate := Predicate }

/-- The function `InstARM32Ldr::emit(Func)`. -/
def emit (flags : EmitFlags) (names : TextNames IceType Cond) (T : TypeTable IceType)
    (I : InstARM32Ldr IceType Cond) (ctx : EmitContext IceType Cond) :
    Except String (EmitContext IceType Cond) :=
  if flags.dump = false then .ok ctx
  else if I.Srcs.length ≠ 1 then .error "assert(getSrcSize() == 1)"
  else if I.Dest.hasReg = false then .error "assert(getDest()->hasReg())"
  else
    match I.Srcs[0]? with
    | none => .error "getSrc(0) out of range"
    | some Src0 =>
      let DestTy := I.Dest.getType
      let IsVector := T.isVectorType DestTy
      let IsScalarFloat := T.isScalarFloatingType DestTy
      let ActualOpcode := if IsVector then "vld1" else (if IsScalarFloat then "vldr" else "ldr")
      let VectorMarker := if IsVector then ".64" else ""
      let WidthString := if IsVector then "" else names.getWidthString DestTy
      let ctx := ctx.write ("\t" ++ ActualOpcode)
      let IsVInst := IsVector || IsScalarFloat
      let ctx :=
        if IsVInst then ctx.write (names.predString I.Predicate ++ WidthString)
        else ctx.write (WidthString ++ names.predString I.Predicate)
      let ctx := ctx.write (VectorMarker ++ "\t")
      let ctx := ctx.write (names.emitVariable I.Dest)
      let ctx := ctx.write ", "
      .ok (ctx.write (names.emitOperand Src0))

/-- The function `InstARM32Ldr::emitIAS(Func)` of a load with the estimated size
`InstSize`. -/
def emitIAS (flags : EmitFlags) (names : TextNames IceType Cond)
    (handles : EncodeCall IceType Cond → Bool) (T : TypeTable IceType) (InstSize : Nat)
    (I : InstARM32Ldr IceType Cond) (ctx : EmitContext IceType Cond) :
    Except String (EmitContext IceType Cond) :=
  if I.Srcs.length ≠ 1 then .error "assert(getSrcSize() == 1)"
  else
    let Dest := I.Dest
    let DestTy := Dest.getType
    let step : Except String (AssemblerARM32 IceType Cond) :=
      if (T.isVectorType DestTy || T.isScalarFloatingType DestTy) = true then
        .ok ctx.Asm.setNeedsTextFixup
      else
        match I.Srcs[0]? with
        | none => .error "getSrc(0) out of range"
        | some Src0 => .ok (ctx.Asm.encode handles (.ldr Dest Src0 I.Predicate))
    match step with
    | .error e => .error e
    | .ok Asm =>
      let ctx := { ctx with Asm := Asm }
      if Asm.needsTextFixup = true then
        InstARM32.emitUsingTextFixup flags InstSize (emit flags names T I) ctx
      else .ok ctx

end InstARM32Ldr

/-- The fields of an `InstARM32Str`: the sources (the value and the address) and
the predicate; a store has no destination. -/
structure InstARM32Str (IceType Cond : Type) where
  Srcs : List (Operand IceType)
  Predicate : Cond
deriving DecidableEq, Repr

namespace InstARM32Str

variable {IceType Cond : Type}

/-- The constructor `InstARM32Str::InstARM32Str(Func, Value, Mem, Predicate)`. -/
def construct (Value : Variable IceType) (Mem : OperandARM32Mem IceType) (Predicate : Cond) :
    InstARM32Str IceType Cond :=
  { Srcs := [.Var Value, .Mem Mem], Predicate := Predicate }

/-- The function `InstARM32Str::emit(Func)`. -/
def emit (flags : EmitFlags) (names : TextNames IceType Cond) (T : TypeTable IceType)
    (I : InstARM32Str IceType Cond) (ctx : EmitContext IceType Cond) :
    Except String (EmitContext IceType Cond) :=
  if flags.dump = false then .ok ctx
  else if I.Srcs.length ≠ 2 then .error "assert(getSrcSize() == 2)"
  else
    match I.Srcs[0]?, I.Srcs[1]? with
    | some Src0, some Src1 =>
      let Ty := Src0.getType
      let IsVectorStore := T.isVectorType Ty
      let IsScalarFloat := T.isScalarFloatingType Ty
      let Opcode := if IsVectorStore then "vst1" else (if IsScalarFloat then "vstr" else "str")
      let VecEltWidthString := if IsVectorStore then ".64" else ""
      let ctx := ctx.write ("\t" ++ Opcode)
      let IsVInst := IsVectorStore || IsScalarFloat
      let ctx :=
        if IsVInst then ctx.write (names.predString I.Predicate ++ names.getWidthString Ty)
        else ctx.write (names.getWidthString Ty ++ names.predString I.Predicate)
      let ctx := ctx.write (VecEltWidthString ++ "\t")
      let ctx := ctx.write (names.emitOperand Src0)
      let ctx := ctx.write ", "
      .ok (ctx.write (names.emitOperand Src1))
    | _, _ => .error "getSrc(i) out of range"

/-- The function `InstARM32Str::emitIAS(Func)` of a store with the estimated size
`InstSize`. -/
def emitIAS (flags : EmitFlags) (names : TextNames IceType Cond)
    (handles : EncodeCall IceType Cond → Bool) (T : TypeTable IceType) (InstSize : Nat)
    (I : InstARM32Str IceType Cond) (ctx : EmitContext IceType Cond) :
    Except String (EmitContext IceType Cond) :=
  if I.Srcs.length ≠ 2 then .error "assert(getSrcSize() == 2)"
  else
    match I.Srcs[0]?, I.Srcs[1]? with
    | some Src0, some Src1 =>
      let Ty := Src0.getType
      let Asm :=
        if (T.isVectorType Ty || T.isScalarFloatingType Ty) = true then
          ctx.Asm.setNeedsTextFixup
        else ctx.Asm.encode handles (.str Src0 Src1 I.Predicate)
      let ctx := { ctx with Asm := Asm }
      if Asm.needsTextFixup = true then
        InstARM32.emitUsingTextFixup flags InstSize (emit flags names T I) ctx
      else .ok ctx
    | _, _ => .error "getSrc(i) out of range"

end InstARM32Str

/-- A sample type table over `SampleIceType`: `f32` is the scalar floating
type, there is no vector type, and the offset widths are those of a word. -/
def sampleTypeTable : TypeTable SampleIceType where
  TypeARM32Attributes := fun _ => { SExtAddrOffsetBits := 12, ZExtAddrOffsetBits := 12 }
  isScalarFloatingType
    | .f32 => true
    | _ => false
  isVectorType := fun _ => false

/-! ## The textual path of pop -/

/-- The variables of the loop of `InstARM32Pop::emit` over a float or vector
register list: the bounds `Start` and `End` of the run being collected, the
register `Reg` seen last, and the emission state. -/
structure VpopTextState (IceType Cond : Type) where
  Start : Nat
  End : Nat
  Reg : Variable IceType
  ctx : EmitContext IceType Cond

namespace InstARM32Pop

variable {IceType Cond : Type}

/-- The body `Str << ", "; Dests[j]->emit(Func);` for the indices `j` of a `for`
loop. -/
def emitRest (names : TextNames IceType Cond) (Dests : List (Variable IceType)) :
    List Nat → EmitContext IceType Cond → Except String (EmitContext IceType Cond)
  | [], ctx => .ok ctx
  | j :: js, ctx =>
    match Dests[j]? with
    | none => .error "Dests[j] out of range"
    | some Var => emitRest names Dests js ((ctx.write ", ").write (names.emitVariable Var))

/-- The statements `Dests[Start]->emit(Func);` and
`for (SizeT j = Start + 1; j <= End; ++j)` that print one run. -/
def emitRun (names : TextNames IceType Cond) (Dests : List (Variable IceType))
    (Start End : Nat) (ctx : EmitContext IceType Cond) :
    Except String (EmitContext IceType Cond) :=
  match Dests[Start]? with
  | none => .error "Dests[Start] out of range"
  | some Var =>
    emitRest names Dests (List.range' (Start + 1) (End - Start))
      (ctx.write (names.emitVariable Var))

/-- The loop `for (SizeT i = 2; i <= DestSize; ++i)` of `InstARM32Pop::emit`
over the values of `i` that are left. -/
def emitLoop (names : TextNames IceType Cond) (InstSize : Nat)
    (Dests : List (Variable IceType)) (DestSize : Nat) :
    List Nat → VpopTextState IceType Cond → Except String (VpopTextState IceType Cond)
  | [], st => .ok st
  | i :: rest, st =>
    match Dests[DestSize - i]? with
    | none => .error "Dests[DestSize - i] out of range"
    | some PreviousReg =>
      match isAssignedConsecutiveRegisters PreviousReg st.Reg with
      | .error e => .error e
      | .ok false =>
        match emitRun names Dests st.Start st.End st.ctx with
        | .error e => .error e
        | .ok ctx =>
          let ctx := InstARM32.startNextInst InstSize ctx
          let ctx := ctx.write "\x7d\n\tvpop\t\x7b"
          emitLoop names InstSize Dests DestSize rest
            { Start := DestSize - i, End := DestSize - i, Reg := PreviousReg, ctx := ctx }
      | .ok true =>
        emitLoop names InstSize Dests DestSize rest
          { Start := DestSize - i, End := st.End, Reg := PreviousReg, ctx := st.ctx }

/-- The function `InstARM32Pop::emit(Func)` of a pop with the estimated size
`InstSize`. -/
def emit (flags : EmitFlags) (T : IceTypes IceType) (names : TextNames IceType Cond)
    (InstSize : Nat) (I : InstARM32Pop IceType) (ctx : EmitContext IceType Cond) :
    Except String (EmitContext IceType Cond) :=
  if flags.dump = false then .ok ctx
  else
    let DestSize := I.Dests.length
    match I.Dests with
    | [] => .error "assert(false): Empty pop list"
    | Reg :: _ =>
      if T.isScalarIntegerType Reg.getType = true then
        let ctx := ctx.write "\tpop\t\x7b"
        let ctx := ctx.write (names.emitVariable Reg)
        match emitRest names I.Dests (List.range' 1 (DestSize - 1)) ctx with
        | .error e => .error e
        | .ok ctx => .ok (ctx.write "\x7d")
      else
        match I.Dests[DestSize - 1]? with
        | none => .error "Dests[DestSize - 1] out of range"
        | some Last =>
          let ctx := ctx.write "\tvpop\t\x7b"
          match emitLoop names InstSize I.Dests DestSize (List.range' 2 (DestSize - 1))
              { Start := DestSize - 1, End := DestSize - 1, Reg := Last, ctx := ctx } with
          | .error e => .error e
          | .ok st =>
            match emitRun names I.Dests st.Start st.End st.ctx with
            | .error e => .error e
            | .ok ctx => .ok (ctx.write "\x7d")

end InstARM32Pop

/-- The text and the counter of emitted text size that an emission leaves. -/
def EmitContext.textAndSize {IceType Cond : Type}
    (result : Except String (EmitContext IceType Cond)) : Except String (String × Nat) :=
  result.map (fun ctx => (ctx.StrEmit, ctx.Asm.EmitTextSize))

end ARM32

/-! ## Bit-level facts about the rotations -/

namespace Utils

theorem testBit_eq_false_of_lt_word {v : Nat} (hv : v < 2 ^ 32) {j : Nat} (hj : 32 ≤ j) :
    v.testBit j = false :=
  Nat.testBit_lt_two_pow (lt_of_lt_of_le hv (Nat.pow_le_pow_right (by decide) hj))

theorem testBit_rotateLeft32 (v s i : Nat) (hv : v < 2 ^ 32) (hs : 0 < s) (hs2 : s < 32) :
    (rotateLeft32 v s).testBit i = (decide (i < 32) && v.testBit ((i + 32 - s) % 32)) := by
  unfold rotateLeft32
  rw [if_neg (by omega)]
  simp only [Nat.testBit_or, Nat.testBit_mod_two_pow, Nat.testBit_shiftLeft,
    Nat.testBit_shiftRight]
  by_cases h32 : i < 32
  · by_cases hi : s ≤ i
    · have e1 : (i + 32 - s) % 32 = i - s := by omega
      have e2 : v.testBit (32 - s + i) = false := testBit_eq_false_of_lt_word hv (by omega)
      simp [h32, hi, e1, e2]
    · have e1 : (i + 32 - s) % 32 = 32 - s + i := by omega
      simp [h32, hi, e1]
  · have e2 : v.testBit (32 - s + i) = false := testBit_eq_false_of_lt_word hv (by omega)
    simp [h32, e2]

theorem testBit_rotateRight32 (v s i : Nat) (hv : v < 2 ^ 32) (hs : 0 < s) (hs2 : s < 32) :
    (rotateRight32 v s).testBit i = (decide (i < 32) && v.testBit ((i + s) % 32)) := by
  unfold rotateRight32
  rw [if_neg (by omega)]
  simp only [Nat.testBit_or, Nat.testBit_mod_two_pow, Nat.testBit_shiftLeft,
    Nat.testBit_shiftRight]
  by_cases h32 : i < 32
  · by_cases hi : 32 - s ≤ i
    · have e1 : (i + s) % 32 = i - (32 - s) := by omega
      have e2 : v.testBit (s + i) = false := testBit_eq_false_of_lt_word hv (by omega)
      simp [h32, hi, e1, e2]
    · have e1 : (i + s) % 32 = s + i := by omega
      simp [h32, hi, e1]
  · have e2 : v.testBit (s + i) = false := testBit_eq_false_of_lt_word hv (by omega)
    simp [h32, e2]

theorem rotateLeft32_lt (v s : Nat) (hv : v < 2 ^ 32) (hs2 : s < 32) :
    rotateLeft32 v s < 2 ^ 32 := by
  rcases Nat.eq_zero_or_pos s with h0 | hs
  · simpa [rotateLeft32, h0] using hv
  · apply Nat.lt_pow_two_of_testBit
    intro i hi
    rw [testBit_rotateLeft32 v s i hv hs hs2]
    simp [Nat.not_lt.mpr hi]

theorem rotateRight32_lt (v s : Nat) (hv : v < 2 ^ 32) (hs2 : s < 32) :
    rotateRight32 v s < 2 ^ 32 := by
  rcases Nat.eq_zero_or_pos s with h0 | hs
  · simpa [rotateRight32, h0] using hv
  · apply Nat.lt_pow_two_of_testBit
    intro i hi
    rw [testBit_rotateRight32 v s i hv hs hs2]
    simp [Nat.not_lt.mpr hi]

theorem rotateRight32_rotateLeft32 (v s : Nat) (hv : v < 2 ^ 32) (hs2 : s < 32) :
    rotateRight32 (rotateLeft32 v s) s = v := by
  rcases Nat.eq_zero_or_pos s with h0 | hs
  · simp [rotateRight32, rotateLeft32, h0]
  · apply Nat.eq_of_testBit_eq
    intro i
    rw [testBit_rotateRight32 _ s i (rotateLeft32_lt v s hv hs2) hs hs2,
      testBit_rotateLeft32 v s _ hv hs hs2]
    by_cases h32 : i < 32
    · have e1 : ((i + s) % 32 + 32 - s) % 32 = i := by omega
      have e2 : (i + s) % 32 < 32 := Nat.mod_lt _ (by decide)
      simp [h32, e1, e2]
    · simp [h32, testBit_eq_false_of_lt_word hv (Nat.not_lt.mp h32)]

theorem rotateLeft32_rotateRight32 (v s : Nat) (hv : v < 2 ^ 32) (hs2 : s < 32) :
    rotateLeft32 (rotateRight32 v s) s = v := by
  rcases Nat.eq_zero_or_pos s with h0 | hs
  · simp [rotateRight32, rotateLeft32, h0]
  · apply Nat.eq_of_testBit_eq
    intro i
    rw [testBit_rotateLeft32 _ s i (rotateRight32_lt v s hv hs2) hs hs2,
      testBit_rotateRight32 v s _ hv hs hs2]
    by_cases h32 : i < 32
    · have e1 : ((i + 32 - s) % 32 + s) % 32 = i := by omega
      have e2 : (i + 32 - s) % 32 < 32 := Nat.mod_lt _ (by decide)
      simp [h32, e1, e2]
    · simp [h32, testBit_eq_false_of_lt_word hv (Nat.not_lt.mp h32)]

/-- Masking with a run of `w` ones that starts at bit `lo` extracts the
corresponding field of the word. -/
theorem and_shifted_mask (x lo w : Nat) :
    x &&& ((2 ^ w - 1) * 2 ^ lo) = (x / 2 ^ lo % 2 ^ w) * 2 ^ lo := by
  rw [← Nat.shiftLeft_eq, ← Nat.shiftLeft_eq, ← Nat.shiftRight_eq_div_pow]
  apply Nat.eq_of_testBit_eq
  intro i
  simp only [Nat.testBit_and, Nat.testBit_shiftLeft, Nat.testBit_two_pow_sub_one,
    Nat.testBit_mod_two_pow, Nat.testBit_shiftRight]
  by_cases h : lo ≤ i
  · have e : lo + (i - lo) = i := by omega
    simp [h, e, Bool.and_comm]
  · simp [h]

end Utils

namespace ARM32

namespace OperandARM32FlexImm

open Utils

/-! ## The search loop of `canHoldImm` -/

theorem canHoldImmLoop_eq_some (v : Nat) : ∀ (n Rot r m : Nat),
    canHoldImmLoop v n Rot = some (r, m) ↔
      (Rot ≤ r ∧ r < Rot + n ∧ m = rotateLeft32 v (2 * r) ∧ m ≤ 0xFF ∧
        ∀ r', Rot ≤ r' → r' < r → ¬ rotateLeft32 v (2 * r') ≤ 0xFF) := by
  intro n
  induction n with
  | zero =>
    intro Rot r m
    simp only [canHoldImmLoop]
    constructor
    · intro h; cases h
    · rintro ⟨h1, h2, -⟩; omega
  | succ n ih =>
    intro Rot r m
    simp only [canHoldImmLoop]
    by_cases hfit : rotateLeft32 v (2 * Rot) ≤ 0xFF
    · rw [if_pos hfit]
      constructor
      · intro h
        simp only [Option.some.injEq, Prod.mk.injEq] at h
        obtain ⟨rfl, rfl⟩ := h
        exact ⟨le_refl _, by omega, rfl, hfit, fun r' h1 h2 => by omega⟩
      · rintro ⟨h1, -, h3, -, h5⟩
        have hr : r = Rot := by
          by_contra hne
          exact h5 Rot (le_refl _) (by omega) hfit
        subst hr
        rw [h3]
    · rw [if_neg hfit, ih]
      constructor
      · rintro ⟨h1, h2, h3, h4, h5⟩
        refine ⟨by omega, by omega, h3, h4, ?_⟩
        intro r' hr1 hr2
        by_cases e : r' = Rot
        · rw [e]; exact hfit
        · exact h5 r' (by omega) hr2
      · rintro ⟨h1, h2, h3, h4, h5⟩
        have hne : r ≠ Rot := by
          rintro rfl
          rw [h3] at h4
          exact hfit h4
        exact ⟨by omega, by omega, h3, h4, fun r' hr1 hr2 => h5 r' (by omega) hr2⟩

theorem canHoldImmLoop_eq_none (v : Nat) : ∀ (n Rot : Nat),
    canHoldImmLoop v n Rot = none ↔
      ∀ r', Rot ≤ r' → r' < Rot + n → ¬ rotateLeft32 v (2 * r') ≤ 0xFF := by
  intro n
  induction n with
  | zero =>
    intro Rot
    simp only [canHoldImmLoop, true_iff]
    intro r' h1 h2
    omega
  | succ n ih =>
    intro Rot
    simp only [canHoldImmLoop]
    by_cases hfit : rotateLeft32 v (2 * Rot) ≤ 0xFF
    · rw [if_pos hfit]
      constructor
      · intro h; cases h
      · intro h; exact absurd hfit (h Rot (le_refl _) (by omega))
    · rw [if_neg hfit, ih]
      constructor
      · intro h r' hr1 hr2
        by_cases e : r' = Rot
        · rw [e]; exact hfit
        · exact h r' (by omega) (by omega)
      · intro h r' hr1 hr2
        exact h r' (by omega) (by omega)

/-- The search as a whole: it returns `(r, m)` exactly when `r` is the first
rotation count below 16 whose left rotation fits in eight bits and `m` is that
rotated value. -/
theorem canHoldImm_eq_some (v r m : Nat) :
    canHoldImm v = some (r, m) ↔
      (r < 16 ∧ m = rotateLeft32 v (2 * r) ∧ m ≤ 0xFF ∧
        ∀ r', r' < r → ¬ rotateLeft32 v (2 * r') ≤ 0xFF) := by
  have h0 : rotateLeft32 v (2 * 0) = v := by simp [rotateLeft32]
  unfold canHoldImm
  by_cases hsmall : v ≤ 0xFF
  · rw [if_pos hsmall]
    constructor
    · intro h
      simp only [Option.some.injEq, Prod.mk.injEq] at h
      obtain ⟨rfl, rfl⟩ := h
      exact ⟨by decide, h0.symm, hsmall, fun r' h => absurd h (Nat.not_lt_zero _)⟩
    · rintro ⟨-, h2, -, h4⟩
      have hr : r = 0 := by
        by_contra hne
        exact h4 0 (Nat.pos_of_ne_zero hne) (by rw [h0]; exact hsmall)
      subst hr
      rw [h2, h0]
  · rw [if_neg hsmall, canHoldImmLoop_eq_some]
    constructor
    · rintro ⟨h1, h2, h3, h4, h5⟩
      refine ⟨by omega, h3, h4, ?_⟩
      intro r' hr
      by_cases e : r' = 0
      · rw [e, h0]; exact hsmall
      · exact h5 r' (by omega) hr
    · rintro ⟨h1, h2, h3, h4⟩
      have hne : r ≠ 0 := by
        rintro rfl
        rw [h2, h0] at h3
        exact hsmall h3
      exact ⟨by omega, by omega, h2, h3, fun r' _ hr => h4 r' hr⟩

theorem canHoldImm_eq_none (v : Nat) :
    canHoldImm v = none ↔ ∀ r', r' < 16 → ¬ rotateLeft32 v (2 * r') ≤ 0xFF := by
  have h0 : rotateLeft32 v (2 * 0) = v := by simp [rotateLeft32]
  unfold canHoldImm
  by_cases hsmall : v ≤ 0xFF
  · rw [if_pos hsmall]
    constructor
    · intro h; cases h
    · intro h; exact absurd (by rw [h0]; exact hsmall) (h 0 (by decide))
  · rw [if_neg hsmall, canHoldImmLoop_eq_none]
    constructor
    · intro h r' hr
      by_cases e : r' = 0
      · rw [e, h0]; exact hsmall
      · exact h r' (by omega) (by omega)
    · intro h r' _ hr
      exact h r' (by omega)

end OperandARM32FlexImm

/-! ## Claims about `OperandARM32FlexImm::canHoldImm` -/

open Utils OperandARM32FlexImm

/-- C1: whenever `canHoldImm v` succeeds on a 32-bit value with outputs
`(RotateAmt, Immed_8)`, the magnitude is at most `0xFF`, the rotation at most
15, and the decode used by `emit` (rotate right by twice the rotation) gives
back `v`. -/
theorem canHoldImm_decode_roundtrip (v RotateAmt Immed_8 : Nat) (hv : v < 2 ^ 32)
    (h : canHoldImm v = some (RotateAmt, Immed_8)) :
    Immed_8 ≤ 0xFF ∧ RotateAmt ≤ 15 ∧
      emitValue { Imm := Immed_8, RotateAmt := RotateAmt } = v := by
  obtain ⟨h1, h2, h3, -⟩ := (canHoldImm_eq_some v RotateAmt Immed_8).mp h
  refine ⟨h3, by omega, ?_⟩
  show rotateRight32 Immed_8 (2 * RotateAmt) = v
  rw [h2]
  exact rotateRight32_rotateLeft32 v (2 * RotateAmt) hv (by omega)

theorem canHoldImm_decode_roundtrip_witness :
    (0x3FC : Nat) < 2 ^ 32 ∧ canHoldImm 0x3FC = some (15, 0xFF) ∧
      ((0xFF : Nat) ≤ 0xFF ∧ 15 ≤ 15 ∧
        emitValue { Imm := 0xFF, RotateAmt := 15 } = 0x3FC) :=
  ⟨by decide, by decide, canHoldImm_decode_roundtrip 0x3FC 15 0xFF (by decide) (by decide)⟩

/-- C2: on a 32-bit value `canHoldImm` returns true exactly when the value is
representable as an 8-bit magnitude rotated right by an even amount
`2 * r` with `r` in `[0, 15]`, and false for every other value. -/
theorem canHoldImm_isSome_iff_representable (v : Nat) (hv : v < 2 ^ 32) :
    (canHoldImm v).isSome = true ↔
      ∃ m r, m ≤ 0xFF ∧ r ≤ 15 ∧ rotateRight32 m (2 * r) = v := by
  constructor
  · intro h
    obtain ⟨⟨r, m⟩, hrm⟩ := Option.isSome_iff_exists.mp h
    obtain ⟨h1, h2, h3, -⟩ := (canHoldImm_eq_some v r m).mp hrm
    refine ⟨m, r, h3, by omega, ?_⟩
    rw [h2]
    exact rotateRight32_rotateLeft32 v (2 * r) hv (by omega)
  · rintro ⟨m, r, hm, hr, hdec⟩
    have hm32 : m < 2 ^ 32 := lt_of_le_of_lt hm (by decide)
    have hfit : rotateLeft32 v (2 * r) ≤ 0xFF := by
      rw [← hdec, rotateLeft32_rotateRight32 m (2 * r) hm32 (by omega)]
      exact hm
    cases hc : canHoldImm v with
    | none => exact absurd hfit ((canHoldImm_eq_none v).mp hc r (by omega))
    | some p => rfl

theorem canHoldImm_isSome_iff_representable_witness :
    (0xFF000000 : Nat) < 2 ^ 32 ∧
      ((canHoldImm 0xFF000000).isSome = true ↔
        ∃ m r, m ≤ 0xFF ∧ r ≤ 15 ∧ rotateRight32 m (2 * r) = 0xFF000000) :=
  ⟨by decide, canHoldImm_isSome_iff_representable 0xFF000000 (by decide)⟩

/-- C3: when `canHoldImm v` succeeds, the returned rotation is the first success
of the search, that is the least `r` in `0..15` with
`rotateLeft32 v (2 * r) ≤ 0xFF`, and the returned magnitude is that rotated
value. -/
theorem canHoldImm_first_success (v RotateAmt Immed_8 : Nat) (hv : v < 2 ^ 32)
    (h : canHoldImm v = some (RotateAmt, Immed_8)) :
    RotateAmt ≤ 15 ∧ rotateLeft32 v (2 * RotateAmt) ≤ 0xFF ∧
      (∀ r, r ≤ 15 → rotateLeft32 v (2 * r) ≤ 0xFF → RotateAmt ≤ r) ∧
      Immed_8 = rotateLeft32 v (2 * RotateAmt) := by
  obtain ⟨h1, h2, h3, h4⟩ := (canHoldImm_eq_some v RotateAmt Immed_8).mp h
  refine ⟨by omega, h2 ▸ h3, ?_, h2⟩
  intro r _ hfit
  by_contra hlt
  exact h4 r (by omega) hfit

theorem canHoldImm_first_success_witness :
    (0x3F0 : Nat) < 2 ^ 32 ∧ canHoldImm 0x3F0 = some (14, 0x3F) ∧
      (14 ≤ 15 ∧ rotateLeft32 0x3F0 (2 * 14) ≤ 0xFF ∧
        (∀ r, r ≤ 15 → rotateLeft32 0x3F0 (2 * r) ≤ 0xFF → 14 ≤ r) ∧
        0x3F = rotateLeft32 0x3F0 (2 * 14)) :=
  ⟨by decide, by decide, canHoldImm_first_success 0x3F0 14 0x3F (by decide) (by decide)⟩

/-! ## Claims about the modified floating-point immediates -/

namespace OperandARM32FlexFpImm

/-- A pattern accepted by the single-precision branch has its low 19 bits
clear. -/
theorem canHoldImmF32_low_bits (x c : Nat) (h : canHoldImmF32 x = some c) :
    x % 2 ^ 19 = 0 := by
  unfold canHoldImmF32 at h
  by_cases h1 : x &&& (0xFFFFFFFF ^^^ F32.AllowedBits) ≠ 0
  · rw [if_pos h1] at h; cases h
  · have e : (0xFFFFFFFF ^^^ F32.AllowedBits) = 2 ^ 19 - 1 := by decide
    rw [e, Nat.and_pow_two_sub_one_eq_mod] at h1
    exact not_not.mp h1

/-- Every multiple of `2 ^ 19` below `2 ^ 32`, checked one by one: if the
single-precision branch accepts it with code `c`, then `c` is an 8-bit code
and `materializeFloatImmediate c` is the pattern itself. -/
theorem canHoldImmF32_decode_multiples :
    ∀ hi < 128, ∀ lo < 64, ∀ c, canHoldImmF32 (2 ^ 19 * (hi * 64 + lo)) = some c →
      c < 256 ∧ materializeFloatImmediate c = 2 ^ 19 * (hi * 64 + lo) := by
  decide!

theorem canHoldImmF32_decode (x c : Nat) (hx : x < 2 ^ 32) (h : canHoldImmF32 x = some c) :
    c < 256 ∧ materializeFloatImmediate c = x := by
  have hlow := canHoldImmF32_low_bits x c h
  have hk : x = 2 ^ 19 * ((x / 2 ^ 19) / 64 * 64 + (x / 2 ^ 19) % 64) := by
    norm_num at hx hlow ⊢; omega
  have := canHoldImmF32_decode_multiples ((x / 2 ^ 19) / 64) (by norm_num at hx ⊢; omega)
    ((x / 2 ^ 19) % 64) (Nat.mod_lt _ (by decide)) c (by rw [← hk]; exact h)
  rw [← hk] at this
  exact this

theorem canHoldImmF32_materialize : ∀ c < 256,
    canHoldImmF32 (materializeFloatImmediate c) = some c ∧
      materializeFloatImmediate c < 2 ^ 32 := by
  decide!

end OperandARM32FlexFpImm

open OperandARM32FlexFpImm

/-- C4: for every 8-bit code `c` the single-precision branch of
`OperandARM32FlexFpImm::canHoldImm` accepts the pattern
`materializeFloatImmediate c` and returns `c`; hence
`materializeFloatImmediate` is a bijection from the 256 codes onto the set of
accepted 32-bit patterns. -/
theorem fpImm_f32_encode_materialize :
    (∀ c, c < 256 →
      OperandARM32FlexFpImm.canHoldImm (.ConstantFloat (materializeFloatImmediate c))
        = .ok (some c)) ∧
    Set.BijOn materializeFloatImmediate {c | c < 256}
      {x | x < 2 ^ 32 ∧
        ∃ c, OperandARM32FlexFpImm.canHoldImm (.ConstantFloat x) = .ok (some c)} := by
  have henc : ∀ c, c < 256 →
      OperandARM32FlexFpImm.canHoldImm (.ConstantFloat (materializeFloatImmediate c))
        = .ok (some c) := by
    intro c hc
    show Except.ok (canHoldImmF32 (materializeFloatImmediate c)) = Except.ok (some c)
    rw [(canHoldImmF32_materialize c hc).1]
  refine ⟨henc, ?_, ?_, ?_⟩
  · intro c hc
    exact ⟨(canHoldImmF32_materialize c hc).2, c, henc c hc⟩
  · intro c hc d hd hcd
    have h1 := (canHoldImmF32_materialize c hc).1
    have h2 := (canHoldImmF32_materialize d hd).1
    rw [hcd, h2] at h1
    exact (Option.some.inj h1).symm
  · rintro x ⟨hx, c, hc⟩
    have hc2 : canHoldImmF32 x = some c := by
      have : Except.ok (canHoldImmF32 x) = (Except.ok (some c) : Except String (Option Nat)) := hc
      exact Except.ok.inj this
    obtain ⟨h1, h2⟩ := canHoldImmF32_decode x c hx hc2
    exact ⟨c, h1, h2⟩

theorem fpImm_f32_encode_materialize_witness :
    (0x70 : Nat) < 256 ∧ materializeFloatImmediate 0x70 = 0x3F800000 ∧
      OperandARM32FlexFpImm.canHoldImm (.ConstantFloat (materializeFloatImmediate 0x70))
        = .ok (some 0x70) :=
  ⟨by decide, by decide, fpImm_f32_encode_materialize.1 0x70 (by decide)⟩

/-- C5: whenever the single-precision branch of
`OperandARM32FlexFpImm::canHoldImm` accepts a 32-bit pattern `x` with code `c`,
`materializeFloatImmediate c` has exactly the bit pattern `x`. -/
theorem fpImm_f32_materialize_encode (x c : Nat) (hx : x < 2 ^ 32)
    (h : OperandARM32FlexFpImm.canHoldImm (.ConstantFloat x) = .ok (some c)) :
    materializeFloatImmediate c = x := by
  have hc2 : canHoldImmF32 x = some c := by
    have : Except.ok (canHoldImmF32 x) = (Except.ok (some c) : Except String (Option Nat)) := h
    exact Except.ok.inj this
  exact (canHoldImmF32_decode x c hx hc2).2

theorem fpImm_f32_materialize_encode_witness :
    (0xBFF80000 : Nat) < 2 ^ 32 ∧
      OperandARM32FlexFpImm.canHoldImm (.ConstantFloat 0xBFF80000) = .ok (some 0xFF) ∧
      materializeFloatImmediate 0xFF = 0xBFF80000 :=
  ⟨by decide, rfl, fpImm_f32_materialize_encode 0xBFF80000 0xFF (by decide) rfl⟩

namespace OperandARM32FlexFpImm

open IEEE Utils

/-- A pattern accepted by the double-precision branch has its low 48 bits
clear, and the eight bits of its run (bits 54 to 61) are all clear or all
set. -/
theorem canHoldImmF64_shape (x c : Nat) (hx : x < 2 ^ 64)
    (h : canHoldImmF64 x = some c) :
    x % 2 ^ 48 = 0 ∧ (x / 2 ^ 54 % 2 ^ 8 = 0 ∨ x / 2 ^ 54 % 2 ^ 8 = 255) := by
  unfold canHoldImmF64 at h
  by_cases h1 : x &&& 0xFFFFFFFF ≠ 0
  · rw [if_pos h1] at h; cases h
  · rw [if_neg h1] at h
    simp only at h
    by_cases h2 : ((x >>> 32) % 2 ^ 32) &&& (0xFFFFFFFF ^^^ F64.AllowedBits) ≠ 0
    · rw [if_pos h2] at h; cases h
    · rw [if_neg h2] at h
      by_cases h3 : (((x >>> 32) % 2 ^ 32) &&& F64.bbbbbbbb) ≠ F64.bbbbbbbb ∧
          (((x >>> 32) % 2 ^ 32) &&& F64.bbbbbbbb) ≠ 0
      · rw [if_pos h3] at h; cases h
      · have e1 : (0xFFFFFFFF : Nat) = 2 ^ 32 - 1 := by decide
        have e2 : (0xFFFFFFFF ^^^ F64.AllowedBits) = 2 ^ 16 - 1 := by decide
        have e3 : ((x >>> 32) % 2 ^ 32) &&& F64.bbbbbbbb
            = (((x >>> 32) % 2 ^ 32) / 2 ^ 22 % 2 ^ 8) * 2 ^ 22 :=
          and_shifted_mask _ 22 8
        have e4 : F64.bbbbbbbb = 255 * 2 ^ 22 := by decide
        rw [e1, Nat.and_pow_two_sub_one_eq_mod] at h1
        rw [e2, Nat.and_pow_two_sub_one_eq_mod, Nat.shiftRight_eq_div_pow] at h2
        rw [e3, e4, Nat.shiftRight_eq_div_pow] at h3
        have h1 := not_not.mp h1
        have h2 := not_not.mp h2
        norm_num at hx h1 h2 h3 ⊢
        omega

/-- Every pattern of that shape, checked one by one: if the double-precision
branch accepts it with code `c`, the binary32 pattern
`materializeFloatImmediate c` has the same sign, the same unbiased exponent and
the same significand as the binary64 pattern, and both exponents are normal. -/
theorem canHoldImmF64_fields_shape :
    ∀ top < 8, ∀ m < 64, ∀ c,
      canHoldImmF64 (2 ^ 48 * (top / 2 * 2 ^ 14 + top % 2 * 255 * 64 + m)) = some c →
      f64Sign (2 ^ 48 * (top / 2 * 2 ^ 14 + top % 2 * 255 * 64 + m))
        = f32Sign (materializeFloatImmediate c) ∧
      f64Exponent (2 ^ 48 * (top / 2 * 2 ^ 14 + top % 2 * 255 * 64 + m)) + 127
        = f32Exponent (materializeFloatImmediate c) + 1023 ∧
      f64Fraction (2 ^ 48 * (top / 2 * 2 ^ 14 + top % 2 * 255 * 64 + m))
        = f32Fraction (materializeFloatImmediate c) * 2 ^ 29 ∧
      0 < f32Exponent (materializeFloatImmediate c) ∧
      f32Exponent (materializeFloatImmediate c) < 255 ∧
      0 < f64Exponent (2 ^ 48 * (top / 2 * 2 ^ 14 + top % 2 * 255 * 64 + m)) ∧
      f64Exponent (2 ^ 48 * (top / 2 * 2 ^ 14 + top % 2 * 255 * 64 + m)) < 2047 := by
  decide!

theorem canHoldImmF64_fields (x c : Nat) (hx : x < 2 ^ 64) (h : canHoldImmF64 x = some c) :
    f64Sign x = f32Sign (materializeFloatImmediate c) ∧
    f64Exponent x + 127 = f32Exponent (materializeFloatImmediate c) + 1023 ∧
    f64Fraction x = f32Fraction (materializeFloatImmediate c) * 2 ^ 29 ∧
    0 < f32Exponent (materializeFloatImmediate c) ∧
    f32Exponent (materializeFloatImmediate c) < 255 ∧
    0 < f64Exponent x ∧ f64Exponent x < 2047 := by
  obtain ⟨hlow, hrun⟩ := canHoldImmF64_shape x c hx h
  have hk : x = 2 ^ 48 *
      ((x / 2 ^ 62 * 2 + x / 2 ^ 54 % 2 ^ 8 / 255) / 2 * 2 ^ 14 +
        (x / 2 ^ 62 * 2 + x / 2 ^ 54 % 2 ^ 8 / 255) % 2 * 255 * 64 + (x / 2 ^ 48) % 64) := by
    norm_num at hx hlow hrun ⊢; omega
  have := canHoldImmF64_fields_shape (x / 2 ^ 62 * 2 + x / 2 ^ 54 % 2 ^ 8 / 255)
    (by norm_num at hx hrun ⊢; omega)
    ((x / 2 ^ 48) % 64) (Nat.mod_lt _ (by decide)) c (by rw [← hk]; exact h)
  rw [← hk] at this
  exact this

end OperandARM32FlexFpImm

open IEEE

/-- C6: whenever the double-precision branch of
`OperandARM32FlexFpImm::canHoldImm` accepts a 64-bit pattern `x` with code `c`,
the binary32 pattern `materializeFloatImmediate c` denotes the same number as
the binary64 pattern `x`: both are normal numbers with the same sign, the same
unbiased exponent and the same significand, hence the same value. -/
theorem fpImm_f64_materialize_same_number (x c : Nat) (hx : x < 2 ^ 64)
    (h : OperandARM32FlexFpImm.canHoldImm (.ConstantDouble x) = .ok (some c)) :
    f64Sign x = f32Sign (materializeFloatImmediate c) ∧
    (f64Exponent x : Int) - 1023 = (f32Exponent (materializeFloatImmediate c) : Int) - 127 ∧
    (f64Fraction x : ℚ) / 2 ^ 52 = (f32Fraction (materializeFloatImmediate c) : ℚ) / 2 ^ 23 ∧
    (0 < f64Exponent x ∧ f64Exponent x < 2047) ∧
    (0 < f32Exponent (materializeFloatImmediate c) ∧
      f32Exponent (materializeFloatImmediate c) < 255) ∧
    f64Value x = f32Value (materializeFloatImmediate c) := by
  have hc2 : canHoldImmF64 x = some c := by
    have : Except.ok (canHoldImmF64 x) = (Except.ok (some c) : Except String (Option Nat)) := h
    exact Except.ok.inj this
  obtain ⟨hs, he, hf, h1, h2, h3, h4⟩ := canHoldImmF64_fields x c hx hc2
  have heI : (f64Exponent x : Int) - 1023
      = (f32Exponent (materializeFloatImmediate c) : Int) - 127 := by omega
  have hfQ : (f64Fraction x : ℚ) / 2 ^ 52
      = (f32Fraction (materializeFloatImmediate c) : ℚ) / 2 ^ 23 := by
    rw [hf]
    push_cast
    field_simp
    ring
  refine ⟨hs, heI, hfQ, ⟨h3, h4⟩, ⟨h1, h2⟩, ?_⟩
  unfold f64Value f32Value
  rw [hs, heI, hfQ]

theorem fpImm_f64_materialize_same_number_witness :
    (0x3FF8000000000000 : Nat) < 2 ^ 64 ∧
      OperandARM32FlexFpImm.canHoldImm (.ConstantDouble 0x3FF8000000000000)
        = .ok (some 0x78) ∧
      f64Value 0x3FF8000000000000 = f32Value (materializeFloatImmediate 0x78) :=
  ⟨by decide, rfl,
    (fpImm_f64_materialize_same_number 0x3FF8000000000000 0x78 (by decide) rfl).2.2.2.2.2⟩

/-! ## Claims about `OperandARM32FlexImm::create` -/

namespace OperandARM32FlexImm

/-- The reduction loop stops only when the low two bits of the magnitude are
not both zero or the rotation has reached zero. -/
theorem createLoop_stops : ∀ (RotateAmt Imm : Nat),
    (createLoop Imm RotateAmt).1 &&& 0x03 ≠ 0 ∨ (createLoop Imm RotateAmt).2 = 0 := by
  intro RotateAmt
  induction RotateAmt with
  | zero => intro Imm; right; rfl
  | succ r ih =>
    intro Imm
    simp only [createLoop]
    by_cases h : Imm &&& 0x03 = 0
    · rw [if_pos h]; exact ih (Imm >>> 2)
    · rw [if_neg h]; left; exact h

end OperandARM32FlexImm

/-- C7: for every magnitude `Imm ≤ 0xFF` and rotation `RotateAmt` in `[0, 15]`
the operand built by `OperandARM32FlexImm::create` stores a pair whose
magnitude has a non-zero bit among its low two bits, or whose rotation is
zero. -/
theorem create_low_bits_or_zero_rotation (Imm RotateAmt : Nat) (hImm : Imm ≤ 0xFF)
    (hRot : RotateAmt ≤ 15) :
    (create Imm RotateAmt).Imm &&& 0x03 ≠ 0 ∨ (create Imm RotateAmt).RotateAmt = 0 :=
  createLoop_stops RotateAmt Imm

theorem create_low_bits_or_zero_rotation_witness :
    (0x40 : Nat) ≤ 0xFF ∧ (15 : Nat) ≤ 15 ∧ create 0x40 15 = { Imm := 1, RotateAmt := 12 } ∧
      ((create 0x40 15).Imm &&& 0x03 ≠ 0 ∨ (create 0x40 15).RotateAmt = 0) :=
  ⟨by decide, by decide, by decide,
    create_low_bits_or_zero_rotation 0x40 15 (by decide) (by decide)⟩

/-- C8 (the code at a failing input): `create 1 13` keeps the pair `(1, 13)`
because the low bits of the magnitude are not zero, although the value it
denotes, `0x40`, is an 8-bit magnitude with rotation zero; so the stored
rotation 13 is not the least one. -/
theorem create_rotation_not_minimal :
    create 1 13 = { Imm := 1, RotateAmt := 13 } ∧
      (0x40 : Nat) ≤ 0xFF ∧ (0 : Nat) ≤ 15 ∧
      rotateRight32 0x40 (2 * 0) = rotateRight32 1 (2 * 13) ∧
      ¬ (∀ r, r ≤ 15 → (∃ m, m ≤ 0xFF ∧ rotateRight32 m (2 * r) = rotateRight32 1 (2 * 13)) →
          (create 1 13).RotateAmt ≤ r) := by
  refine ⟨by decide, by decide, by decide, by decide, ?_⟩
  intro h
  have := h 0 (by decide) ⟨0x40, by decide, by decide⟩
  revert this
  decide

/-! ## Claims about `OperandARM32Mem::canHoldOffset` -/

open OperandARM32Mem

/-- C9: for every type and extension mode whose offset-bit count in the type
table is zero, `canHoldOffset` is true exactly when the offset is zero. -/
theorem canHoldOffset_zero_bits {Ty : Type} (T : TypeTable Ty) (ty : Ty) (SignExt : Bool)
    (Offset : Int) (hBits : offsetBits T ty SignExt = 0) :
    canHoldOffset T ty SignExt Offset = true ↔ Offset = 0 := by
  unfold canHoldOffset
  simp only [hBits, if_true, decide_eq_true_eq]

theorem canHoldOffset_zero_bits_witness :
    offsetBits sampleTable SampleType.noOffset true = 0 ∧
      canHoldOffset sampleTable SampleType.noOffset true 4 = false ∧
      (canHoldOffset sampleTable SampleType.noOffset true 0 = true ↔ (0 : Int) = 0) :=
  ⟨by decide, by decide,
    canHoldOffset_zero_bits sampleTable SampleType.noOffset true 0 (by decide)⟩

/-- C10: for every type whose selected offset-bit count `N` is positive,
`canHoldOffset` is true exactly when the magnitude of the offset is below
`2 ^ N` and, for a scalar floating-point or vector type, the offset is a
multiple of 4. In particular, for a scalar floating-point type with `N ≥ 3`
the offset 4 is accepted, the offset 2 is rejected and the offset `2 ^ N * 4`
is rejected. -/
theorem canHoldOffset_positive_bits {Ty : Type} (T : TypeTable Ty) (ty : Ty)
    (SignExt : Bool) (N : Nat) (hBits : offsetBits T ty SignExt = (N : Int)) (hN : 0 < N) :
    (∀ Offset : Int, canHoldOffset T ty SignExt Offset = true ↔
      (|Offset| < 2 ^ N ∧
        (T.isScalarFloatingType ty = true ∨ T.isVectorType ty = true → 4 ∣ Offset))) ∧
    (T.isScalarFloatingType ty = true → 3 ≤ N →
      canHoldOffset T ty SignExt 4 = true ∧
      canHoldOffset T ty SignExt 2 = false ∧
      canHoldOffset T ty SignExt (2 ^ N * 4) = false) := by
  have hchar : ∀ Offset : Int, canHoldOffset T ty SignExt Offset = true ↔
      (|Offset| < 2 ^ N ∧
        (T.isScalarFloatingType ty = true ∨ T.isVectorType ty = true → 4 ∣ Offset)) := by
    intro Offset
    have hne : (N : Int) ≠ 0 := by omega
    have habs : (Offset.natAbs < 2 ^ N) ↔ |Offset| < 2 ^ N := by
      rw [Int.abs_eq_natAbs]
      exact_mod_cast Iff.rfl
    unfold canHoldOffset
    simp only [hBits, if_neg hne, IsAligned, IsAbsoluteUint, Int.toNat_ofNat]
    by_cases hfv : (T.isScalarFloatingType ty || T.isVectorType ty) = true
    · rw [if_pos hfv]
      have hfv2 : T.isScalarFloatingType ty = true ∨ T.isVectorType ty = true := by
        simpa using hfv
      simp only [Bool.and_eq_true, decide_eq_true_eq, habs]
      constructor
      · rintro ⟨h1, h2⟩
        exact ⟨h2, fun _ => Int.dvd_of_emod_eq_zero h1⟩
      · rintro ⟨h1, h2⟩
        exact ⟨Int.emod_eq_zero_of_dvd (h2 hfv2), h1⟩
    · rw [if_neg hfv]
      have hfv2 : ¬ (T.isScalarFloatingType ty = true ∨ T.isVectorType ty = true) := by
        simpa using hfv
      simp only [decide_eq_true_eq, habs]
      constructor
      · intro h1
        exact ⟨h1, fun h => absurd h hfv2⟩
      · rintro ⟨h1, -⟩
        exact h1
  refine ⟨hchar, ?_⟩
  intro hf hN3
  have hpow : (8 : Int) ≤ 2 ^ N := by
    have : (2 : Int) ^ 3 ≤ 2 ^ N := pow_le_pow_right₀ (by norm_num) hN3
    simpa using this
  refine ⟨?_, ?_, ?_⟩
  · rw [hchar]
    refine ⟨?_, fun _ => by norm_num⟩
    rw [abs_of_nonneg (by norm_num)]
    omega
  · rw [Bool.eq_false_iff]
    intro h
    have := ((hchar 2).mp h).2 (Or.inl hf)
    omega
  · rw [Bool.eq_false_iff]
    intro h
    have h1 := ((hchar (2 ^ N * 4)).mp h).1
    rw [abs_of_nonneg (by positivity)] at h1
    omega

theorem canHoldOffset_positive_bits_witness :
    offsetBits sampleTable SampleType.float false = ((8 : Nat) : Int) ∧ 0 < 8 ∧
      canHoldOffset sampleTable SampleType.float false 4 = true ∧
      canHoldOffset sampleTable SampleType.float false 2 = false ∧
      canHoldOffset sampleTable SampleType.float false (2 ^ 8 * 4) = false :=
  ⟨by decide, by decide,
    (canHoldOffset_positive_bits sampleTable SampleType.float false 8 (by decide)
      (by decide)).2 (by decide) (by decide)⟩

/-! ## Claims about `InstARM32Br::optimizeBranch` and `repointEdges` -/

namespace InstARM32Br

variable {Cond : Type} [DecidableEq Cond]

/-- When the guards leading to the inversion step hold, `optimizeBranch` does
what that step does: it fails the assertion on an "always" predicate and
otherwise inverts the predicate and swaps the targets. -/
theorem optimizeBranch_of_reachesInversion (C : CondTable Cond) (I : InstARM32Br Cond)
    (NextNode : Option CfgNode) (h : reachesInversion C I NextNode) :
    optimizeBranch C I NextNode =
      if I.Predicate ≠ C.AL then
        .ok (true, { I with Predicate := getOppositeCondition C I.Predicate,
                            TargetTrue := I.TargetFalse,
                            TargetFalse := none })
      else .error assertPredicateNotAL := by
  obtain ⟨h1, h2, h3, h4, h5, h6⟩ := h
  unfold optimizeBranch
  rw [if_neg h1, if_neg (not_not.mpr h2), if_neg h3, if_neg h4, if_neg h5, if_pos h6]

/-- Under the construction invariant no assertion of `optimizeBranch` fails. -/
theorem optimizeBranch_ok_of_invariant (C : CondTable Cond) (I : InstARM32Br Cond)
    (NextNode : Option CfgNode) (hinv : I.Predicate = C.AL → I.TargetTrue = none) :
    ∃ r, optimizeBranch C I NextNode = .ok r := by
  unfold optimizeBranch
  split_ifs with h1 h2 h3 h4 h5 h6 h7 h8
  · exact ⟨_, rfl⟩
  · exact ⟨_, rfl⟩
  · exact ⟨_, rfl⟩
  · exact ⟨_, rfl⟩
  · have hAL : I.Predicate = C.AL := by simpa [isUnconditionalBranch] using h4.1
    exact absurd (hinv hAL) h5
  · exact ⟨_, rfl⟩
  · exact ⟨_, rfl⟩
  · have hAL : I.Predicate = C.AL := not_not.mp h8
    rw [hinv hAL] at h7
    exact absurd h7.symm h1
  · exact ⟨_, rfl⟩

end InstARM32Br

open InstARM32Br

/-- C11: for every unconditional branch with no label whose false target equals
the non-null next block `B`, `optimizeBranch B` marks the instruction deleted
and returns true, leaving its targets, predicate and label as they were. An
unconditional branch is built without a true target, which is the invariant
that `optimizeBranch` asserts on this path. -/
theorem optimizeBranch_unconditional_fallthrough {Cond : Type} [DecidableEq Cond]
    (C : CondTable Cond) (I : InstARM32Br Cond) (B : CfgNode)
    (huncond : I.Predicate = C.AL) (hlabel : I.Label = none)
    (htrue : I.TargetTrue = none) (hfalse : I.TargetFalse = some B) :
    optimizeBranch C I (some B) = .ok (true, { I with Deleted := true }) := by
  unfold optimizeBranch
  simp [hlabel, hfalse, htrue, isUnconditionalBranch, huncond]

theorem optimizeBranch_unconditional_fallthrough_witness :
    optimizeBranch sampleCondTable (construct none (some 1) none SampleCond.AL) (some 1)
      = .ok (true, { TargetTrue := none, TargetFalse := some 1, Label := none,
                     Predicate := SampleCond.AL, Deleted := true }) :=
  optimizeBranch_unconditional_fallthrough sampleCondTable
    (construct none (some 1) none SampleCond.AL) 1 rfl rfl rfl rfl

/-- C12: for every conditional branch with no label whose false target equals
the non-null next block `B`, `optimizeBranch B` clears the false target, leaves
the predicate, the true target and the deleted flag unchanged, and returns
true. -/
theorem optimizeBranch_conditional_fallthrough {Cond : Type} [DecidableEq Cond]
    (C : CondTable Cond) (I : InstARM32Br Cond) (B : CfgNode)
    (hcond : I.Predicate ≠ C.AL) (hlabel : I.Label = none)
    (hfalse : I.TargetFalse = some B) :
    optimizeBranch C I (some B) = .ok (true, { I with TargetFalse := none }) := by
  unfold optimizeBranch
  simp [hlabel, hfalse, isUnconditionalBranch, hcond]

theorem optimizeBranch_conditional_fallthrough_witness :
    optimizeBranch sampleCondTable (construct (some 2) (some 1) none SampleCond.EQ) (some 1)
      = .ok (true, { TargetTrue := some 2, TargetFalse := none, Label := none,
                     Predicate := SampleCond.EQ, Deleted := false }) :=
  optimizeBranch_conditional_fallthrough sampleCondTable
    (construct (some 2) (some 1) none SampleCond.EQ) 1 (by decide) rfl rfl

/-- C13: for every conditional branch with no label whose true target equals
the non-null next block `B` and whose false target is a present block `C'`
different from `B`, `optimizeBranch B` sets the predicate to
`getOppositeCondition` of the old predicate, sets the true target to `C'`,
clears the false target, and returns true. -/
theorem optimizeBranch_inverts {Cond : Type} [DecidableEq Cond]
    (C : CondTable Cond) (I : InstARM32Br Cond) (B C' : CfgNode)
    (hcond : I.Predicate ≠ C.AL) (hlabel : I.Label = none)
    (htrue : I.TargetTrue = some B) (hfalse : I.TargetFalse = some C') (hne : C' ≠ B) :
    optimizeBranch C I (some B) =
      .ok (true, { I with Predicate := getOppositeCondition C I.Predicate,
                          TargetTrue := some C',
                          TargetFalse := none }) := by
  unfold optimizeBranch
  simp [hlabel, hfalse, htrue, isUnconditionalBranch, hcond, hne]

theorem optimizeBranch_inverts_witness :
    optimizeBranch sampleCondTable (construct (some 1) (some 2) none SampleCond.EQ) (some 1)
      = .ok (true, { TargetTrue := some 2, TargetFalse := none, Label := none,
                     Predicate := SampleCond.NE, Deleted := false }) :=
  optimizeBranch_inverts sampleCondTable
    (construct (some 1) (some 2) none SampleCond.EQ) 1 2 (by decide) rfl rfl rfl (by decide)

/-- C14: for every branch that carries an intra-block label, whatever its
targets, its predicate and the next block, `optimizeBranch` returns false and
leaves the instruction (targets, predicate, label, deleted flag) unchanged. -/
theorem optimizeBranch_label {Cond : Type} [DecidableEq Cond]
    (C : CondTable Cond) (I : InstARM32Br Cond) (NextNode : Option CfgNode)
    (hlabel : I.Label ≠ none) :
    optimizeBranch C I NextNode = .ok (false, I) := by
  unfold optimizeBranch
  by_cases h : NextNode = none
  · rw [if_pos h]
  · rw [if_neg h, if_pos hlabel]

theorem optimizeBranch_label_witness :
    optimizeBranch sampleCondTable
        (construct (some 1) (some 2) (some { Number := 7 }) SampleCond.EQ) (some 1)
      = .ok (false, construct (some 1) (some 2) (some { Number := 7 }) SampleCond.EQ) :=
  optimizeBranch_label sampleCondTable
    (construct (some 1) (some 2) (some { Number := 7 }) SampleCond.EQ) (some 1) (by decide)

/-- C15: for every label-free branch, `optimizeBranch Next` returns false and
leaves the instruction unchanged when the false target is absent, and likewise
when the false target is present but neither the false target nor the true
target equals `Next`. -/
theorem optimizeBranch_no_change {Cond : Type} [DecidableEq Cond]
    (C : CondTable Cond) (I : InstARM32Br Cond) (NextNode : Option CfgNode)
    (hlabel : I.Label = none) :
    (I.TargetFalse = none → optimizeBranch C I NextNode = .ok (false, I)) ∧
    (I.TargetFalse ≠ none → I.TargetFalse ≠ NextNode → I.TargetTrue ≠ NextNode →
      optimizeBranch C I NextNode = .ok (false, I)) := by
  constructor
  · intro hf
    unfold optimizeBranch
    by_cases h : NextNode = none
    · rw [if_pos h]
    · rw [if_neg h, if_neg (not_not.mpr hlabel), if_pos hf]
  · intro hf hfn htn
    unfold optimizeBranch
    by_cases h : NextNode = none
    · rw [if_pos h]
    · rw [if_neg h, if_neg (not_not.mpr hlabel), if_neg hf,
        if_neg (fun hh => hfn hh.2), if_neg hfn, if_neg htn]

theorem optimizeBranch_no_change_witness :
    optimizeBranch sampleCondTable (construct (some 1) none none SampleCond.EQ) (some 1)
      = .ok (false, construct (some 1) none none SampleCond.EQ) ∧
    optimizeBranch sampleCondTable (construct (some 2) (some 3) none SampleCond.EQ) (some 1)
      = .ok (false, construct (some 2) (some 3) none SampleCond.EQ) :=
  ⟨(optimizeBranch_no_change sampleCondTable (construct (some 1) none none SampleCond.EQ)
      (some 1) rfl).1 rfl,
   (optimizeBranch_no_change sampleCondTable (construct (some 2) (some 3) none SampleCond.EQ)
      (some 1) rfl).2 (by decide) (by decide) (by decide)⟩

/-- C16: `optimizeBranch` never inverts the "always" predicate. For every branch
satisfying the construction invariant that an unconditional branch has no true
target, the inversion step is reached only with a predicate different from
"always", so `assert(Predicate != CondARM32::AL)` does not fail, and neither
does any other assertion of the function. -/
theorem optimizeBranch_never_inverts_always {Cond : Type} [DecidableEq Cond]
    (C : CondTable Cond) (I : InstARM32Br Cond) (NextNode : Option CfgNode)
    (hinv : I.Predicate = C.AL → I.TargetTrue = none) :
    (reachesInversion C I NextNode → I.Predicate ≠ C.AL) ∧
    optimizeBranch C I NextNode ≠ .error assertPredicateNotAL ∧
    ∃ r, optimizeBranch C I NextNode = .ok r := by
  have hok := optimizeBranch_ok_of_invariant C I NextNode hinv
  refine ⟨?_, ?_, hok⟩
  · rintro ⟨h1, -, -, -, -, h6⟩ hAL
    rw [hinv hAL] at h6
    exact h1 h6.symm
  · obtain ⟨r, hr⟩ := hok
    rw [hr]
    intro h
    cases h

theorem optimizeBranch_never_inverts_always_witness :
    reachesInversion sampleCondTable (construct (some 1) (some 2) none SampleCond.NE) (some 1) ∧
    SampleCond.NE ≠ sampleCondTable.AL ∧
    ∃ r, optimizeBranch sampleCondTable (construct (some 1) (some 2) none SampleCond.NE)
      (some 1) = .ok r :=
  ⟨⟨by decide, rfl, by decide, by decide, by decide, rfl⟩, by decide,
    (optimizeBranch_never_inverts_always sampleCondTable
      (construct (some 1) (some 2) none SampleCond.NE) (some 1)
      (fun h => absurd h (by decide))).2.2⟩

/-- C17: `repointEdges Old New` replaces each of the true and false targets that
equals `Old` by `New`, leaves a target that differs from `Old` unchanged,
leaves predicate, label and deleted flag unchanged, and returns true exactly
when at least one of the two targets equalled `Old` before the call. -/
theorem repointEdges_spec {Cond : Type} [DecidableEq Cond]
    (I : InstARM32Br Cond) (OldNode NewNode : Option CfgNode) :
    (repointEdges I OldNode NewNode).2.TargetTrue
      = (if I.TargetTrue = OldNode then NewNode else I.TargetTrue) ∧
    (repointEdges I OldNode NewNode).2.TargetFalse
      = (if I.TargetFalse = OldNode then NewNode else I.TargetFalse) ∧
    (repointEdges I OldNode NewNode).2.Predicate = I.Predicate ∧
    (repointEdges I OldNode NewNode).2.Label = I.Label ∧
    (repointEdges I OldNode NewNode).2.Deleted = I.Deleted ∧
    ((repointEdges I OldNode NewNode).1 = true ↔
      (I.TargetTrue = OldNode ∨ I.TargetFalse = OldNode)) := by
  unfold repointEdges
  by_cases hf : I.TargetFalse = OldNode <;> by_cases ht : I.TargetTrue = OldNode <;>
    simp [hf, ht]

/-! ## Claims about push and pop -/

section PushPop

variable {IceType : Type} [DecidableEq IceType]

/-- A list that passes the validation loop holds only variables with a
register. -/
theorem validateLoop_hasReg (T : IceTypes IceType) :
    ∀ (L : List (Variable IceType)) (PreviousTy : IceType),
      validateLoop T PreviousTy L = .ok () → ∀ v ∈ L, v.hasReg = true := by
  intro L
  induction L with
  | nil => intro _ _ v hv; cases hv
  | cons Reg rest ih =>
    intro PreviousTy h v hv
    simp only [validateLoop] at h
    split_ifs at h with h1 h2
    rcases List.mem_cons.mp hv with rfl | hmem
    · simpa using h2
    · exact ih _ h v hmem

/-- The validation loop accepts exactly the lists in which every variable has a
register and has the type of its predecessor, unless that type is
`IceType_void`; the type before the first variable is `PreviousTy`. -/
theorem validateLoop_ok_iff (T : IceTypes IceType) :
    ∀ (L : List (Variable IceType)) (PreviousTy : IceType),
      validateLoop T PreviousTy L = .ok () ↔
        ((∀ v ∈ L, v.hasReg = true) ∧
          List.Chain (fun ty ty' => ty = T.IceType_void ∨ ty' = ty) PreviousTy
            (L.map Variable.getType)) := by
  intro L
  induction L with
  | nil => intro _; simp [validateLoop]
  | cons Reg rest ih =>
    intro PreviousTy
    simp only [validateLoop, List.map_cons, List.chain_cons, List.mem_cons, forall_eq_or_imp]
    split_ifs with h1 h2
    · constructor
      · intro h; cases h
      · rintro ⟨-, hc, -⟩
        rcases hc with hc | hc
        · exact absurd hc h1.1
        · exact absurd hc h1.2
    · constructor
      · intro h; cases h
      · rintro ⟨⟨hr, -⟩, -⟩
        rw [h2] at hr
        cases hr
    · rw [ih]
      constructor
      · rintro ⟨ha, hc⟩
        refine ⟨⟨by simpa using h2, ha⟩, ?_, hc⟩
        by_cases hv : PreviousTy = T.IceType_void
        · exact Or.inl hv
        · right
          by_contra hne
          exact h1 ⟨hv, hne⟩
      · rintro ⟨⟨-, ha⟩, -, hc⟩
        exact ⟨ha, hc⟩

omit [DecidableEq IceType] in
/-- Among types none of which is `IceType_void`, the chain condition of the
validation loop says that all types are equal to the first one. -/
theorem chain_types_iff (void : IceType) :
    ∀ (tys : List IceType) (ty : IceType), ty ≠ void → (∀ t ∈ tys, t ≠ void) →
      (List.Chain (fun a b => a = void ∨ b = a) ty tys ↔ ∀ t ∈ tys, t = ty) := by
  intro tys
  induction tys with
  | nil => intro ty _ _; simp
  | cons t rest ih =>
    intro ty hty hall
    have ht : t ≠ void := hall t (List.mem_cons_self _ _)
    have hrest : ∀ u ∈ rest, u ≠ void := fun u hu => hall u (List.mem_cons_of_mem _ hu)
    simp only [List.chain_cons, List.mem_cons, forall_eq_or_imp]
    rw [ih t ht hrest]
    constructor
    · rintro ⟨h1, h2⟩
      have e : t = ty := by
        rcases h1 with h1 | h1
        · exact absurd h1 hty
        · exact h1
      exact ⟨e, fun u hu => (h2 u hu).trans e⟩
    · rintro ⟨h1, h2⟩
      exact ⟨Or.inr h1, fun u hu => (h2 u hu).trans h1.symm⟩

/-- The validation loop ends normally or with one of its two fatal errors. -/
theorem validateLoop_result (T : IceTypes IceType) :
    ∀ (L : List (Variable IceType)) (PreviousTy : IceType),
      validateLoop T PreviousTy L = .ok () ∨
      validateLoop T PreviousTy L = .error "Type mismatch when popping/pushing registers." ∨
      validateLoop T PreviousTy L
        = .error "Push/pop operand does not have a register assigned to it." := by
  intro L
  induction L with
  | nil => intro _; left; rfl
  | cons Reg rest ih =>
    intro PreviousTy
    simp only [validateLoop]
    split_ifs with h1 h2
    · right; left; rfl
    · right; right; rfl
    · exact ih _

/-- Away from the type `IceType_void` the two requirements in the comment of
`validatePushOrPopRegisterListOrDie` are what it checks: on a register list
none of whose variables has type `IceType_void` it returns normally if and only
if every variable has a register assigned and all variables have the same
type, and otherwise raises one of its two fatal errors; the constructors of
`InstARM32Push` and `InstARM32Pop` build the instruction exactly in the first
case. -/
theorem validatePushOrPop_accepts_iff (T : IceTypes IceType) (L : List (Variable IceType))
    (hvoid : ∀ v ∈ L, v.getType ≠ T.IceType_void) :
    (validatePushOrPopRegisterListOrDie T L = .ok () ↔
      ((∀ v ∈ L, v.hasReg = true) ∧ ∀ a ∈ L, ∀ b ∈ L, a.getType = b.getType)) ∧
    (¬ ((∀ v ∈ L, v.hasReg = true) ∧ ∀ a ∈ L, ∀ b ∈ L, a.getType = b.getType) →
      validatePushOrPopRegisterListOrDie T L
          = .error "Type mismatch when popping/pushing registers." ∨
      validatePushOrPopRegisterListOrDie T L
          = .error "Push/pop operand does not have a register assigned to it.") ∧
    (InstARM32Push.construct T L = .ok { Srcs := L } ↔
      validatePushOrPopRegisterListOrDie T L = .ok ()) ∧
    (InstARM32Pop.construct T L = .ok { Dests := L } ↔
      validatePushOrPopRegisterListOrDie T L = .ok ()) := by
  have hiff : validatePushOrPopRegisterListOrDie T L = .ok () ↔
      ((∀ v ∈ L, v.hasReg = true) ∧ ∀ a ∈ L, ∀ b ∈ L, a.getType = b.getType) := by
    unfold validatePushOrPopRegisterListOrDie
    rw [validateLoop_ok_iff]
    cases L with
    | nil => simp
    | cons Reg rest =>
      have hReg : Reg.getType ≠ T.IceType_void := hvoid Reg (List.mem_cons_self _ _)
      have hrest : ∀ t ∈ rest.map Variable.getType, t ≠ T.IceType_void := by
        intro t ht
        obtain ⟨v, hv, rfl⟩ := List.mem_map.mp ht
        exact hvoid v (List.mem_cons_of_mem _ hv)
      simp only [List.map_cons, List.chain_cons, true_or, true_and]
      rw [chain_types_iff T.IceType_void _ _ hReg hrest]
      constructor
      · rintro ⟨h1, h2⟩
        refine ⟨h1, ?_⟩
        have hall : ∀ a ∈ Reg :: rest, a.getType = Reg.getType := by
          intro a ha
          rcases List.mem_cons.mp ha with rfl | ha
          · rfl
          · exact h2 _ (List.mem_map_of_mem _ ha)
        intro a ha b hb
        rw [hall a ha, hall b hb]
      · rintro ⟨h1, h2⟩
        refine ⟨h1, ?_⟩
        intro t ht
        obtain ⟨v, hv, rfl⟩ := List.mem_map.mp ht
        exact h2 v (List.mem_cons_of_mem _ hv) Reg (List.mem_cons_self _ _)
  refine ⟨hiff, ?_, ?_, ?_⟩
  · intro hn
    rcases validateLoop_result T L T.IceType_void with h | h | h
    · exact absurd (hiff.mp h) hn
    · exact Or.inl h
    · exact Or.inr h
  · unfold InstARM32Push.construct
    cases h : validatePushOrPopRegisterListOrDie T L with
    | error e => simp
    | ok u => simp
  · unfold InstARM32Pop.construct
    cases h : validatePushOrPopRegisterListOrDie T L with
    | error e => simp
    | ok u => simp

end PushPop

theorem validatePushOrPop_accepts_iff_witness :
    validatePushOrPopRegisterListOrDie sampleIceTypes
        [{ Ty := SampleIceType.f32, RegNum := 16 }, { Ty := SampleIceType.f32, RegNum := 17 }]
      = .ok () ∧
    validatePushOrPopRegisterListOrDie sampleIceTypes
        [{ Ty := SampleIceType.f32, RegNum := 16 }, { Ty := SampleIceType.i32, RegNum := 1 }]
      = .error "Type mismatch when popping/pushing registers." ∧
    (validatePushOrPopRegisterListOrDie sampleIceTypes
        [{ Ty := SampleIceType.f32, RegNum := 16 }, { Ty := SampleIceType.f32, RegNum := 17 }]
      = .ok () ↔
      ((∀ v ∈ [({ Ty := SampleIceType.f32, RegNum := 16 } : Variable SampleIceType),
                { Ty := SampleIceType.f32, RegNum := 17 }], v.hasReg = true) ∧
        ∀ a ∈ [({ Ty := SampleIceType.f32, RegNum := 16 } : Variable SampleIceType),
                { Ty := SampleIceType.f32, RegNum := 17 }],
          ∀ b ∈ [({ Ty := SampleIceType.f32, RegNum := 16 } : Variable SampleIceType),
                  { Ty := SampleIceType.f32, RegNum := 17 }], a.getType = b.getType)) :=
  ⟨rfl, rfl,
    (validatePushOrPop_accepts_iff sampleIceTypes
      [{ Ty := SampleIceType.f32, RegNum := 16 }, { Ty := SampleIceType.f32, RegNum := 17 }]
      (by decide)).1⟩

section VfpRuns

variable {IceType : Type}

theorem isAssignedConsecutiveRegisters_of_hasReg (Before After : Variable IceType)
    (hb : Before.hasReg = true) (ha : After.hasReg = true) :
    isAssignedConsecutiveRegisters Before After
      = .ok (decide (Before.getRegNum + 1 = After.getRegNum)) := by
  simp [isAssignedConsecutiveRegisters, hb, ha]

/-- When every variable has a register, the push loop emits one `vpush` for each
run of `vfpRuns`. -/
theorem push_vfpLoop_eq : ∀ (rest : List (Variable IceType)) (Reg BaseReg : Variable IceType)
    (RegCount : Nat), Reg.hasReg = true → (∀ v ∈ rest, v.hasReg = true) →
    InstARM32Push.vfpLoop Reg BaseReg RegCount rest
      = .ok ((vfpRuns Reg BaseReg RegCount rest).map (fun r => AsmCall.vpush r.1 r.2)) := by
  intro rest
  induction rest with
  | nil => intro Reg BaseReg RegCount _ _; rfl
  | cons NextReg rest ih =>
    intro Reg BaseReg RegCount hReg hall
    have hNext : NextReg.hasReg = true := hall NextReg (List.mem_cons_self _ _)
    have hrest : ∀ v ∈ rest, v.hasReg = true := fun v hv => hall v (List.mem_cons_of_mem _ hv)
    simp only [InstARM32Push.vfpLoop, vfpRuns,
      isAssignedConsecutiveRegisters_of_hasReg Reg NextReg hReg hNext]
    by_cases hc : RegCount < VpushVpopMaxConsecRegs
    · by_cases hs : Reg.getRegNum + 1 = NextReg.getRegNum
      · simp only [hc, hs, if_true, decide_True, and_self]
        exact ih NextReg BaseReg (RegCount + 1) hNext hrest
      · simp only [hc, hs, if_true, decide_False, and_false, if_false]
        rw [ih NextReg NextReg 1 hNext hrest]
        rfl
    · simp only [hc, if_false, false_and]
      rw [ih NextReg NextReg 1 hNext hrest]
      rfl

/-- When every variable has a register, the pop loop with a run in progress
emits one `vpop` for each run of `vfpRuns`. -/
theorem pop_vfpLoop_eq : ∀ (rest : List (Variable IceType)) (Reg BaseReg : Variable IceType)
    (RegCount : Nat), RegCount ≠ 0 → Reg.hasReg = true → (∀ v ∈ rest, v.hasReg = true) →
    InstARM32Pop.vfpLoop Reg (some BaseReg) RegCount rest
      = .ok ((vfpRuns Reg BaseReg RegCount rest).map (fun r => AsmCall.vpop r.1 r.2)) := by
  intro rest
  induction rest with
  | nil =>
    intro Reg BaseReg RegCount hcnt _ _
    simp [InstARM32Pop.vfpLoop, vfpRuns, hcnt]
  | cons NextReg rest ih =>
    intro Reg BaseReg RegCount hcnt hReg hall
    have hNext : NextReg.hasReg = true := hall NextReg (List.mem_cons_self _ _)
    have hrest : ∀ v ∈ rest, v.hasReg = true := fun v hv => hall v (List.mem_cons_of_mem _ hv)
    simp only [InstARM32Pop.vfpLoop, vfpRuns,
      isAssignedConsecutiveRegisters_of_hasReg Reg NextReg hReg hNext]
    by_cases hc : RegCount < VpushVpopMaxConsecRegs
    · by_cases hs : Reg.getRegNum + 1 = NextReg.getRegNum
      · simp only [hc, hs, if_true, decide_True, and_self]
        exact ih NextReg BaseReg (RegCount + 1) (Nat.succ_ne_zero _) hNext hrest
      · simp only [hc, hs, if_true, decide_False, and_false, if_false]
        rw [ih NextReg NextReg 1 (by decide) hNext hrest]
        rfl
    · simp only [hc, if_false, false_and]
      rw [ih NextReg NextReg 1 (by decide) hNext hrest]
      rfl

/-- Every run has between 1 and 16 registers. -/
theorem vfpRuns_count : ∀ (rest : List (Variable IceType)) (Reg BaseReg : Variable IceType)
    (RegCount : Nat), 1 ≤ RegCount → RegCount ≤ 16 →
    ∀ r ∈ vfpRuns Reg BaseReg RegCount rest, 1 ≤ r.2 ∧ r.2 ≤ 16 := by
  intro rest
  induction rest with
  | nil =>
    intro Reg BaseReg RegCount h1 h2 r hr
    simp only [vfpRuns, List.mem_singleton] at hr
    subst hr
    exact ⟨h1, h2⟩
  | cons NextReg rest ih =>
    intro Reg BaseReg RegCount h1 h2 r hr
    simp only [vfpRuns] at hr
    split_ifs at hr with hc
    · have : RegCount < 16 := hc.1
      exact ih NextReg BaseReg (RegCount + 1) (by omega) (by omega) r hr
    · rcases List.mem_cons.mp hr with rfl | hr
      · exact ⟨h1, h2⟩
      · exact ih NextReg NextReg 1 (le_refl _) (by decide) r hr

/-- The runs laid end to end are the registers of the run in progress followed
by the registers still to come. -/
theorem vfpRuns_cover : ∀ (rest : List (Variable IceType)) (Reg BaseReg : Variable IceType)
    (RegCount : Nat), Reg.getRegNum + 1 = BaseReg.getRegNum + (RegCount : Int) →
    ((vfpRuns Reg BaseReg RegCount rest).map runRegisters).flatten
      = runRegisters (BaseReg, RegCount) ++ rest.map Variable.getRegNum := by
  intro rest
  induction rest with
  | nil =>
    intro Reg BaseReg RegCount _
    simp [vfpRuns]
  | cons NextReg rest ih =>
    intro Reg BaseReg RegCount hinv
    simp only [vfpRuns]
    split_ifs with hc
    · rw [ih NextReg BaseReg (RegCount + 1) (by rw [← hc.2, hinv]; push_cast; ring)]
      have e : NextReg.getRegNum = BaseReg.getRegNum + (RegCount : Int) := by
        rw [← hc.2, hinv]
      simp [runRegisters, List.range_succ, e]
    · have e1 : runRegisters (NextReg, 1) = [NextReg.getRegNum] := by
        simp [runRegisters, List.range_succ]
      rw [List.map_cons, List.flatten_cons,
        ih NextReg NextReg 1 (by push_cast; ring), e1]
      simp

/-- The first run is the run in progress, and it holds at least the registers
counted so far. -/
theorem vfpRuns_head : ∀ (rest : List (Variable IceType)) (Reg BaseReg : Variable IceType)
    (RegCount : Nat),
    ∃ c t, vfpRuns Reg BaseReg RegCount rest = (BaseReg, c) :: t ∧ RegCount ≤ c := by
  intro rest
  induction rest with
  | nil => intro Reg BaseReg RegCount; exact ⟨RegCount, [], rfl, le_refl _⟩
  | cons NextReg rest ih =>
    intro Reg BaseReg RegCount
    simp only [vfpRuns]
    split_ifs with hc
    · obtain ⟨c, t, h1, h2⟩ := ih NextReg BaseReg (RegCount + 1)
      exact ⟨c, t, h1, by omega⟩
    · exact ⟨RegCount, _, rfl, le_refl _⟩

theorem runStarts_ge : ∀ (runs : List (Variable IceType × Nat)) (pos : Nat),
    ∀ x ∈ runStarts pos runs, pos ≤ x := by
  intro runs
  induction runs with
  | nil => intro pos x hx; cases hx
  | cons run rest ih =>
    intro pos x hx
    simp only [runStarts, List.mem_cons] at hx
    rcases hx with rfl | hx
    · exact le_refl _
    · have := ih _ x hx
      omega

/-- Where the runs start. With a run of `RegCount` registers in progress that
began at position `pos`, the element `a` at offset `j` of the remaining list
(its predecessor being `b`) starts a new run exactly when it is not the
successor of `b` or the run in progress already holds 16 registers. -/
theorem vfpRuns_starts : ∀ (rest : List (Variable IceType)) (Reg BaseReg : Variable IceType)
    (RegCount pos : Nat), 1 ≤ RegCount → RegCount ≤ 16 →
    ∀ (j : Nat) (b a : Variable IceType), (Reg :: rest)[j]? = some b → rest[j]? = some a →
      ((pos + RegCount + j) ∈ runStarts pos (vfpRuns Reg BaseReg RegCount rest) ↔
        (a.getRegNum ≠ b.getRegNum + 1 ∨
          heldBefore (RegCount + j) (vfpRuns Reg BaseReg RegCount rest) = 16)) := by
  intro rest
  induction rest with
  | nil => intro _ _ _ _ _ _ j b a _ ha; simp at ha
  | cons NextReg rest ih =>
    intro Reg BaseReg RegCount pos h1 h16 j b a hb ha
    simp only [vfpRuns]
    split_ifs with hc
    · -- the run in progress is extended by `NextReg`
      have hlt : RegCount < 16 := hc.1
      cases j with
      | zero =>
        simp only [List.getElem?_cons_zero, Option.some.injEq] at hb ha
        subst hb ha
        obtain ⟨c, t, hout, hle⟩ := vfpRuns_head rest NextReg BaseReg (RegCount + 1)
        rw [hout]
        simp only [runStarts, heldBefore, List.mem_cons, Nat.add_zero]
        constructor
        · rintro (h | h)
          · omega
          · have := runStarts_ge t (pos + c) _ h
            omega
        · rintro (h | h)
          · exact absurd hc.2.symm h
          · rw [if_pos (by omega)] at h
            omega
      | succ j =>
        simp only [List.getElem?_cons_succ] at hb ha
        have e1 : pos + RegCount + (j + 1) = pos + (RegCount + 1) + j := by omega
        have e2 : RegCount + (j + 1) = RegCount + 1 + j := by omega
        rw [e1, e2]
        exact ih NextReg BaseReg (RegCount + 1) pos (by omega) (by omega) j b a hb ha
    · -- the run in progress is flushed and `NextReg` starts a new run
      cases j with
      | zero =>
        simp only [List.getElem?_cons_zero, Option.some.injEq] at hb ha
        subst hb ha
        obtain ⟨c, t, hout, -⟩ := vfpRuns_head rest NextReg NextReg 1
        rw [hout]
        simp only [runStarts, heldBefore, List.mem_cons, Nat.add_zero, le_refl, if_true]
        constructor
        · intro _
          by_cases hs : Reg.getRegNum + 1 = NextReg.getRegNum
          · right
            have : ¬ RegCount < 16 := fun h => hc ⟨h, hs⟩
            omega
          · left
            exact fun h => hs h.symm
        · intro _
          right; left; trivial
      | succ j =>
        simp only [List.getElem?_cons_succ] at hb ha
        have hih := ih NextReg NextReg 1 (pos + RegCount) (le_refl _) (by decide) j b a hb ha
        have e1 : pos + RegCount + (j + 1) = pos + RegCount + 1 + j := by omega
        have e2 : RegCount + (j + 1) - RegCount = 1 + j := by omega
        have e3 : ¬ RegCount + (j + 1) ≤ RegCount := by omega
        simp only [runStarts, heldBefore, List.mem_cons, if_neg e3, e2]
        rw [← hih, e1]
        constructor
        · rintro (h | h)
          · omega
          · exact h
        · intro h
          exact Or.inr h

/-- Twenty consecutive registers are emitted as a run of 16 followed by a run
of 4. -/
theorem vfpRuns_twenty (Reg : Variable IceType) (rest : List (Variable IceType)) (b : Int)
    (h : (Reg :: rest).map Variable.getRegNum
      = (List.range 20).map (fun (j : Nat) => b + (j : Int))) :
    (vfpRuns Reg Reg 1 rest).map (fun r => (r.1.getRegNum, r.2)) = [(b, 16), (b + 16, 4)] := by
  have hlen : rest.length = 19 := by
    have := congrArg List.length h
    simp only [List.length_map, List.length_cons, List.length_range] at this
    omega
  rcases rest with _ | ⟨v1, _ | ⟨v2, _ | ⟨v3, _ | ⟨v4, _ | ⟨v5, _ | ⟨v6, _ | ⟨v7, _ | ⟨v8, _ | ⟨v9, _ | ⟨v10, _ | ⟨v11, _ | ⟨v12, _ | ⟨v13, _ | ⟨v14, _ | ⟨v15, _ | ⟨v16, _ | ⟨v17, _ | ⟨v18, _ | ⟨v19, _ | ⟨w, tl⟩⟩⟩⟩⟩⟩⟩⟩⟩⟩⟩⟩⟩⟩⟩⟩⟩⟩⟩⟩
  all_goals try (simp at hlen; done)
  · simp [List.range_succ] at h
    obtain ⟨h0, h1, h2, h3, h4, h5, h6, h7, h8, h9, h10, h11, h12, h13, h14, h15, h16, h17,
      h18, h19⟩ := h
    norm_num [vfpRuns, VpushVpopMaxConsecRegs, h0, h1, h2, h3, h4, h5, h6, h7, h8, h9, h10,
      h11, h12, h13, h14, h15, h16, h17, h18, h19, add_assoc]

end VfpRuns

section VfpEmit

variable {IceType : Type} [DecidableEq IceType]

/-- On a validated float or vector list the binary paths of push and pop emit
one `vpush`, respectively one `vpop`, for each run of `vfpRuns`. -/
theorem emitIAS_vfp_eq (T : IceTypes IceType) (R : RegTable) (Reg : Variable IceType)
    (rest : List (Variable IceType))
    (hvalid : validatePushOrPopRegisterListOrDie T (Reg :: rest) = .ok ())
    (hvfp : T.isScalarIntegerType Reg.getType = false) :
    InstARM32Push.emitIAS T R { Srcs := Reg :: rest }
      = .ok ((vfpRuns Reg Reg 1 rest).map (fun r => AsmCall.vpush r.1 r.2)) ∧
    InstARM32Pop.emitIAS T R { Dests := Reg :: rest }
      = .ok ((vfpRuns Reg Reg 1 rest).map (fun r => AsmCall.vpop r.1 r.2)) := by
  have hall := validateLoop_hasReg T (Reg :: rest) T.IceType_void hvalid
  have hReg : Reg.hasReg = true := hall Reg (List.mem_cons_self _ _)
  have hrest : ∀ v ∈ rest, v.hasReg = true := fun v hv => hall v (List.mem_cons_of_mem _ hv)
  constructor
  · simp only [InstARM32Push.emitIAS, hvfp]
    exact push_vfpLoop_eq rest Reg Reg 1 hReg hrest
  · simp only [InstARM32Pop.emitIAS, hvfp, InstARM32Pop.vfpLoop]
    exact pop_vfpLoop_eq rest Reg Reg 1 (by decide) hReg hrest

/-- A push instruction exists only for a validated list, which it stores. -/
theorem push_construct_ok (T : IceTypes IceType) (L : List (Variable IceType))
    (I : InstARM32Push IceType) (h : InstARM32Push.construct T L = .ok I) :
    validatePushOrPopRegisterListOrDie T L = .ok () ∧ I = { Srcs := L } := by
  unfold InstARM32Push.construct at h
  cases hv : validatePushOrPopRegisterListOrDie T L with
  | error e => rw [hv] at h; cases h
  | ok u =>
    rw [hv] at h
    exact ⟨rfl, (Except.ok.inj h).symm⟩

/-- A pop instruction exists only for a validated list, which it stores. -/
theorem pop_construct_ok (T : IceTypes IceType) (L : List (Variable IceType))
    (J : InstARM32Pop IceType) (h : InstARM32Pop.construct T L = .ok J) :
    validatePushOrPopRegisterListOrDie T L = .ok () ∧ J = { Dests := L } := by
  unfold InstARM32Pop.construct at h
  cases hv : validatePushOrPopRegisterListOrDie T L with
  | error e => rw [hv] at h; cases h
  | ok u =>
    rw [hv] at h
    exact ⟨rfl, (Except.ok.inj h).symm⟩

end VfpEmit

/-- C19: for every non-empty float or vector register list, the binary paths
of the push and of the pop instruction constructed from it emit the same
sequence of runs `(BaseReg, RegCount)`; every count is between 1 and 16, each
run covers consecutive register numbers from its base, and the runs laid end to
end are the register numbers of the input list. For 20 consecutive registers
from `b` the runs are 16 registers from `b` and 4 from `b + 16`. -/
theorem vfp_emitIAS_runs {IceType : Type} [DecidableEq IceType] (T : IceTypes IceType)
    (R : RegTable) (Reg : Variable IceType) (rest : List (Variable IceType))
    (I : InstARM32Push IceType) (J : InstARM32Pop IceType)
    (hI : InstARM32Push.construct T (Reg :: rest) = .ok I)
    (hJ : InstARM32Pop.construct T (Reg :: rest) = .ok J)
    (hvfp : T.isScalarIntegerType Reg.getType = false) :
    ∃ runs : List (Variable IceType × Nat),
      InstARM32Push.emitIAS T R I = .ok (runs.map (fun r => AsmCall.vpush r.1 r.2)) ∧
      InstARM32Pop.emitIAS T R J = .ok (runs.map (fun r => AsmCall.vpop r.1 r.2)) ∧
      (∀ r ∈ runs, 1 ≤ r.2 ∧ r.2 ≤ 16) ∧
      (runs.map runRegisters).flatten = (Reg :: rest).map Variable.getRegNum ∧
      (∀ b : Int,
        (Reg :: rest).map Variable.getRegNum
            = (List.range 20).map (fun (j : Nat) => b + (j : Int)) →
        runs.map (fun r => (r.1.getRegNum, r.2)) = [(b, 16), (b + 16, 4)]) := by
  obtain ⟨hvalid, rfl⟩ := push_construct_ok T _ I hI
  obtain ⟨-, rfl⟩ := pop_construct_ok T _ J hJ
  obtain ⟨hpush, hpop⟩ := emitIAS_vfp_eq T R Reg rest hvalid hvfp
  refine ⟨vfpRuns Reg Reg 1 rest, hpush, hpop, ?_, ?_, ?_⟩
  · exact vfpRuns_count rest Reg Reg 1 (le_refl _) (by decide)
  · rw [vfpRuns_cover rest Reg Reg 1 (by push_cast; ring)]
    simp [runRegisters, List.range_succ]
  · intro b hb
    exact vfpRuns_twenty Reg rest b hb

theorem vfp_emitIAS_runs_witness :
    InstARM32Push.construct sampleIceTypes (sampleFloatRegs 16 20)
      = .ok { Srcs := sampleFloatRegs 16 20 } ∧
    InstARM32Push.emitIAS sampleIceTypes sampleRegTable { Srcs := sampleFloatRegs 16 20 }
      = .ok [AsmCall.vpush { Ty := SampleIceType.f32, RegNum := 16 } 16,
             AsmCall.vpush { Ty := SampleIceType.f32, RegNum := 32 } 4] ∧
    InstARM32Pop.emitIAS sampleIceTypes sampleRegTable { Dests := sampleFloatRegs 16 20 }
      = .ok [AsmCall.vpop { Ty := SampleIceType.f32, RegNum := 16 } 16,
             AsmCall.vpop { Ty := SampleIceType.f32, RegNum := 32 } 4] ∧
    ∃ runs : List (Variable SampleIceType × Nat),
      InstARM32Push.emitIAS sampleIceTypes sampleRegTable
          { Srcs := { Ty := SampleIceType.f32, RegNum := 16 } :: sampleFloatRegs 17 19 }
        = .ok (runs.map (fun r => AsmCall.vpush r.1 r.2)) ∧
      InstARM32Pop.emitIAS sampleIceTypes sampleRegTable
          { Dests := { Ty := SampleIceType.f32, RegNum := 16 } :: sampleFloatRegs 17 19 }
        = .ok (runs.map (fun r => AsmCall.vpop r.1 r.2)) ∧
      (∀ r ∈ runs, 1 ≤ r.2 ∧ r.2 ≤ 16) ∧
      (runs.map runRegisters).flatten
        = (({ Ty := SampleIceType.f32, RegNum := 16 } : Variable SampleIceType)
            :: sampleFloatRegs 17 19).map Variable.getRegNum ∧
      (∀ b : Int,
        (({ Ty := SampleIceType.f32, RegNum := 16 } : Variable SampleIceType)
            :: sampleFloatRegs 17 19).map Variable.getRegNum
            = (List.range 20).map (fun (j : Nat) => b + (j : Int)) →
        runs.map (fun r => (r.1.getRegNum, r.2)) = [(b, 16), (b + 16, 4)]) :=
  ⟨rfl, rfl, rfl,
    vfp_emitIAS_runs sampleIceTypes sampleRegTable { Ty := SampleIceType.f32, RegNum := 16 }
      (sampleFloatRegs 17 19) _ _ rfl rfl rfl⟩

/-- C20: the runs that the binary paths of the push and of the pop instruction
constructed from a float or vector list emit are maximal. A new run starts at
list position `k + 1` if and only if the register at `k + 1` is not the
successor of the register at `k` or the run in progress already holds 16
registers. -/
theorem vfp_emitIAS_runs_maximal {IceType : Type} [DecidableEq IceType]
    (T : IceTypes IceType) (R : RegTable) (Reg : Variable IceType)
    (rest : List (Variable IceType))
    (I : InstARM32Push IceType) (J : InstARM32Pop IceType)
    (hI : InstARM32Push.construct T (Reg :: rest) = .ok I)
    (hJ : InstARM32Pop.construct T (Reg :: rest) = .ok J)
    (hvfp : T.isScalarIntegerType Reg.getType = false) :
    ∃ runs : List (Variable IceType × Nat),
      InstARM32Push.emitIAS T R I = .ok (runs.map (fun r => AsmCall.vpush r.1 r.2)) ∧
      InstARM32Pop.emitIAS T R J = .ok (runs.map (fun r => AsmCall.vpop r.1 r.2)) ∧
      ∀ (k : Nat) (b a : Variable IceType),
        (Reg :: rest)[k]? = some b → (Reg :: rest)[k + 1]? = some a →
        ((k + 1) ∈ runStarts 0 runs ↔
          (a.getRegNum ≠ b.getRegNum + 1 ∨ heldBefore (k + 1) runs = 16)) := by
  obtain ⟨hvalid, rfl⟩ := push_construct_ok T _ I hI
  obtain ⟨-, rfl⟩ := pop_construct_ok T _ J hJ
  obtain ⟨hpush, hpop⟩ := emitIAS_vfp_eq T R Reg rest hvalid hvfp
  refine ⟨vfpRuns Reg Reg 1 rest, hpush, hpop, ?_⟩
  intro k b a hb ha
  rw [List.getElem?_cons_succ] at ha
  have h := vfpRuns_starts rest Reg Reg 1 0 (le_refl _) (by decide) k b a hb ha
  have e1 : 0 + 1 + k = k + 1 := by omega
  have e2 : 1 + k = k + 1 := by omega
  simp only [e1, e2] at h
  exact h

theorem vfp_emitIAS_runs_maximal_witness :
    runStarts 0 (vfpRuns ({ Ty := SampleIceType.f32, RegNum := 16 } : Variable SampleIceType)
      { Ty := SampleIceType.f32, RegNum := 16 } 1 (sampleFloatRegs 17 19)) = [0, 16] ∧
    ∃ runs : List (Variable SampleIceType × Nat),
      InstARM32Push.emitIAS sampleIceTypes sampleRegTable
          { Srcs := { Ty := SampleIceType.f32, RegNum := 16 } :: sampleFloatRegs 17 19 }
        = .ok (runs.map (fun r => AsmCall.vpush r.1 r.2)) ∧
      InstARM32Pop.emitIAS sampleIceTypes sampleRegTable
          { Dests := { Ty := SampleIceType.f32, RegNum := 16 } :: sampleFloatRegs 17 19 }
        = .ok (runs.map (fun r => AsmCall.vpop r.1 r.2)) ∧
      ∀ (k : Nat) (b a : Variable SampleIceType),
        (({ Ty := SampleIceType.f32, RegNum := 16 } : Variable SampleIceType)
            :: sampleFloatRegs 17 19)[k]? = some b →
        (({ Ty := SampleIceType.f32, RegNum := 16 } : Variable SampleIceType)
            :: sampleFloatRegs 17 19)[k + 1]? = some a →
        ((k + 1) ∈ runStarts 0 runs ↔
          (a.getRegNum ≠ b.getRegNum + 1 ∨ heldBefore (k + 1) runs = 16)) :=
  ⟨by decide,
    vfp_emitIAS_runs_maximal sampleIceTypes sampleRegTable
      { Ty := SampleIceType.f32, RegNum := 16 } (sampleFloatRegs 17 19) _ _ rfl rfl rfl⟩

/-! ## Canonical form of flexible immediates -/

namespace OperandARM32FlexImm

/-- Every 8-bit magnitude and rotation, checked one by one: the pair that the
reduction loop of `create` ends with is again an 8-bit magnitude with a
rotation that is not larger, and it denotes the same value. -/
theorem createLoop_preserves :
    ∀ Imm < 256, ∀ RotateAmt < 16,
      (createLoop Imm RotateAmt).1 ≤ 0xFF ∧ (createLoop Imm RotateAmt).2 ≤ RotateAmt ∧
      rotateRight32 (createLoop Imm RotateAmt).1 (2 * (createLoop Imm RotateAmt).2)
        = rotateRight32 Imm (2 * RotateAmt) := by
  decide!

/-- One step of the reduction loop keeps the denoted value: a magnitude whose
low two bits are zero may be shifted right by two while the rotation drops by
one. -/
theorem rotateRight32_reduce_step :
    ∀ m < 256, ∀ r < 16, m &&& 0x03 = 0 → 0 < r →
      rotateRight32 m (2 * r) = rotateRight32 (m >>> 2) (2 * (r - 1)) := by
  decide!

end OperandARM32FlexImm

/-- C27: `create` preserves the value it denotes. For every `Imm ≤ 0xFF` and
`RotateAmt` in `[0, 15]` the stored pair `(Imm', RotateAmt')` satisfies
`Imm' ≤ 0xFF`, `RotateAmt' ≤ RotateAmt` and
`rotateRight32 Imm' (2 * RotateAmt') = rotateRight32 Imm (2 * RotateAmt)`. -/
theorem create_preserves_value (Imm RotateAmt : Nat) (hImm : Imm ≤ 0xFF)
    (hRot : RotateAmt ≤ 15) :
    (create Imm RotateAmt).Imm ≤ 0xFF ∧ (create Imm RotateAmt).RotateAmt ≤ RotateAmt ∧
      emitValue (create Imm RotateAmt) = rotateRight32 Imm (2 * RotateAmt) :=
  createLoop_preserves Imm (by omega) RotateAmt (by omega)

theorem create_preserves_value_witness :
    (0xF0 : Nat) ≤ 0xFF ∧ (14 : Nat) ≤ 15 ∧ create 0xF0 14 = { Imm := 0x0F, RotateAmt := 12 } ∧
      emitValue (create 0xF0 14) = rotateRight32 0xF0 (2 * 14) :=
  ⟨by decide, by decide, by decide, (create_preserves_value 0xF0 14 (by decide) (by decide)).2.2⟩

/-- C30: the pair returned by `canHoldImm` is already canonical. Whenever
`canHoldImm v` succeeds on a 32-bit value with `(RotateAmt, Immed_8)`, the loop
condition of `create` is false on entry, so `create Immed_8 RotateAmt` stores
exactly `Immed_8` and `RotateAmt`. -/
theorem canHoldImm_result_canonical (v RotateAmt Immed_8 : Nat) (hv : v < 2 ^ 32)
    (h : canHoldImm v = some (RotateAmt, Immed_8)) :
    ¬ (Immed_8 &&& 0x03 = 0 ∧ 0 < RotateAmt) ∧
      create Immed_8 RotateAmt = { Imm := Immed_8, RotateAmt := RotateAmt } := by
  obtain ⟨h1, h2, h3, h4⟩ := (canHoldImm_eq_some v RotateAmt Immed_8).mp h
  have hcond : ¬ (Immed_8 &&& 0x03 = 0 ∧ 0 < RotateAmt) := by
    rintro ⟨hlow, hpos⟩
    have hdec : rotateRight32 Immed_8 (2 * RotateAmt) = v := by
      rw [h2]
      exact rotateRight32_rotateLeft32 v (2 * RotateAmt) hv (by omega)
    have hstep := rotateRight32_reduce_step Immed_8 (by omega) RotateAmt h1 hlow hpos
    have hle : Immed_8 >>> 2 ≤ Immed_8 := by
      rw [Nat.shiftRight_eq_div_pow]
      exact Nat.div_le_self _ _
    have hsmall : Immed_8 >>> 2 < 2 ^ 32 := by
      have : (0xFF : Nat) < 2 ^ 32 := by decide
      omega
    have hprev : rotateLeft32 v (2 * (RotateAmt - 1)) = Immed_8 >>> 2 := by
      rw [← hdec, hstep]
      exact rotateLeft32_rotateRight32 _ _ hsmall (by omega)
    exact h4 (RotateAmt - 1) (by omega) (by rw [hprev]; omega)
  refine ⟨hcond, ?_⟩
  unfold create
  cases RotateAmt with
  | zero => rfl
  | succ r =>
    have hne : ¬ Immed_8 &&& 0x03 = 0 := fun hz => hcond ⟨hz, Nat.succ_pos _⟩
    simp only [createLoop, if_neg hne]

theorem canHoldImm_result_canonical_witness :
    (0x3FC : Nat) < 2 ^ 32 ∧ canHoldImm 0x3FC = some (15, 0xFF) ∧
      create 0xFF 15 = { Imm := 0xFF, RotateAmt := 15 } :=
  ⟨by decide, by decide,
    (canHoldImm_result_canonical 0x3FC 15 0xFF (by decide) (by decide)).2⟩

/-! ## Single general-purpose register lists -/

/-- C21: for a general-purpose register list of size 1, the binary paths of the
push and of the pop instruction constructed from it fail their assertion when
the single register is the stack pointer, and emit the single-register form
`push`, respectively `pop`, for every other register. The code recognises the
stack pointer as the register whose number is `Encoded_Reg_sp`. -/
theorem gpr_single_register {IceType : Type} [DecidableEq IceType] (T : IceTypes IceType)
    (R : RegTable) (Var : Variable IceType)
    (I : InstARM32Push IceType) (J : InstARM32Pop IceType)
    (hI : InstARM32Push.construct T [Var] = .ok I)
    (hJ : InstARM32Pop.construct T [Var] = .ok J)
    (hint : T.isScalarIntegerType Var.getType = true)
    (h0 : 0 ≤ Var.getRegNum) (h1 : Var.getRegNum < R.Reg_NUM)
    (hgpr : R.IsGPR Var.getRegNum = true)
    (henc : R.Encoding Var.getRegNum ≠ R.Encoded_Not_GPR) :
    (Var.getRegNum = R.Encoded_Reg_sp →
      InstARM32Push.emitIAS T R I
        = .error "assert(RegARM32::Encoded_Reg_sp != LastSrc->getRegNum())" ∧
      InstARM32Pop.emitIAS T R J
        = .error "assert(RegARM32::Encoded_Reg_sp != LastDest->getRegNum())") ∧
    (Var.getRegNum ≠ R.Encoded_Reg_sp →
      InstARM32Push.emitIAS T R I = .ok [AsmCall.push Var] ∧
      InstARM32Pop.emitIAS T R J = .ok [AsmCall.pop Var]) := by
  obtain ⟨hvalid, rfl⟩ := push_construct_ok T _ I hI
  obtain ⟨-, rfl⟩ := pop_construct_ok T _ J hJ
  have hreg : Var.hasReg = true :=
    validateLoop_hasReg T [Var] T.IceType_void hvalid Var (List.mem_cons_self _ _)
  have hpushLoop : InstARM32Push.gprLoop R { IntegerCount := 0, GPRegisters := 0, Last := none }
      [Var] = .ok { IntegerCount := 1,
                    GPRegisters := 0 ||| ((1 <<< (R.Encoding Var.getRegNum).toNat) % 2 ^ 32),
                    Last := some Var } := by
    simp [InstARM32Push.gprLoop, RegARM32.getEncodedGPReg, h0, h1, hgpr, henc]
  have hpopLoop : InstARM32Pop.gprLoop R { IntegerCount := 0, GPRegisters := 0, Last := none }
      [Var] = .ok { IntegerCount := 1,
                    GPRegisters := 0 ||| ((1 <<< (R.Encoding Var.getRegNum).toNat) % 2 ^ 32),
                    Last := some Var } := by
    simp [InstARM32Pop.gprLoop, RegARM32.getEncodedGPReg, h0, h1, hgpr, hreg]
  constructor
  · intro hsp
    constructor
    · simp only [InstARM32Push.emitIAS, hint, if_true, hpushLoop]
      rw [if_pos hsp.symm]
    · simp only [InstARM32Pop.emitIAS, hint, if_true, hpopLoop]
      rw [if_pos hsp.symm]
  · intro hsp
    constructor
    · simp only [InstARM32Push.emitIAS, hint, if_true, hpushLoop]
      rw [if_neg (fun h => hsp h.symm)]
    · simp only [InstARM32Pop.emitIAS, hint, if_true, hpopLoop]
      rw [if_neg (fun h => hsp h.symm)]

theorem gpr_single_register_witness :
    (InstARM32Push.emitIAS sampleIceTypes sampleRegTable
        { Srcs := [{ Ty := SampleIceType.i32, RegNum := 13 }] }
        = .error "assert(RegARM32::Encoded_Reg_sp != LastSrc->getRegNum())" ∧
      InstARM32Pop.emitIAS sampleIceTypes sampleRegTable
        { Dests := [{ Ty := SampleIceType.i32, RegNum := 13 }] }
        = .error "assert(RegARM32::Encoded_Reg_sp != LastDest->getRegNum())") ∧
    (InstARM32Push.emitIAS sampleIceTypes sampleRegTable
        { Srcs := [{ Ty := SampleIceType.i32, RegNum := 4 }] }
        = .ok [AsmCall.push { Ty := SampleIceType.i32, RegNum := 4 }] ∧
      InstARM32Pop.emitIAS sampleIceTypes sampleRegTable
        { Dests := [{ Ty := SampleIceType.i32, RegNum := 4 }] }
        = .ok [AsmCall.pop { Ty := SampleIceType.i32, RegNum := 4 }]) :=
  ⟨(gpr_single_register sampleIceTypes sampleRegTable { Ty := SampleIceType.i32, RegNum := 13 }
      { Srcs := [{ Ty := SampleIceType.i32, RegNum := 13 }] }
      { Dests := [{ Ty := SampleIceType.i32, RegNum := 13 }] }
      (by rfl) (by rfl) rfl (by decide) (by decide) rfl (by decide)).1 rfl,
   (gpr_single_register sampleIceTypes sampleRegTable { Ty := SampleIceType.i32, RegNum := 4 }
      { Srcs := [{ Ty := SampleIceType.i32, RegNum := 4 }] }
      { Dests := [{ Ty := SampleIceType.i32, RegNum := 4 }] }
      (by rfl) (by rfl) rfl (by decide) (by decide) rfl (by decide)).2 (by decide)⟩

/-! ## Claims about constructors -/

/-- C25 (the code at the constructors): the constructors of `InstARM32Call`,
`InstARM32Vcmp` and `InstARM32Vmrs` set `HasSideEffects`, whatever value `Inst`
gave it, while the constructor of `InstARM32Dmb` leaves the flag as `Inst`
initialised it; starting from a clear flag the memory barrier is constructed
with `HasSideEffects = false`. -/
theorem dmb_construct_leaves_flag {IceType Cond : Type} (C : CondTable Cond) :
    (∀ (init : Bool) (Dest : Option (Variable IceType)) (CallTarget : Operand IceType),
      (InstARM32Call.construct init Dest CallTarget : InstARM32 IceType Cond).HasSideEffects
        = true) ∧
    (∀ (init : Bool) (Src0 : Variable IceType) (Src1 : Operand IceType) (Pred : Cond),
      (InstARM32Vcmp.construct init Src0 Src1 Pred).HasSideEffects = true) ∧
    (∀ (init : Bool) (Pred : Cond),
      (InstARM32Vmrs.construct init Pred : InstARM32 IceType Cond).HasSideEffects = true) ∧
    (∀ init : Bool,
      (InstARM32Dmb.construct C init : InstARM32 IceType Cond).HasSideEffects = init) ∧
    (InstARM32Dmb.construct C false : InstARM32 IceType Cond).HasSideEffects = false :=
  ⟨fun _ _ _ => rfl, fun _ _ _ _ => rfl, fun _ _ => rfl, fun _ => rfl, rfl⟩

/-- C26: constructing a register-indexed memory reference raises a fatal error
exactly when the index variable is rematerializable, and otherwise yields an
operand with the index set, no immediate offset and the two variables
`[Base, Index]`; the immediate-offset constructor yields an operand with no
index and the single variable `[Base]`. Its addressing mode is one that is not
negated, the negated modes belonging to the register-index form, as the
constructor asserts; whatever it yields, for any mode, has no index and the
variables `[Base]`. Hence no constructed memory reference has both an immediate
offset and an index. -/
theorem operandMem_construct {IceType : Type} (isRematerializable : Variable IceType → Bool)
    (Ty : IceType) (Base Index : Variable IceType) (ImmOffset : Option Int)
    (ShiftOp : ShiftKind) (ShiftAmt : Nat) (Mode ModeImm : AddrMode)
    (hmode : OperandARM32Mem.isNegAddrMode ModeImm = false) :
    ((∃ e, OperandARM32Mem.constructIndex isRematerializable Ty Base Index ShiftOp ShiftAmt Mode
        = .error e) ↔ isRematerializable Index = true) ∧
    (isRematerializable Index = false →
      OperandARM32Mem.constructIndex isRematerializable Ty Base Index ShiftOp ShiftAmt Mode
        = .ok { Ty := Ty, Base := Base, ImmOffset := none, Index := some Index,
                ShiftOp := ShiftOp, ShiftAmt := ShiftAmt, Mode := Mode,
                Vars := [Base, Index] }) ∧
    OperandARM32Mem.constructImm Ty Base ImmOffset ModeImm
      = .ok { Ty := Ty, Base := Base, ImmOffset := ImmOffset, Index := none,
              ShiftOp := .kNoShift, ShiftAmt := 0, Mode := ModeImm, Vars := [Base] } ∧
    (∀ (M : AddrMode) (op : OperandARM32Mem IceType),
      (OperandARM32Mem.constructImm Ty Base ImmOffset M = .ok op ∨
        OperandARM32Mem.constructIndex isRematerializable Ty Base Index ShiftOp ShiftAmt M
          = .ok op) →
      ¬ (op.ImmOffset ≠ none ∧ op.Index ≠ none)) ∧
    (∀ (M : AddrMode) (op : OperandARM32Mem IceType),
      OperandARM32Mem.constructImm Ty Base ImmOffset M = .ok op →
      op.Index = none ∧ op.Vars = [Base]) := by
  refine ⟨?_, ?_, ?_, ?_, ?_⟩
  · unfold OperandARM32Mem.constructIndex
    by_cases h : isRematerializable Index = true
    · simp [h]
    · simp [h]
  · intro h
    simp [OperandARM32Mem.constructIndex, h]
  · simp [OperandARM32Mem.constructImm, hmode]
  · rintro M op (h | h) ⟨h1, h2⟩
    · unfold OperandARM32Mem.constructImm at h
      split_ifs at h
      have := Except.ok.inj h
      subst this
      exact h2 rfl
    · unfold OperandARM32Mem.constructIndex at h
      split_ifs at h
      have := Except.ok.inj h
      subst this
      exact h1 rfl
  · intro M op h
    unfold OperandARM32Mem.constructImm at h
    split_ifs at h
    have := Except.ok.inj h
    subst this
    exact ⟨rfl, rfl⟩

theorem operandMem_construct_witness :
    OperandARM32Mem.constructImm SampleIceType.i32
        ({ Ty := SampleIceType.i32, RegNum := 1 } : Variable SampleIceType) (some 8)
        AddrMode.PreIndex
      = .ok { Ty := SampleIceType.i32, Base := { Ty := SampleIceType.i32, RegNum := 1 },
              ImmOffset := some 8, Index := none, ShiftOp := .kNoShift, ShiftAmt := 0,
              Mode := AddrMode.PreIndex, Vars := [{ Ty := SampleIceType.i32, RegNum := 1 }] } :=
  (operandMem_construct (fun _ => false) SampleIceType.i32
    { Ty := SampleIceType.i32, RegNum := 1 } { Ty := SampleIceType.i32, RegNum := 2 } (some 8)
    ShiftKind.LSL 2 AddrMode.NegOffset AddrMode.PreIndex rfl).2.2.1

/-! ## Control flow across `optimizeBranch` -/

/-- Whatever `optimizeBranch` returns for a label-free branch, control reaches
the same place after the returned instruction as after the original one. -/
theorem controlReaches_optimizeBranch {Cond : Type} [DecidableEq Cond]
    (C : CondTable Cond) (I I' : InstARM32Br Cond) (NextNode : Option CfgNode) (r : Bool)
    (holds : Bool → Cond → Bool)
    (hlabel : I.Label = none)
    (hAL : ∀ taken, holds taken C.AL = true)
    (hP : I.Predicate ≠ C.AL → ∀ taken, holds taken I.Predicate = taken)
    (hopp : ∀ taken, holds taken (C.Opposite I.Predicate) = !holds taken I.Predicate)
    (hopt : optimizeBranch C I NextNode = .ok (r, I')) :
    ∀ taken, controlReaches C (holds taken) NextNode I'
      = controlReaches C (holds taken) NextNode I := by
  intro taken
  unfold optimizeBranch at hopt
  split_ifs at hopt with h1 h2 h3 h4 h5 h6 h7 h8
  · cases hopt; rfl
  · cases hopt; rfl
  · cases hopt; rfl
  · -- an unconditional branch to the next block is deleted
    cases hopt
    obtain ⟨hu, hf⟩ := h4
    by_cases hd : I.Deleted = true
    · simp [controlReaches, hd]
    · have hAL' := hAL taken
      have hpred : I.Predicate = C.AL := by simpa [isUnconditionalBranch] using hu
      simp only [controlReaches, hd, emitIAS, hlabel, hu, hf, if_true]
      cases hN : NextNode with
      | none => exact absurd hN h1
      | some B =>
        simp [landing, hpred, hAL']
  · -- the false target is the next block and is cleared
    cases hopt
    by_cases hd : I.Deleted = true
    · simp [controlReaches, hd]
    · have hu : ¬ isUnconditionalBranch C I = true := fun hu => h4 ⟨hu, h6⟩
      have hpne : I.Predicate ≠ C.AL := by simpa [isUnconditionalBranch] using hu
      have hAL' := hAL taken
      cases hT : I.TargetTrue with
      | none => simp [controlReaches, hd, emitIAS, hlabel, isUnconditionalBranch, hpne, hT]
      | some T =>
        cases hN : NextNode with
        | none => exact absurd hN h1
        | some B =>
          rw [hN] at h6
          by_cases hh : holds taken I.Predicate = true
          · simp [controlReaches, hd, emitIAS, hlabel, isUnconditionalBranch, hpne, hT, h6,
              landing, hh]
          · simp [controlReaches, hd, emitIAS, hlabel, isUnconditionalBranch, hpne, hT, h6,
              landing, hh, hAL']
  · -- the true target is the next block: the predicate is inverted
    cases hopt
    have hpred : I.Predicate ≠ C.AL := h8
    have hPt := hP hpred taken
    have hoppt := hopp taken
    have hoppne : C.Opposite I.Predicate ≠ C.AL := by
      intro he
      have hA := hAL true
      have hO := hopp true
      rw [he, hA, hP hpred true] at hO
      cases hO
    have hAL' := hAL taken
    by_cases hd : I.Deleted = true
    · simp [controlReaches, hd]
    · cases hF : I.TargetFalse with
      | none => exact absurd hF h3
      | some F =>
        cases hN : NextNode with
        | none => exact absurd hN h1
        | some B =>
          rw [hN] at h7
          cases taken with
          | true =>
            simp [controlReaches, hd, emitIAS, hlabel, isUnconditionalBranch, hpred, hoppne,
              getOppositeCondition, hF, h7, landing, hPt, hoppt]
          | false =>
            simp [controlReaches, hd, emitIAS, hlabel, isUnconditionalBranch, hpred, hoppne,
              getOppositeCondition, hF, h7, landing, hPt, hoppt, hAL']
  · cases hopt; rfl

/-- C29: `optimizeBranch Next` preserves control flow. For every label-free
branch satisfying the construction invariant (an unconditional branch has no
true target), `optimizeBranch Next` returns, and for every outcome `taken` of
the condition, with the "always" predicate true and the opposite predicate
true exactly when the predicate is not, control reaches the same place after
the optimised instruction as after the original one, `Next` being the
fall-through of a cleared false target and of a deleted branch. -/
theorem optimizeBranch_preserves_control_flow {Cond : Type} [DecidableEq Cond]
    (C : CondTable Cond) (I : InstARM32Br Cond) (NextNode : Option CfgNode)
    (holds : Bool → Cond → Bool)
    (hlabel : I.Label = none)
    (hinv : I.Predicate = C.AL → I.TargetTrue = none)
    (hAL : ∀ taken, holds taken C.AL = true)
    (hP : I.Predicate ≠ C.AL → ∀ taken, holds taken I.Predicate = taken)
    (hopp : ∀ taken, holds taken (C.Opposite I.Predicate) = !holds taken I.Predicate) :
    ∃ (r : Bool) (I' : InstARM32Br Cond), optimizeBranch C I NextNode = .ok (r, I') ∧
      ∀ taken, controlReaches C (holds taken) NextNode I'
        = controlReaches C (holds taken) NextNode I := by
  obtain ⟨⟨r, I'⟩, hopt⟩ := optimizeBranch_ok_of_invariant C I NextNode hinv
  exact ⟨r, I', hopt,
    controlReaches_optimizeBranch C I I' NextNode r holds hlabel hAL hP hopp hopt⟩

theorem optimizeBranch_preserves_control_flow_witness :
    optimizeBranch sampleCondTable (construct (some 1) (some 2) none SampleCond.EQ) (some 1)
      = .ok (true, { TargetTrue := some 2, TargetFalse := none, Label := none,
                     Predicate := SampleCond.NE, Deleted := false }) ∧
    controlReaches sampleCondTable (sampleHolds false) (some 1)
        (construct (some 1) (some 2) none SampleCond.EQ)
      = .ok (some (BranchTarget.cfgNodeLabel 2)) ∧
    ∃ (r : Bool) (I' : InstARM32Br SampleCond),
      optimizeBranch sampleCondTable (construct (some 1) (some 2) none SampleCond.EQ) (some 1)
        = .ok (r, I') ∧
      ∀ taken, controlReaches sampleCondTable (sampleHolds taken) (some 1) I'
        = controlReaches sampleCondTable (sampleHolds taken) (some 1)
          (construct (some 1) (some 2) none SampleCond.EQ) :=
  ⟨rfl, rfl,
    optimizeBranch_preserves_control_flow sampleCondTable
      (construct (some 1) (some 2) none SampleCond.EQ) (some 1) sampleHolds
      (by rfl) (fun h => absurd h (by decide)) (fun _ => rfl)
      (fun _ _ => rfl) (fun taken => by cases taken <;> rfl)⟩

/-! ## Size accounting of the fallback -/

namespace InstARM32

variable {IceType Cond : Type}

/-- With text output and the fallback enabled, `emitUsingTextFixup` restores the
emit stream and hands the rendered text to `emitTextInst` with the value that
the counter has after `emit`, which started from `InstSize`. -/
theorem emitUsingTextFixup_reports (flags : EmitFlags) (InstSize : Nat)
    (emit : EmitContext IceType Cond → Except String (EmitContext IceType Cond))
    (ctx ctx2 : EmitContext IceType Cond)
    (hdump : flags.dump = true) (hhyb : flags.DisableHybridAssembly = false)
    (hemit : emit { StrEmit := "", Asm := (ctx.Asm.resetEmitTextSize).incEmitTextSize InstSize }
      = .ok ctx2) :
    emitUsingTextFixup flags InstSize emit ctx
      = .ok { StrEmit := ctx.StrEmit,
              Asm := ctx2.Asm.emitTextInst ctx2.StrEmit ctx2.Asm.EmitTextSize } ∧
    reportedSize (emitUsingTextFixup flags InstSize emit ctx) = some ctx2.Asm.EmitTextSize := by
  have h : emitUsingTextFixup flags InstSize emit ctx
      = .ok { StrEmit := ctx.StrEmit,
              Asm := ctx2.Asm.emitTextInst ctx2.StrEmit ctx2.Asm.EmitTextSize } := by
    simp [emitUsingTextFixup, hdump, hhyb, hemit, AssemblerARM32.getEmitTextSize]
  refine ⟨h, ?_⟩
  rw [h]
  simp [reportedSize, AssemblerARM32.emitTextInst]

end InstARM32

/-- C22 (as amended): with text output and the fallback enabled, the size that
`emitUsingTextFixup` reports to `emitTextInst` is the value of the emitted-text
counter after `emit`, which starts from `InstSize`. It equals `InstSize`,
whatever text is rendered, when `emit` only writes text; so it does for a
branch that renders a single `b`. A conditional branch with both targets
renders two and reports twice `InstSize`, and a label reports zero. -/
theorem fallback_reported_size {IceType Cond : Type} [DecidableEq Cond]
    (flags : EmitFlags) (names : TextNames IceType Cond) (C : CondTable Cond)
    (InstSize : Nat) (ctx : EmitContext IceType Cond)
    (hdump : flags.dump = true) (hhyb : flags.DisableHybridAssembly = false) :
    (∀ text : String,
      InstARM32.reportedSize
        (InstARM32.emitUsingTextFixup flags InstSize (fun c => .ok (c.write text)) ctx)
        = some InstSize) ∧
    (∀ (I : InstARM32Br Cond) (L : InstARM32Label), I.Label = some L →
      InstARM32.reportedSize (InstARM32.emitUsingTextFixup flags InstSize
        (InstARM32Br.emit flags names C InstSize I) ctx) = some InstSize) ∧
    (∀ (I : InstARM32Br Cond) (F : CfgNode), I.Label = none →
      isUnconditionalBranch C I = true → I.TargetFalse = some F →
      InstARM32.reportedSize (InstARM32.emitUsingTextFixup flags InstSize
        (InstARM32Br.emit flags names C InstSize I) ctx) = some InstSize) ∧
    (∀ (I : InstARM32Br Cond) (T : CfgNode), I.Label = none →
      isUnconditionalBranch C I = false → I.TargetTrue = some T → I.TargetFalse = none →
      InstARM32.reportedSize (InstARM32.emitUsingTextFixup flags InstSize
        (InstARM32Br.emit flags names C InstSize I) ctx) = some InstSize) ∧
    (∀ (I : InstARM32Br Cond) (T F : CfgNode), I.Label = none →
      isUnconditionalBranch C I = false → I.TargetTrue = some T → I.TargetFalse = some F →
      InstARM32.reportedSize (InstARM32.emitUsingTextFixup flags InstSize
        (InstARM32Br.emit flags names C InstSize I) ctx) = some (InstSize + InstSize)) ∧
    (∀ L : InstARM32Label,
      InstARM32.reportedSize (InstARM32.emitUsingTextFixup flags InstSize
        (InstARM32Label.emit flags names InstSize L) ctx) = some 0) := by
  refine ⟨?_, ?_, ?_, ?_, ?_, ?_⟩
  · intro text
    rw [(InstARM32.emitUsingTextFixup_reports flags InstSize (fun c => .ok (c.write text)) ctx _
      hdump hhyb rfl).2]
    simp [EmitContext.write, AssemblerARM32.incEmitTextSize, AssemblerARM32.resetEmitTextSize]
  · intro I L hL
    rw [(InstARM32.emitUsingTextFixup_reports flags InstSize _ ctx _ hdump hhyb
      (by simp only [InstARM32Br.emit, hdump, hL]; rfl)).2]
    simp [EmitContext.write, AssemblerARM32.incEmitTextSize, AssemblerARM32.resetEmitTextSize]
  · intro I F hL hu hF
    rw [(InstARM32.emitUsingTextFixup_reports flags InstSize _ ctx _ hdump hhyb
      (by simp only [InstARM32Br.emit, hdump, hL, hu, hF]; rfl)).2]
    simp [EmitContext.write, AssemblerARM32.incEmitTextSize, AssemblerARM32.resetEmitTextSize]
  · intro I T hL hu hT hF
    rw [(InstARM32.emitUsingTextFixup_reports flags InstSize _ ctx _ hdump hhyb
      (by simp only [InstARM32Br.emit, hdump, hL, hu, hT, hF]; rfl)).2]
    simp [EmitContext.write, AssemblerARM32.incEmitTextSize, AssemblerARM32.resetEmitTextSize]
  · intro I T F hL hu hT hF
    rw [(InstARM32.emitUsingTextFixup_reports flags InstSize _ ctx _ hdump hhyb
      (by simp only [InstARM32Br.emit, hdump, hL, hu, hT, hF]; rfl)).2]
    simp [EmitContext.write, InstARM32.startNextInst, AssemblerARM32.incEmitTextSize,
      AssemblerARM32.resetEmitTextSize]
  · intro L
    rw [(InstARM32.emitUsingTextFixup_reports flags InstSize _ ctx _ hdump hhyb
      (by simp only [InstARM32Label.emit, hdump]; rfl)).2]
    simp [EmitContext.write, AssemblerARM32.incEmitTextSize, AssemblerARM32.resetEmitTextSize,
      AssemblerARM32.decEmitTextSize]

theorem fallback_reported_size_witness :
    InstARM32.reportedSize (InstARM32.emitUsingTextFixup
        { dump := true, DisableHybridAssembly := false } 4
        (InstARM32Br.emit { dump := true, DisableHybridAssembly := false } sampleNames
          sampleCondTable 4 (construct none (some 2) none SampleCond.AL)) sampleContext)
      = some 4 :=
  (fallback_reported_size { dump := true, DisableHybridAssembly := false } sampleNames
    sampleCondTable 4 sampleContext rfl rfl).2.2.1
    (construct none (some 2) none SampleCond.AL) 2 rfl rfl rfl

/-- C22 (as stated, refuted): a conditional branch with both targets that goes
through the fallback reports twice its `InstSize`, because `emit` calls
`startNextInst` for the second `b`. -/
theorem fallback_reported_size_two_branches :
    InstARM32.reportedSize (InstARM32.emitUsingTextFixup
        { dump := true, DisableHybridAssembly := false } 4
        (InstARM32Br.emit { dump := true, DisableHybridAssembly := false } sampleNames
          sampleCondTable 4 (construct (some 1) (some 2) none SampleCond.EQ)) sampleContext)
      = some 8 ∧
    ¬ (∀ (InstSize : Nat) (I : InstARM32Br SampleCond) (size : Nat),
        InstARM32.reportedSize (InstARM32.emitUsingTextFixup
          { dump := true, DisableHybridAssembly := false } InstSize
          (InstARM32Br.emit { dump := true, DisableHybridAssembly := false } sampleNames
            sampleCondTable InstSize I) sampleContext) = some size →
        size = InstSize) := by
  have h8 : InstARM32.reportedSize (InstARM32.emitUsingTextFixup
        { dump := true, DisableHybridAssembly := false } 4
        (InstARM32Br.emit { dump := true, DisableHybridAssembly := false } sampleNames
          sampleCondTable 4 (construct (some 1) (some 2) none SampleCond.EQ)) sampleContext)
      = some 8 := by
    rw [(InstARM32.emitUsingTextFixup_reports _ 4 _ sampleContext _ rfl rfl
      (by simp only [InstARM32Br.emit, construct]; rfl)).2]
    rfl
  refine ⟨h8, fun h => ?_⟩
  have := h 4 (construct (some 1) (some 2) none SampleCond.EQ) 8 h8
  omega

/-! ## The two paths of a float pop -/

/-- C28 (refuted at two inputs): on the list `s16, s17, s21` the textual path of
pop prints the run `s21` before the run `s16, s17`, while the binary path pops
`s16, s17` first; on twenty consecutive registers the text is a single `vpop`
of twenty registers, counted as one instruction, while the binary path splits
them into runs of sixteen and four. Both lists pass the constructor. -/
theorem pop_text_and_binary_differ :
    (InstARM32Pop.construct sampleIceTypes
        [⟨.f32, 16⟩, ⟨.f32, 17⟩, ⟨.f32, 21⟩]).toOption.isSome = true ∧
    EmitContext.textAndSize
        (InstARM32Pop.emit { dump := true, DisableHybridAssembly := false } sampleIceTypes
          sampleNames 4 { Dests := [⟨.f32, 16⟩, ⟨.f32, 17⟩, ⟨.f32, 21⟩] } sampleContext)
      = .ok ("\tvpop\t\x7bs21\x7d\n\tvpop\t\x7bs16, s17\x7d", 4) ∧
    InstARM32Pop.emitIAS sampleIceTypes sampleRegTable
        { Dests := [⟨.f32, 16⟩, ⟨.f32, 17⟩, ⟨.f32, 21⟩] }
      = .ok [.vpop ⟨.f32, 16⟩ 2, .vpop ⟨.f32, 21⟩ 1] ∧
    (InstARM32Pop.construct sampleIceTypes (sampleFloatRegs 0 20)).toOption.isSome = true ∧
    EmitContext.textAndSize
        (InstARM32Pop.emit { dump := true, DisableHybridAssembly := false } sampleIceTypes
          sampleNames 4 { Dests := sampleFloatRegs 0 20 } sampleContext)
      = .ok ("\tvpop\t\x7bs0, s1, s2, s3, s4, s5, s6, s7, s8, s9, s10, s11, s12, s13, s14, " ++
              "s15, s16, s17, s18, s19\x7d", 0) ∧
    InstARM32Pop.emitIAS sampleIceTypes sampleRegTable { Dests := sampleFloatRegs 0 20 }
      = .ok [.vpop ⟨.f32, 0⟩ 16, .vpop ⟨.f32, 16⟩ 4] := by
  refine ⟨by rfl, by rfl, by rfl, by rfl, by rfl, by rfl⟩

/-! ## The two paths of a plain move -/

/-- The function `isMemoryAccess` holds of the variables without a register and
of the memory operands, and of nothing else. -/
theorem isMemoryAccess_iff {IceType : Type} (Op : Operand IceType) :
    isMemoryAccess Op = true ↔
      (∃ v, Op = .Var v ∧ v.hasReg = false) ∨ ∃ m, Op = .Mem m := by
  cases Op <;> simp [isMemoryAccess, isVariableWithoutRegister]

/-- C23: whenever the textual path of a single-destination single-source move
runs, which is in a build with textual output (`BuildDefs::dump()`; otherwise
`InstARM32Mov::emit` and `emitUsingTextFixup` return before calling it), the
textual and the binary path both raise `mov can't store.` if the destination
has no register, and both raise `mov can't load.` if it has one and the source
is a variable without a register or a memory operand; otherwise both return
normally. So the two paths raise the same error on the same inputs. -/
theorem mov_single_paths_reject_alike {IceType Cond : Type}
    (flags : EmitFlags) (names : TextNames IceType Cond)
    (handles : EncodeCall IceType Cond → Bool) (T : TypeTable IceType) (Ty : IceTypes IceType)
    (I : InstARM32Mov IceType Cond) (Src0 : Operand IceType) (ctx : EmitContext IceType Cond)
    (hdump : flags.dump = true) (hsrc : I.Srcs[0]? = some Src0) :
    (I.Dest.hasReg = false →
      InstARM32Mov.emitSingleDestSingleSource flags names T Ty I ctx
        = .error "mov can't store." ∧
      InstARM32Mov.emitIASSingleDestSingleSource handles T Ty I ctx.Asm
        = .error "mov can't store.") ∧
    (I.Dest.hasReg = true →
      ((∃ v, Src0 = .Var v ∧ v.hasReg = false) ∨ ∃ m, Src0 = .Mem m) →
      InstARM32Mov.emitSingleDestSingleSource flags names T Ty I ctx
        = .error "mov can't load." ∧
      InstARM32Mov.emitIASSingleDestSingleSource handles T Ty I ctx.Asm
        = .error "mov can't load.") ∧
    (I.Dest.hasReg = true →
      ¬ ((∃ v, Src0 = .Var v ∧ v.hasReg = false) ∨ ∃ m, Src0 = .Mem m) →
      (∃ ctx2, InstARM32Mov.emitSingleDestSingleSource flags names T Ty I ctx = .ok ctx2) ∧
      (∃ Asm, InstARM32Mov.emitIASSingleDestSingleSource handles T Ty I ctx.Asm = .ok Asm)) ∧
    (∀ e : String,
      InstARM32Mov.emitSingleDestSingleSource flags names T Ty I ctx = .error e ↔
      InstARM32Mov.emitIASSingleDestSingleSource handles T Ty I ctx.Asm = .error e) := by
  have hmem := isMemoryAccess_iff Src0
  have c1 : I.Dest.hasReg = false →
      InstARM32Mov.emitSingleDestSingleSource flags names T Ty I ctx
        = .error "mov can't store." ∧
      InstARM32Mov.emitIASSingleDestSingleSource handles T Ty I ctx.Asm
        = .error "mov can't store." := by
    intro hd
    simp [InstARM32Mov.emitSingleDestSingleSource, InstARM32Mov.emitIASSingleDestSingleSource,
      hdump, hsrc, hd]
  have c2 : I.Dest.hasReg = true → isMemoryAccess Src0 = true →
      InstARM32Mov.emitSingleDestSingleSource flags names T Ty I ctx
        = .error "mov can't load." ∧
      InstARM32Mov.emitIASSingleDestSingleSource handles T Ty I ctx.Asm
        = .error "mov can't load." := by
    intro hd hm
    simp [InstARM32Mov.emitSingleDestSingleSource, InstARM32Mov.emitIASSingleDestSingleSource,
      hdump, hsrc, hd, hm]
  have c3 : I.Dest.hasReg = true → isMemoryAccess Src0 = false →
      (∃ ctx2, InstARM32Mov.emitSingleDestSingleSource flags names T Ty I ctx = .ok ctx2) ∧
      (∃ Asm, InstARM32Mov.emitIASSingleDestSingleSource handles T Ty I ctx.Asm = .ok Asm) := by
    intro hd hm
    constructor
    · simp [InstARM32Mov.emitSingleDestSingleSource, hdump, hsrc, hd, hm]
    · simp only [InstARM32Mov.emitIASSingleDestSingleSource, hsrc, hd, hm]
      by_cases hv : (T.isVectorType I.Dest.getType || T.isScalarFloatingType I.Dest.getType ||
          isMoveBetweenCoreAndVFPRegisters T Ty I.Dest Src0) = true
      · exact ⟨ctx.Asm.setNeedsTextFixup, by simp [hv]⟩
      · exact ⟨ctx.Asm.encode handles (.mov I.Dest Src0 I.Predicate), by simp [hv]⟩
  refine ⟨c1, fun hd hs => c2 hd (hmem.2 hs), fun hd hs => c3 hd ?_, fun e => ?_⟩
  · cases hm : isMemoryAccess Src0
    · rfl
    · exact absurd (hmem.1 hm) hs
  · cases hd : I.Dest.hasReg
    · simp only [(c1 hd).1, (c1 hd).2, Except.error.injEq]
    · cases hm : isMemoryAccess Src0
      · obtain ⟨⟨c, hc⟩, ⟨A, hA⟩⟩ := c3 hd hm
        rw [hc, hA]
        constructor <;> intro h <;> cases h
      · simp only [(c2 hd hm).1, (c2 hd hm).2, Except.error.injEq]

theorem mov_single_paths_reject_alike_witness :
    (InstARM32Mov.emitSingleDestSingleSource { dump := true, DisableHybridAssembly := false }
        sampleNames sampleTypeTable sampleIceTypes
        { Dest := ⟨.i32, -1⟩, DestHi := none, Srcs := [.Var ⟨.i32, 1⟩], Predicate := .AL }
        sampleContext = .error "mov can't store." ∧
      InstARM32Mov.emitIASSingleDestSingleSource (fun _ => true) sampleTypeTable sampleIceTypes
        { Dest := ⟨.i32, -1⟩, DestHi := none, Srcs := [.Var ⟨.i32, 1⟩], Predicate := .AL }
        sampleContext.Asm = .error "mov can't store.") ∧
    ((∃ ctx2, InstARM32Mov.emitSingleDestSingleSource
        { dump := true, DisableHybridAssembly := false } sampleNames sampleTypeTable
        sampleIceTypes
        { Dest := ⟨.i32, 0⟩, DestHi := none, Srcs := [.Var ⟨.i32, 1⟩], Predicate := .AL }
        sampleContext = .ok ctx2) ∧
      (∃ Asm, InstARM32Mov.emitIASSingleDestSingleSource (fun _ => true) sampleTypeTable
        sampleIceTypes
        { Dest := ⟨.i32, 0⟩, DestHi := none, Srcs := [.Var ⟨.i32, 1⟩], Predicate := .AL }
        sampleContext.Asm = .ok Asm)) :=
  ⟨(mov_single_paths_reject_alike { dump := true, DisableHybridAssembly := false } sampleNames
      (fun _ => true) sampleTypeTable sampleIceTypes
      { Dest := ⟨.i32, -1⟩, DestHi := none, Srcs := [.Var ⟨.i32, 1⟩], Predicate := .AL }
      (.Var ⟨.i32, 1⟩) sampleContext rfl rfl).1 (by decide),
   (mov_single_paths_reject_alike { dump := true, DisableHybridAssembly := false } sampleNames
      (fun _ => true) sampleTypeTable sampleIceTypes
      { Dest := ⟨.i32, 0⟩, DestHi := none, Srcs := [.Var ⟨.i32, 1⟩], Predicate := .AL }
      (.Var ⟨.i32, 1⟩) sampleContext rfl rfl).2.2.1 (by decide)
      (by simp [Variable.hasReg, Variable.NoRegister])⟩

/-! ## Instructions that the binary path hands to the fallback -/

/-- When `emit` leaves the direct encodings and the fixup request of the assembler
alone, so does `emitUsingTextFixup`. -/
theorem emitUsingTextFixup_keepsEncoder {IceType Cond : Type} (flags : EmitFlags)
    (InstSize : Nat)
    (emit : EmitContext IceType Cond → Except String (EmitContext IceType Cond))
    (h : ∀ c c2, emit c = .ok c2 →
      c2.Asm.Encoded = c.Asm.Encoded ∧ c2.Asm.NeedsTextFixup = c.Asm.NeedsTextFixup) :
    ∀ c c2, InstARM32.emitUsingTextFixup flags InstSize emit c = .ok c2 →
      c2.Asm.Encoded = c.Asm.Encoded ∧ c2.Asm.NeedsTextFixup = c.Asm.NeedsTextFixup := by
  intro c c2 hc
  unfold InstARM32.emitUsingTextFixup at hc
  split at hc
  · cases hc; exact ⟨rfl, rfl⟩
  · split at hc
    · cases hc
    · cases he : emit { StrEmit := "", Asm := (c.Asm.resetEmitTextSize).incEmitTextSize InstSize }
        with
      | error e => simp [he] at hc
      | ok c3 =>
        simp only [he] at hc
        cases hc
        have := h _ _ he
        simpa [AssemblerARM32.emitTextInst, AssemblerARM32.resetEmitTextSize,
          AssemblerARM32.incEmitTextSize] using this

theorem ldr_emit_keepsEncoder {IceType Cond : Type} (flags : EmitFlags)
    (names : TextNames IceType Cond) (T : TypeTable IceType) (I : InstARM32Ldr IceType Cond) :
    ∀ c c2, InstARM32Ldr.emit flags names T I c = .ok c2 →
      c2.Asm.Encoded = c.Asm.Encoded ∧ c2.Asm.NeedsTextFixup = c.Asm.NeedsTextFixup := by
  intro c c2 hc
  simp only [InstARM32Ldr.emit] at hc
  repeat' split at hc
  all_goals cases hc
  all_goals exact ⟨rfl, rfl⟩

theorem str_emit_keepsEncoder {IceType Cond : Type} (flags : EmitFlags)
    (names : TextNames IceType Cond) (T : TypeTable IceType) (I : InstARM32Str IceType Cond) :
    ∀ c c2, InstARM32Str.emit flags names T I c = .ok c2 →
      c2.Asm.Encoded = c.Asm.Encoded ∧ c2.Asm.NeedsTextFixup = c.Asm.NeedsTextFixup := by
  intro c c2 hc
  simp only [InstARM32Str.emit] at hc
  repeat' split at hc
  all_goals cases hc
  all_goals exact ⟨rfl, rfl⟩

theorem mov_emit_keepsEncoder {IceType Cond : Type} (flags : EmitFlags)
    (names : TextNames IceType Cond) (T : TypeTable IceType) (Ty : IceTypes IceType)
    (I : InstARM32Mov IceType Cond) :
    ∀ c c2, InstARM32Mov.emit flags names T Ty I c = .ok c2 →
      c2.Asm.Encoded = c.Asm.Encoded ∧ c2.Asm.NeedsTextFixup = c.Asm.NeedsTextFixup := by
  intro c c2 hc
  simp only [InstARM32Mov.emit, InstARM32Mov.emitMultiDestSingleSource,
    InstARM32Mov.emitSingleDestMultiSource, InstARM32Mov.emitSingleDestSingleSource] at hc
  repeat' split at hc
  all_goals cases hc
  all_goals exact ⟨rfl, rfl⟩

/-- A constructed move is not both multi-destination and multi-source. -/
theorem mov_construct_not_both {IceType Cond : Type}
    (Dest : Variable IceType ⊕ Variable64On32 IceType)
    (Src : Operand IceType ⊕ Variable64On32 IceType) (Predicate : Cond)
    (I : InstARM32Mov IceType Cond)
    (h : InstARM32Mov.construct Dest Src Predicate = .ok I) :
    (I.isMultiDest && I.isMultiSource) = false := by
  cases Dest <;> cases Src <;> simp only [InstARM32Mov.construct] at h <;> cases h <;> rfl

/-- C24: for a load whose destination type, and a store whose value type, is
vector or scalar floating-point, and for a constructed move that is
multi-destination or multi-source, `emitIAS` is `emitUsingTextFixup` run on the
assembler with the text fixup requested; when it returns, the list of direct
encodings is the one it started with (no `ldr`, `str` or `mov` call was made) and
the request is set. -/
theorem emitIAS_defers_to_text_fixup {IceType Cond : Type}
    (flags : EmitFlags) (names : TextNames IceType Cond)
    (handles : EncodeCall IceType Cond → Bool) (T : TypeTable IceType) (Ty : IceTypes IceType)
    (InstSize : Nat) (ctx : EmitContext IceType Cond) :
    (∀ (Dest : Variable IceType) (Source : Operand IceType) (Predicate : Cond),
      (T.isVectorType Dest.getType || T.isScalarFloatingType Dest.getType) = true →
      InstARM32Ldr.emitIAS flags names handles T InstSize
          (InstARM32Ldr.construct Dest Source Predicate) ctx
        = InstARM32.emitUsingTextFixup flags InstSize
            (InstARM32Ldr.emit flags names T (InstARM32Ldr.construct Dest Source Predicate))
            { ctx with Asm := ctx.Asm.setNeedsTextFixup } ∧
      ∀ ctx2, InstARM32Ldr.emitIAS flags names handles T InstSize
          (InstARM32Ldr.construct Dest Source Predicate) ctx = .ok ctx2 →
        ctx2.Asm.Encoded = ctx.Asm.Encoded ∧ ctx2.Asm.NeedsTextFixup = true) ∧
    (∀ (Value : Variable IceType) (Mem : OperandARM32Mem IceType) (Predicate : Cond),
      (T.isVectorType Value.getType || T.isScalarFloatingType Value.getType) = true →
      InstARM32Str.emitIAS flags names handles T InstSize
          (InstARM32Str.construct Value Mem Predicate) ctx
        = InstARM32.emitUsingTextFixup flags InstSize
            (InstARM32Str.emit flags names T (InstARM32Str.construct Value Mem Predicate))
            { ctx with Asm := ctx.Asm.setNeedsTextFixup } ∧
      ∀ ctx2, InstARM32Str.emitIAS flags names handles T InstSize
          (InstARM32Str.construct Value Mem Predicate) ctx = .ok ctx2 →
        ctx2.Asm.Encoded = ctx.Asm.Encoded ∧ ctx2.Asm.NeedsTextFixup = true) ∧
    (∀ (Dest : Variable IceType ⊕ Variable64On32 IceType)
        (Src : Operand IceType ⊕ Variable64On32 IceType) (Predicate : Cond)
        (I : InstARM32Mov IceType Cond),
      InstARM32Mov.construct Dest Src Predicate = .ok I →
      (I.isMultiDest || I.isMultiSource) = true →
      InstARM32Mov.emitIAS flags names handles T Ty InstSize I ctx
        = InstARM32.emitUsingTextFixup flags InstSize (InstARM32Mov.emit flags names T Ty I)
            { ctx with Asm := ctx.Asm.setNeedsTextFixup } ∧
      ∀ ctx2, InstARM32Mov.emitIAS flags names handles T Ty InstSize I ctx = .ok ctx2 →
        ctx2.Asm.Encoded = ctx.Asm.Encoded ∧ ctx2.Asm.NeedsTextFixup = true) := by
  refine ⟨?_, ?_, ?_⟩
  · intro Dest Source Predicate hty
    have heq : InstARM32Ldr.emitIAS flags names handles T InstSize
          (InstARM32Ldr.construct Dest Source Predicate) ctx
        = InstARM32.emitUsingTextFixup flags InstSize
            (InstARM32Ldr.emit flags names T (InstARM32Ldr.construct Dest Source Predicate))
            { ctx with Asm := ctx.Asm.setNeedsTextFixup } := by
      have hty2 : (T.isVectorType (Variable.getType Dest) = true ∨
          T.isScalarFloatingType (Variable.getType Dest) = true) := by
        simpa using hty
      simp [InstARM32Ldr.emitIAS, InstARM32Ldr.construct, hty2,
        AssemblerARM32.needsTextFixup, AssemblerARM32.setNeedsTextFixup]
    refine ⟨heq, fun ctx2 h2 => ?_⟩
    rw [heq] at h2
    exact emitUsingTextFixup_keepsEncoder flags InstSize _
      (ldr_emit_keepsEncoder flags names T _) _ _ h2
  · intro Value Mem Predicate hty
    have heq : InstARM32Str.emitIAS flags names handles T InstSize
          (InstARM32Str.construct Value Mem Predicate) ctx
        = InstARM32.emitUsingTextFixup flags InstSize
            (InstARM32Str.emit flags names T (InstARM32Str.construct Value Mem Predicate))
            { ctx with Asm := ctx.Asm.setNeedsTextFixup } := by
      have hty2 : (T.isVectorType (Variable.getType Value) = true ∨
          T.isScalarFloatingType (Variable.getType Value) = true) := by
        simpa using hty
      simp [InstARM32Str.emitIAS, InstARM32Str.construct, Operand.getType, hty2,
        AssemblerARM32.needsTextFixup, AssemblerARM32.setNeedsTextFixup]
    refine ⟨heq, fun ctx2 h2 => ?_⟩
    rw [heq] at h2
    exact emitUsingTextFixup_keepsEncoder flags InstSize _
      (str_emit_keepsEncoder flags names T _) _ _ h2
  · intro Dest Src Predicate I hI hmulti
    have hboth := mov_construct_not_both Dest Src Predicate I hI
    have heq : InstARM32Mov.emitIAS flags names handles T Ty InstSize I ctx
        = InstARM32.emitUsingTextFixup flags InstSize (InstARM32Mov.emit flags names T Ty I)
            { ctx with Asm := ctx.Asm.setNeedsTextFixup } := by
      simp [InstARM32Mov.emitIAS, hboth, hmulti,
        AssemblerARM32.needsTextFixup, AssemblerARM32.setNeedsTextFixup]
    refine ⟨heq, fun ctx2 h2 => ?_⟩
    rw [heq] at h2
    exact emitUsingTextFixup_keepsEncoder flags InstSize _
      (mov_emit_keepsEncoder flags names T Ty _) _ _ h2

theorem emitIAS_defers_to_text_fixup_witness :
    (InstARM32Ldr.emitIAS { dump := true, DisableHybridAssembly := false } sampleNames
        (fun _ => true) sampleTypeTable 4
        (InstARM32Ldr.construct ⟨.f32, 16⟩ (.Other .i32) SampleCond.AL) sampleContext
      = InstARM32.emitUsingTextFixup { dump := true, DisableHybridAssembly := false } 4
          (InstARM32Ldr.emit { dump := true, DisableHybridAssembly := false } sampleNames
            sampleTypeTable (InstARM32Ldr.construct ⟨.f32, 16⟩ (.Other .i32) SampleCond.AL))
          { sampleContext with Asm := sampleContext.Asm.setNeedsTextFixup }) ∧
    (InstARM32Ldr.emitIAS { dump := true, DisableHybridAssembly := false } sampleNames
        (fun _ => true) sampleTypeTable 4
        (InstARM32Ldr.construct ⟨.f32, 16⟩ (.Other .i32) SampleCond.AL) sampleContext).map
          (fun c => (c.Asm.Encoded, c.Asm.NeedsTextFixup, c.Asm.TextInsts))
      = .ok ([], true, [("\tvldr\ts16, #imm", 4)]) ∧
    (InstARM32Mov.emitIAS { dump := true, DisableHybridAssembly := false } sampleNames
        (fun _ => true) sampleTypeTable sampleIceTypes 4
        { Dest := ⟨.i32, 0⟩, DestHi := some ⟨.i32, 1⟩, Srcs := [.Var ⟨.f32, 16⟩],
          Predicate := SampleCond.AL } sampleContext
      = InstARM32.emitUsingTextFixup { dump := true, DisableHybridAssembly := false } 4
          (InstARM32Mov.emit { dump := true, DisableHybridAssembly := false } sampleNames
            sampleTypeTable sampleIceTypes
            { Dest := ⟨.i32, 0⟩, DestHi := some ⟨.i32, 1⟩, Srcs := [.Var ⟨.f32, 16⟩],
              Predicate := SampleCond.AL })
          { sampleContext with Asm := sampleContext.Asm.setNeedsTextFixup }) :=
  ⟨((emitIAS_defers_to_text_fixup { dump := true, DisableHybridAssembly := false } sampleNames
      (fun _ => true) sampleTypeTable sampleIceTypes 4 sampleContext).1
      ⟨.f32, 16⟩ (.Other .i32) SampleCond.AL (by decide)).1,
   by rfl,
   ((emitIAS_defers_to_text_fixup { dump := true, DisableHybridAssembly := false } sampleNames
      (fun _ => true) sampleTypeTable sampleIceTypes 4 sampleContext).2.2
      (.inr ⟨⟨.i32, 0⟩, ⟨.i32, 1⟩⟩) (.inl (.Var ⟨.f32, 16⟩)) SampleCond.AL _ (by rfl)
      (by decide)).1⟩

end ARM32

end Ice
